import Mathlib

/-!
# Ray caster: scene reader and renderer

A verification development for the ray caster made of `parser.c` (the scene
reader) and `raycast.c` (the intersection tests, the nearest-hit search and the
pixel loop).

## Numbers

The C type `double` is embedded as `Dbl K`: a finite value taken from an
ordered field `K`, or one of the three special values `+inf`, `-inf`, `NaN`.
Arithmetic on finite values is the exact arithmetic of `K` (rounding and
overflow are not part of the embedding, and zero carries no sign: it divides
like `+0`); the special values follow the arithmetic of the C type, so that a
division by zero yields an infinity or `NaN` and every ordered comparison with
`NaN` is false. The square root of the C library is a parameter
`sqrt : K → K`; the definitions can be evaluated over `ℚ` with `Rat.sqrt`,
and the theorems hold over every ordered field, the reals with `Real.sqrt`
included.

## Layout

The definitions come first: the type `double`, the intersection tests, the
nearest-hit search and the pixel loop of `raycast.c`, then the reader of
`parser.c`, with the relations that describe its run (`LoopReaches`,
`PropertiesReach`, `AtObject`, `AtProperty`, `ReadsObjects`). The theorems
follow: the intersection tests, the nearest hit, the pixel loop, the reader,
and the geometry of the sphere test.
-/

namespace Raycast

/-! ## The type `double` -/

/-- A value of the C type `double`: finite, or one of the special values. -/
inductive Dbl (K : Type) where
  | fin (x : K)
  | pinf
  | ninf
  | nan
deriving DecidableEq, Repr

namespace Dbl

variable {K : Type} [LinearOrderedField K]

/-- Unary minus. -/
def neg : Dbl K → Dbl K
  | fin x => fin (-x)
  | pinf => ninf
  | ninf => pinf
  | nan => nan

/-- Addition: opposite infinities add up to `NaN`. -/
def add : Dbl K → Dbl K → Dbl K
  | fin x, fin y => fin (x + y)
  | nan, _ => nan
  | _, nan => nan
  | pinf, ninf => nan
  | ninf, pinf => nan
  | pinf, _ => pinf
  | _, pinf => pinf
  | ninf, _ => ninf
  | _, ninf => ninf

/-- Subtraction. -/
def sub (a b : Dbl K) : Dbl K := add a (neg b)

/-- The product of an infinity of the given sign (`true` is `+inf`) with the
finite value `x`. -/
def infTimes (positive : Bool) (x : K) : Dbl K :=
  if x = 0 then nan
  else if (0 < x) = positive then pinf else ninf

/-- Multiplication: an infinity times zero is `NaN`. -/
def mul : Dbl K → Dbl K → Dbl K
  | fin x, fin y => fin (x * y)
  | nan, _ => nan
  | _, nan => nan
  | pinf, fin y => infTimes true y
  | ninf, fin y => infTimes false y
  | fin x, pinf => infTimes true x
  | fin x, ninf => infTimes false x
  | pinf, pinf => pinf
  | ninf, ninf => pinf
  | pinf, ninf => ninf
  | ninf, pinf => ninf

/-- Division: a non-zero finite value over zero is an infinity with the sign of
the numerator, zero over zero is `NaN`, a finite value over an infinity is
zero. -/
def div : Dbl K → Dbl K → Dbl K
  | fin x, fin y =>
    if y = 0 then (if 0 < x then pinf else if x < 0 then ninf else nan)
    else fin (x / y)
  | nan, _ => nan
  | _, nan => nan
  | fin _, pinf => fin 0
  | fin _, ninf => fin 0
  | pinf, fin y => if y < 0 then ninf else pinf
  | ninf, fin y => if y < 0 then pinf else ninf
  | pinf, pinf => nan
  | pinf, ninf => nan
  | ninf, pinf => nan
  | ninf, ninf => nan

/-- The library function `sqrt`, over the square root `sqrt` of the field:
`NaN` on a negative argument. -/
def sqrt (sqrt : K → K) : Dbl K → Dbl K
  | fin x => if x < 0 then nan else fin (sqrt x)
  | pinf => pinf
  | ninf => nan
  | nan => nan

/-- The comparison `a < b` of C: false as soon as one side is `NaN`. -/
def lt : Dbl K → Dbl K → Bool
  | fin x, fin y => decide (x < y)
  | ninf, fin _ => true
  | ninf, pinf => true
  | fin _, pinf => true
  | _, _ => false

/-- The comparison `a <= b` of C. -/
def le : Dbl K → Dbl K → Bool
  | fin x, fin y => decide (x ≤ y)
  | ninf, fin _ => true
  | ninf, pinf => true
  | fin _, pinf => true
  | pinf, pinf => true
  | ninf, ninf => true
  | _, _ => false

/-- The comparison `a > b` of C. -/
def gt (a b : Dbl K) : Bool := lt b a

/-- The comparison `a != b` of C: true as soon as one side is `NaN`. -/
def ne : Dbl K → Dbl K → Bool
  | fin x, fin y => decide (x ≠ y)
  | pinf, pinf => false
  | ninf, ninf => false
  | _, _ => true

instance : Neg (Dbl K) := ⟨neg⟩
instance : Add (Dbl K) := ⟨add⟩
instance : Sub (Dbl K) := ⟨sub⟩
instance : Mul (Dbl K) := ⟨mul⟩
instance : Div (Dbl K) := ⟨div⟩

/-- A value is finite. -/
def isFinite : Dbl K → Bool
  | fin _ => true
  | _ => false

end Dbl

/-! ## Vectors -/

/-- A C array `double[3]`. -/
structure Vec3 (K : Type) where
  v0 : Dbl K
  v1 : Dbl K
  v2 : Dbl K
deriving DecidableEq, Repr

/-- A triple of finite coordinates. -/
structure R3 (K : Type) where
  x : K
  y : K
  z : K
deriving DecidableEq, Repr

namespace R3

variable {K : Type} [LinearOrderedField K]

/-- The C array holding the three finite coordinates. -/
def toVec (p : R3 K) : Vec3 K := ⟨Dbl.fin p.x, Dbl.fin p.y, Dbl.fin p.z⟩

/-- Difference of two triples. -/
def sub (p q : R3 K) : R3 K := ⟨p.x - q.x, p.y - q.y, p.z - q.z⟩

/-- Dot product. -/
def dot (p q : R3 K) : K := p.x * q.x + p.y * q.y + p.z * q.z

/-- Squared length. -/
def normSq (p : R3 K) : K := dot p p

/-- The point `p + t * d`. -/
def along (p : R3 K) (t : K) (d : R3 K) : R3 K := ⟨p.x + t * d.x, p.y + t * d.y, p.z + t * d.z⟩

end R3

section Intersector

variable {K : Type} [LinearOrderedField K]

open Dbl

/-- Modelled from the spec: the helper `sqr` is declared in `structures.h`,
which is not among the sources; the quadratic of the spec has `a = |Rd|²`, so
`sqr v` is the square `v * v`. -/
def sqr (v : Dbl K) : Dbl K := v * v

/-- Modelled from the spec: the helper `normalize` is declared in
`structures.h`, which is not among the sources; the spec has the direction
"normalized before intersection testing" and stored normals of unit length, so
`normalize` divides each component by the length of the vector. -/
def normalize (sqrt : K → K) (v : Vec3 K) : Vec3 K :=
  let len := Dbl.sqrt sqrt (sqr v.v0 + sqr v.v1 + sqr v.v2)
  ⟨v.v0 / len, v.v1 / len, v.v2 / len⟩

/-- The function `sphere_intersection` of `raycast.c`: the distance along the
ray `Ro + t * Rd` to the sphere of centre `C` and radius `r`, or `-1`. -/
def sphere_intersection (sqrt : K → K) (Ro Rd C : Vec3 K) (r : Dbl K) : Dbl K :=
  let a := sqr Rd.v0 + sqr Rd.v1 + sqr Rd.v2
  let b := fin 2 * (Rd.v0 * (Ro.v0 - C.v0) + Rd.v1 * (Ro.v1 - C.v1) + Rd.v2 * (Ro.v2 - C.v2))
  let c := sqr (Ro.v0 - C.v0) + sqr (Ro.v1 - C.v1) + sqr (Ro.v2 - C.v2) - sqr r
  let det := sqr b - fin 4 * a * c
  if Dbl.lt det (fin 0) then fin (-1)
  else
    let det := Dbl.sqrt sqrt det
    let t := (-b - det) / (fin 2 * a)
    if Dbl.gt t (fin 0) then t
    else
      let t := (-b + det) / (fin 2 * a)
      if Dbl.gt t (fin 0) then t
      else fin (-1)

/-- The function `plane_intersection` of `raycast.c`: the distance along the
ray `Ro + t * Rd` to the plane through `p` with normal `n`, or `-1`. -/
def plane_intersection (Ro Rd p n : Vec3 K) : Dbl K :=
  let top := n.v0 * Ro.v0 - n.v0 * p.v0 + n.v1 * Ro.v1 - n.v1 * p.v1 + n.v2 * Ro.v2 - n.v2 * p.v2
  let bottom := n.v0 * Rd.v0 + n.v1 * Rd.v1 + n.v2 * Rd.v2
  let t := fin (-1) * top / bottom
  if Dbl.gt t (fin 0) then t
  else fin (-1)

/-- A vector of unit length: the sum of the squares of its components is 1. -/
def unit_length (v : Vec3 K) : Prop := sqr v.v0 + sqr v.v1 + sqr v.v2 = fin 1

/-- The coefficient `a = |Rd|²` of the quadratic of the sphere test. -/
def sphere_a (Rd : R3 K) : K := Rd.normSq

/-- The coefficient `b = 2 Rd·(Ro − C)` of the quadratic of the sphere test. -/
def sphere_b (Ro Rd C : R3 K) : K := 2 * Rd.dot (Ro.sub C)

/-- The coefficient `c = |Ro − C|² − r²` of the quadratic of the sphere test. -/
def sphere_c (Ro C : R3 K) (r : K) : K := (Ro.sub C).normSq - r * r

/-- The discriminant `b² − 4ac` of the quadratic of the sphere test. -/
def sphere_disc (Ro Rd C : R3 K) (r : K) : K :=
  sphere_b Ro Rd C * sphere_b Ro Rd C - 4 * sphere_a Rd * sphere_c Ro C r

/-- The triple `p` scaled by the factor `k`. -/
def R3.scale (k : K) (p : R3 K) : R3 K := ⟨k * p.x, k * p.y, k * p.z⟩

/-- The point `P` lies on the sphere of centre `C` and radius `r`. -/
def on_sphere (P C : R3 K) (r : K) : Prop := (P.sub C).normSq = r * r

end Intersector

/-! ## Scenes

The struct declarations are in `structures.h`, which is not among the sources;
the records below carry the fields the sources read and write. Values of type
`int` (image dimensions, loop counters, buffer indices) are natural numbers. -/

/-- The struct `Camera`. -/
structure Camera (K : Type) where
  width : Dbl K
  height : Dbl K
deriving DecidableEq, Repr

/-- The struct `Sphere` (object id 2). -/
structure Sphere (K : Type) where
  pos : Vec3 K
  radius : Dbl K
  color : Vec3 K
deriving DecidableEq, Repr

/-- The struct `Plane` (object id 3). -/
structure Plane (K : Type) where
  pos : Vec3 K
  normal : Vec3 K
  color : Vec3 K
deriving DecidableEq, Repr

/-- An entry of the object list of a scene. The reader stores spheres and
planes only, so the `default:` branch of the `switch` of `cast_ray` (an
unsupported id) has no counterpart. -/
inductive Object (K : Type) where
  | sphere (s : Sphere K)
  | plane (p : Plane K)
deriving DecidableEq, Repr

/-- The struct `Scene` as the renderer reads it. -/
structure Scene (K : Type) where
  cam : Camera K
  objects : List (Object K)
deriving DecidableEq, Repr

/-- What `cast_ray` hands back when it finds an object: the object
`objects[index]` and the ray length written through `ray_len`. -/
structure Hit (K : Type) where
  index : Nat
  object : Object K
  ray_len : Dbl K
deriving DecidableEq, Repr

/-- Modelled from the spec: the struct `Pixel` is declared in a header that is
not among the sources; the spec has "each pixel three channel samples in
`[0,1]` real range", so a pixel holds three samples of type `double`. -/
structure Pixel (K : Type) where
  r : Dbl K
  g : Dbl K
  b : Dbl K
deriving DecidableEq, Repr

/-- The struct `Image`: the buffer has one slot for each of the
`height * width` pixels, `none` while the slot has not been written. -/
structure Image (K : Type) where
  width : Nat
  height : Nat
  max_value : Nat
  buffer : List (Option (Pixel K))
deriving DecidableEq, Repr

section Renderer

variable {K : Type} [LinearOrderedField K]

open Dbl

/-- The `switch` of `cast_ray`: the intersection test of the object's kind. -/
def intersection (sqrt : K → K) (Ro Rd : Vec3 K) : Object K → Dbl K
  | .sphere s => sphere_intersection sqrt Ro Rd s.pos s.radius
  | .plane p => plane_intersection Ro Rd p.pos p.normal

/-- The `for` loop of `cast_ray`, entered at index `i` with the objects still
to visit and the current `(best_t, best_i)`. -/
def cast_ray_loop (sqrt : K → K) (Ro Rd : Vec3 K) :
    List (Object K) → Nat → Dbl K × Int → Dbl K × Int
  | [], _, best => best
  | o :: rest, i, (best_t, best_i) =>
    let t := intersection sqrt Ro Rd o
    if Dbl.gt t (fin 0) && Dbl.lt t best_t then
      cast_ray_loop sqrt Ro Rd rest (i + 1) (t, (i : Int))
    else
      cast_ray_loop sqrt Ro Rd rest (i + 1) (best_t, best_i)

/-- The function `cast_ray` of `raycast.c`: the closest object on the ray and
the length of the ray, or `none` for the `NULL` result. The `NULL` branch of
the source writes `-1` through the name `ret_t`, which the function does not
declare; the branch is taken as returning `NULL`. -/
def cast_ray (sqrt : K → K) (objects : List (Object K)) (Ro Rd : Vec3 K) : Option (Hit K) :=
  let best := cast_ray_loop sqrt Ro Rd objects 0 (pinf, -1)
  let best_t := best.1
  let best_i := best.2
  if Dbl.gt best_t (fin 0) && Dbl.ne best_t pinf && best_i != -1 then
    objects[best_i.toNat]?.map (fun o => ⟨best_i.toNat, o, best_t⟩)
  else
    none

/-- A value the loop of `cast_ray` can take as a new `best_t`: strictly
positive, and strictly below the initial `best_t = INFINITY`. -/
def hit_distance (t : Dbl K) : Prop := Dbl.gt t (fin 0) = true ∧ Dbl.lt t pinf = true

/-- The state of the loop of `cast_ray` once the objects `seen` have been
visited: either nothing was taken (`best_i = -1`, `best_t = INFINITY`) and no
object seen has a hit distance, or `best_i` is the index of an object seen,
`best_t` is its distance, no object seen has a hit distance strictly smaller,
and every object seen before `best_i` has a hit distance strictly larger. -/
def NearestSoFar (sqrt : K → K) (Ro Rd : Vec3 K) (seen : List (Object K))
    (best_t : Dbl K) (best_i : Int) : Prop :=
  (best_i = -1 ∧ best_t = pinf ∧
    ∀ o ∈ seen, ¬ hit_distance (intersection sqrt Ro Rd o)) ∨
  (∃ (k : Nat) (o : Object K), best_i = (k : Int) ∧ seen[k]? = some o ∧
    best_t = intersection sqrt Ro Rd o ∧ hit_distance best_t ∧
    ∀ (j : Nat) (o2 : Object K), seen[j]? = some o2 →
      hit_distance (intersection sqrt Ro Rd o2) →
        Dbl.lt (intersection sqrt Ro Rd o2) best_t = false ∧
        (j < k → Dbl.lt best_t (intersection sqrt Ro Rd o2) = true))

/-- The read `((Sphere*)object)->color` of `paint_scene`. On a sphere it is the
colour of the sphere. On a plane it goes through the field offsets of
`Sphere`; both structs are declared in `structures.h`, which is not among the
sources, so what the read finds in a plane is the parameter `planeRead`. -/
def color_read (planeRead : Plane K → Vec3 K) : Object K → Vec3 K
  | .sphere s => s.color
  | .plane p => planeRead p

/-- The ray direction `Rd` of pixel `(x, y)` in `paint_scene`, before
`normalize`, for a camera of size `w` by `h` and an image of `N` columns by
`M` rows. -/
def pixel_direction (w h : Dbl K) (M N x y : Nat) : Vec3 K :=
  let cx : Dbl K := fin 0
  let cy : Dbl K := fin 0
  let pixheight := h / fin (M : K)
  let pixwidth := w / fin (N : K)
  ⟨cx + (w / fin 2) - pixwidth * (fin (x : K) + fin (1 / 2)),
   cy + (h / fin 2) - pixheight * (fin (y : K) + fin (1 / 2)),
   fin 1⟩

/-- The ray origin `Ro` of every pixel in `paint_scene`. -/
def ray_origin : Vec3 K := ⟨fin 0, fin 0, fin 0⟩

/-- The body of the pixel loop of `paint_scene`: the pixel `pix` computed for
`(x, y)`. -/
def paint_pixel (sqrt : K → K) (planeRead : Plane K → Vec3 K) (scene : Scene K)
    (M N x y : Nat) : Pixel K :=
  let Rd := normalize sqrt (pixel_direction scene.cam.width scene.cam.height M N x y)
  match cast_ray sqrt scene.objects ray_origin Rd with
  | some hit =>
    let color := color_read planeRead hit.object
    ⟨color.v0, color.v1, color.v2⟩
  | none => ⟨fin 0, fin 0, fin 0⟩

/-- The inner loop of `paint_scene`: row `y` of the image, written into the
buffer for `x = 0, ..., N - 1`. -/
def paint_row (sqrt : K → K) (planeRead : Plane K → Vec3 K) (scene : Scene K)
    (M N y : Nat) (buffer : List (Option (Pixel K))) : List (Option (Pixel K)) :=
  (List.range N).foldl
    (fun buf x => buf.set (y * N + x) (some (paint_pixel sqrt planeRead scene M N x y))) buffer

/-- The function `paint_scene` of `raycast.c`. -/
def paint_scene (sqrt : K → K) (planeRead : Plane K → Vec3 K) (scene : Scene K)
    (height width : Nat) : Image K :=
  let M := height
  let N := width
  { width := N
    height := M
    max_value := 255
    buffer := (List.range M).foldl
      (fun buf y => paint_row sqrt planeRead scene M N y buf) (List.replicate (M * N) none) }

end Renderer

/-! ## The scene reader

The reader of `parser.c` runs over the characters of the scene file, here the
list of characters still to read; `fgetc` takes the head of the list, `ungetc`
puts a character back in front. Every `exit(1)` of the source is an error
value named after the message it prints; the line counter, which only feeds
those messages, is left out. The conversion `%lf` of `fscanf` belongs to the C
library and is a parameter of the reader. -/

/-- The ways the reader stops without a scene. -/
inductive ParseError where
  | unexpected_eof
  | expected_char (d : Char)
  | expected_string
  | string_too_long
  | escape_code
  | non_ascii
  | number_eof
  | invalid_number
  | expected_type_key
  | second_camera
  | unknown_type
  | width_non_camera
  | invalid_width
  | height_non_camera
  | invalid_height
  | radius_non_sphere
  | invalid_radius
  | invalid_color
  | non_colorable
  | normal_non_plane
  | unknown_property
  | expected_comma_or_brace
  | expected_comma_or_bracket
  | unexpected_char
  /-- Not an exit of the program: a write past the 128 slots allocated for
  the object list. -/
  | objects_overrun
  /-- Not an exit of the program: the bound on the number of loop turns was
  reached. -/
  | out_of_fuel
deriving DecidableEq, Repr

/-- A camera as the reader builds it: a field is `none` until it is assigned. -/
structure CameraFields (K : Type) where
  width : Option (Dbl K)
  height : Option (Dbl K)
deriving DecidableEq, Repr

/-- A sphere as the reader builds it: a field is `none` until it is assigned. -/
structure SphereFields (K : Type) where
  pos : Option (Vec3 K)
  radius : Option (Dbl K)
  color : Option (Vec3 K)
deriving DecidableEq, Repr

/-- A plane as the reader builds it: a field is `none` until it is assigned. -/
structure PlaneFields (K : Type) where
  pos : Option (Vec3 K)
  normal : Option (Vec3 K)
  color : Option (Vec3 K)
deriving DecidableEq, Repr

/-- The object `o` the reader is filling in: a camera (id 1), a sphere (id 2)
or a plane (id 3). -/
inductive ParsedObject (K : Type) where
  | camera (c : CameraFields K)
  | sphere (s : SphereFields K)
  | plane (p : PlaneFields K)
deriving DecidableEq, Repr

/-- The field `id` of an object. -/
def ParsedObject.id {K : Type} : ParsedObject K → Nat
  | .camera _ => 1
  | .sphere _ => 2
  | .plane _ => 3

/-- The scene the reader builds: `cam` is `none` for the `NULL` pointer, and
`objects` holds the entries `objects[0], ..., objects[index - 1]`. -/
structure ParsedScene (K : Type) where
  cam : Option (CameraFields K)
  objects : List (ParsedObject K)
deriving DecidableEq, Repr

/-- What the conversion `%lf` of `fscanf` finds at the head of the input: a
value and the number of characters it took, the end of the input, or
characters that are not a number. -/
inductive ScanResult (K : Type) where
  | value (v : Dbl K) (consumed : Nat)
  | eof
  | mismatch
deriving DecidableEq, Repr

/-- The library function `isspace` in the C locale. -/
def isspace (c : Char) : Bool :=
  c = ' ' || c = '\t' || c = '\n' || c = Char.ofNat 11 || c = Char.ofNat 12 || c = '\r'

/-- The function `next_c` of `parser.c`: the next character, or the error of
an unexpected end of file. -/
def next_c : List Char → Except ParseError (Char × List Char)
  | [] => .error .unexpected_eof
  | c :: rest => .ok (c, rest)

/-- The function `expect_c` of `parser.c`: the next character has to be `d`. -/
def expect_c (inp : List Char) (d : Char) : Except ParseError (List Char) :=
  match next_c inp with
  | .error e => .error e
  | .ok (c, rest) => if c = d then .ok rest else .error (.expected_char d)

/-- The function `skip_ws` of `parser.c`: reads on while the character is white
space and puts the first other character back. -/
def skip_ws : List Char → Except ParseError (List Char)
  | [] => .error .unexpected_eof
  | c :: rest => if isspace c then skip_ws rest else .ok (c :: rest)

/-- The `while` loop of `next_string`, entered with the input after the
character `c` just read, the index `i` and the buffer filled so far. -/
def next_string_loop : List Char → Nat → List Char → Except ParseError (String × List Char)
  | [], _, _ => .error .unexpected_eof
  | c :: rest, i, buffer =>
    if c = '"' then .ok (String.mk buffer, rest)
    else if i ≥ 128 then .error .string_too_long
    else if c = '\\' then .error .escape_code
    else if c.toNat < 32 || c.toNat > 126 then .error .non_ascii
    else next_string_loop rest (i + 1) (buffer ++ [c])

/-- The function `next_string` of `parser.c`. -/
def next_string (inp : List Char) : Except ParseError (String × List Char) :=
  match next_c inp with
  | .error e => .error e
  | .ok (c, rest) =>
    if c ≠ '"' then .error .expected_string
    else next_string_loop rest 0 []

/-- A character `next_string` takes into a string: printable ASCII, and not a
backslash. -/
def string_char (c : Char) : Prop := 32 ≤ c.toNat ∧ c.toNat ≤ 126 ∧ c ≠ '\\'

section Reader

variable {K : Type} [LinearOrderedField K]

open Dbl

/-- The function `next_number` of `parser.c`, over the conversion `scan`: the
end of the input and characters that are no number are its two errors. -/
def next_number (scan : List Char → ScanResult K) (inp : List Char) :
    Except ParseError (Dbl K × List Char) :=
  match scan inp with
  | .value v consumed => .ok (v, inp.drop consumed)
  | .eof => .error .number_eof
  | .mismatch => .error .invalid_number

/-- The function `next_vector` of `parser.c`. -/
def next_vector (scan : List Char → ScanResult K) (inp : List Char) :
    Except ParseError (Vec3 K × List Char) := do
  let inp ← expect_c inp '['
  let inp ← skip_ws inp
  let (v0, inp) ← next_number scan inp
  let inp ← skip_ws inp
  let inp ← expect_c inp ','
  let inp ← skip_ws inp
  let (v1, inp) ← next_number scan inp
  let inp ← skip_ws inp
  let inp ← expect_c inp ','
  let inp ← skip_ws inp
  let (v2, inp) ← next_number scan inp
  let inp ← skip_ws inp
  let inp ← expect_c inp ']'
  pure (⟨v0, v1, v2⟩, inp)

/-- The head of an object in `read_scene`, after its `{`: the key has to be
`"type"`, and the string after the colon is the type of the object. -/
def read_type (inp : List Char) : Except ParseError (String × List Char) := do
  let inp ← skip_ws inp
  let (key, inp) ← next_string inp
  if key ≠ "type" then
    throw .expected_type_key
  else
    let inp ← skip_ws inp
    let inp ← expect_c inp ':'
    let inp ← skip_ws inp
    next_string inp

/-- The object `read_scene` allocates for the type `value`: a second camera
and an unknown type are errors; a sphere or a plane takes the slot
`objects[index]`, one of 128. -/
def create_object (scene : ParsedScene K) (value : String) :
    Except ParseError (ParsedObject K) :=
  if value = "camera" then
    if scene.cam.isSome then .error .second_camera
    else .ok (.camera ⟨none, none⟩)
  else if value = "sphere" then
    if scene.objects.length ≥ 128 then .error .objects_overrun
    else .ok (.sphere ⟨none, none, none⟩)
  else if value = "plane" then
    if scene.objects.length ≥ 128 then .error .objects_overrun
    else .ok (.plane ⟨none, none, none⟩)
  else .error .unknown_type

/-- The value of one property in `read_scene`: the chain of `strcmp` on the
key, the value read, its checks and the assignment to the object `o`. -/
def assign_property (sqrt : K → K) (scan : List Char → ScanResult K) (key : String)
    (o : ParsedObject K) (inp : List Char) : Except ParseError (ParsedObject K × List Char) :=
  if key = "width" then do
    let (value, inp) ← next_number scan inp
    match o with
    | .camera c =>
      if Dbl.le value (fin 0) then throw .invalid_width
      else pure (.camera { c with width := some value }, inp)
    | _ => throw .width_non_camera
  else if key = "height" then do
    let (value, inp) ← next_number scan inp
    match o with
    | .camera c =>
      if Dbl.le value (fin 0) then throw .invalid_height
      else pure (.camera { c with height := some value }, inp)
    | _ => throw .height_non_camera
  else if key = "radius" then do
    let (value, inp) ← next_number scan inp
    match o with
    | .sphere s =>
      if Dbl.le value (fin 0) then throw .invalid_radius
      else pure (.sphere { s with radius := some value }, inp)
    | _ => throw .radius_non_sphere
  else if key = "color" then do
    let (value, inp) ← next_vector scan inp
    if Dbl.lt value.v0 (fin 0) || Dbl.gt value.v0 (fin 1) || Dbl.lt value.v1 (fin 0) ||
        Dbl.gt value.v1 (fin 1) || Dbl.lt value.v2 (fin 0) || Dbl.gt value.v2 (fin 1) then
      throw .invalid_color
    else
      match o with
      | .sphere s => pure (.sphere { s with color := some value }, inp)
      | .plane p => pure (.plane { p with color := some value }, inp)
      | .camera _ => throw .non_colorable
  else if key = "position" then do
    let (value, inp) ← next_vector scan inp
    match o with
    | .sphere s => pure (.sphere { s with pos := some value }, inp)
    | .plane p => pure (.plane { p with pos := some value }, inp)
    | .camera _ => throw .non_colorable
  else if key = "normal" then do
    let (value, inp) ← next_vector scan inp
    match o with
    | .plane p => pure (.plane { p with normal := some (normalize sqrt value) }, inp)
    | _ => throw .normal_non_plane
  else throw .unknown_property

/-- The inner `while (1)` of `read_scene`: the properties of the object `o`, up
to its closing `}`. -/
def read_properties (sqrt : K → K) (scan : List Char → ScanResult K) :
    Nat → ParsedObject K → List Char → Except ParseError (ParsedObject K × List Char)
  | 0, _, _ => .error .out_of_fuel
  | fuel + 1, o, inp => do
    let (c, inp) ← next_c inp
    if c = '}' then
      pure (o, inp)
    else if c = ',' then
      let inp ← skip_ws inp
      let (key, inp) ← next_string inp
      let inp ← skip_ws inp
      let inp ← expect_c inp ':'
      let inp ← skip_ws inp
      let (o, inp) ← assign_property sqrt scan key o inp
      let inp ← skip_ws inp
      read_properties sqrt scan fuel o inp
    else
      throw .expected_comma_or_brace

/-- Where the object `o` sits in the scene: `scene->cam` for a camera, the
next slot of the object list for a sphere or a plane. In the source the
pointer is stored when the object is allocated and the properties are written
through it; here the record is stored once its properties are read. -/
def store_object (scene : ParsedScene K) : ParsedObject K → ParsedScene K
  | .camera c => { scene with cam := some c }
  | o => { scene with objects := scene.objects ++ [o] }

/-- One object of the list in `read_scene`, from after its `{` to its `}`. -/
def read_object (sqrt : K → K) (scan : List Char → ScanResult K) (scene : ParsedScene K)
    (inp : List Char) : Except ParseError (ParsedScene K × List Char) := do
  let (value, inp) ← read_type inp
  let o ← create_object scene value
  let inp ← skip_ws inp
  let (o, inp) ← read_properties sqrt scan (inp.length + 1) o inp
  pure (store_object scene o, inp)

/-- The end of `read_scene`: the list is closed by `objects[index] = NULL`,
a write inside the 128 slots only when `index < 128`. -/
def close_scene (scene : ParsedScene K) : Except ParseError (ParsedScene K) :=
  if scene.objects.length ≥ 128 then .error .objects_overrun else .ok scene

/-- The outer `while (1)` of `read_scene`: the objects of the list. -/
def read_objects (sqrt : K → K) (scan : List Char → ScanResult K) :
    Nat → ParsedScene K → List Char → Except ParseError (ParsedScene K)
  | 0, _, _ => .error .out_of_fuel
  | _ + 1, _, [] => .error .unexpected_char
  | fuel + 1, scene, c :: inp =>
    if c = ']' then
      close_scene scene
    else if c = '{' then do
      let (scene, inp) ← read_object sqrt scan scene inp
      let inp ← skip_ws inp
      let (c, inp) ← next_c inp
      if c = ',' then
        let inp ← skip_ws inp
        read_objects sqrt scan fuel scene inp
      else if c = ']' then
        close_scene scene
      else
        throw .expected_comma_or_bracket
    else
      throw .unexpected_char

/-- The start of `read_scene`: white space, the `[` that opens the list, white
space. -/
def list_start (inp : List Char) : Except ParseError (List Char) := do
  let inp ← skip_ws inp
  let inp ← expect_c inp '['
  skip_ws inp

/-- The function `read_scene` of `parser.c`, on the content of the file: the
scene starts with no camera (`scene->cam = NULL`) and `index = 0`. -/
def read_scene (sqrt : K → K) (scan : List Char → ScanResult K) (inp : List Char) :
    Except ParseError (ParsedScene K) := do
  let inp ← list_start inp
  read_objects sqrt scan (inp.length + 1) ⟨none, []⟩ inp

/-- The object loop of `read_scene`, started on the input `inp0` with the
scene `scene0`, is back at the top of its body after `n` objects, with the
scene `scene` and the input `inp`. -/
inductive LoopReaches (sqrt : K → K) (scan : List Char → ScanResult K) :
    Nat → ParsedScene K → List Char → ParsedScene K → List Char → Prop where
  | start (scene : ParsedScene K) (inp : List Char) : LoopReaches sqrt scan 0 scene inp scene inp
  | object {n : Nat} {scene0 scene scene1 : ParsedScene K} {inp0 body r1 r3 r4 : List Char} :
      LoopReaches sqrt scan n scene0 inp0 scene ('{' :: body) →
      read_object sqrt scan scene body = .ok (scene1, r1) →
      skip_ws r1 = .ok (',' :: r3) →
      skip_ws r3 = .ok r4 →
      LoopReaches sqrt scan (n + 1) scene0 inp0 scene1 r4

/-- The key of a property in `read_scene`, after the `,` that announces it:
white space, the key, white space, the colon, white space. -/
def read_key (inp : List Char) : Except ParseError (String × List Char) := do
  let inp ← skip_ws inp
  let (key, inp) ← next_string inp
  let inp ← skip_ws inp
  let inp ← expect_c inp ':'
  let inp ← skip_ws inp
  pure (key, inp)

/-- The property loop of `read_scene`, started on the input `inp0` with the
object `o0`, is back at the top of its body after `n` properties, with the
object `o` and the input `inp`. -/
inductive PropertiesReach (sqrt : K → K) (scan : List Char → ScanResult K) :
    Nat → ParsedObject K → List Char → ParsedObject K → List Char → Prop where
  | start (o : ParsedObject K) (inp : List Char) : PropertiesReach sqrt scan 0 o inp o inp
  | property {n : Nat} {o0 o o1 : ParsedObject K} {inp0 r vinp r6 r7 : List Char} {key : String} :
      PropertiesReach sqrt scan n o0 inp0 o (',' :: r) →
      read_key r = .ok (key, vinp) →
      assign_property sqrt scan key o vinp = .ok (o1, r6) →
      skip_ws r6 = .ok r7 →
      PropertiesReach sqrt scan (n + 1) o0 inp0 o1 r7

/-- The reader, run on the file `inp`, gets to the `{` of an object, with the
scene `scene` built so far and `body` the input after the `{`. -/
def AtObject (sqrt : K → K) (scan : List Char → ScanResult K) (inp : List Char)
    (scene : ParsedScene K) (body : List Char) : Prop :=
  ∃ (inp1 : List Char) (n : Nat), list_start inp = .ok inp1 ∧
    LoopReaches sqrt scan n ⟨none, []⟩ inp1 scene ('{' :: body)

/-- The reader, run on the file `inp`, gets to the value of a property: `o` is
the object as built so far, `key` the key of the property and `vinp` the input
at its value. -/
def AtProperty (sqrt : K → K) (scan : List Char → ScanResult K) (inp : List Char)
    (o : ParsedObject K) (key : String) (vinp : List Char) : Prop :=
  ∃ (scene : ParsedScene K) (body r0 r1 r : List Char) (value : String) (o0 : ParsedObject K)
    (n : Nat),
    AtObject sqrt scan inp scene body ∧ read_type body = .ok (value, r0) ∧
    create_object scene value = .ok o0 ∧ skip_ws r0 = .ok r1 ∧
    PropertiesReach sqrt scan n o0 r1 o (',' :: r) ∧ read_key r = .ok (key, vinp)

/-- A colour component within the bounds of the spec: `0 <= x` and `x <= 1`. -/
def in_unit_interval (x : Dbl K) : Bool := Dbl.le (fin 0) x && Dbl.le x (fin 1)

/-- The object that `read_object` builds from the input after a `{`, before it
is stored in the scene: its type, its allocation and its properties. -/
def object_record (sqrt : K → K) (scan : List Char → ScanResult K) (scene : ParsedScene K)
    (body : List Char) : Except ParseError (ParsedObject K × List Char) := do
  let (value, inp) ← read_type body
  let o ← create_object scene value
  let inp ← skip_ws inp
  read_properties sqrt scan (inp.length + 1) o inp

/-- The object loop of `read_scene`, at the top of its body with the scene
`scene` and the input `inp`, reads the objects `os`, one for each `{ ... }` of
the input and in the order of the input, and then the `]` that ends the list. -/
inductive ReadsObjects (sqrt : K → K) (scan : List Char → ScanResult K) :
    ParsedScene K → List Char → List (ParsedObject K) → Prop where
  | close (scene : ParsedScene K) (rest : List Char) :
      ReadsObjects sqrt scan scene (']' :: rest) []
  | last {scene : ParsedScene K} {body r1 r3 : List Char} {o : ParsedObject K} :
      object_record sqrt scan scene body = .ok (o, r1) →
      skip_ws r1 = .ok (']' :: r3) →
      ReadsObjects sqrt scan scene ('{' :: body) [o]
  | more {scene : ParsedScene K} {body r1 r3 r4 : List Char} {o : ParsedObject K}
      {os : List (ParsedObject K)} :
      object_record sqrt scan scene body = .ok (o, r1) →
      skip_ws r1 = .ok (',' :: r3) →
      skip_ws r3 = .ok r4 →
      ReadsObjects sqrt scan (store_object scene o) r4 os →
      ReadsObjects sqrt scan scene ('{' :: body) (o :: os)

end Reader

/-- The binding of keys to kinds of objects, as the table of the spec has it:
`width` and `height` on a camera (id 1), `radius` on a sphere (id 2), `color`
and `position` on a sphere or a plane (id 3), `normal` on a plane. -/
def property_allowed (id : Nat) (key : String) : Bool :=
  ((key = "width" || key = "height") && id = 1) ||
  (key = "radius" && id = 2) ||
  ((key = "color" || key = "position") && (id = 2 || id = 3)) ||
  (key = "normal" && id = 3)

/-! ### A conversion for plain decimal numerals

The numerals `-12`, `7`, `0.25`: an optional sign, digits, and an optional
fraction. On such numerals this is what `%lf` reads. -/

/-- The digits at the head of the input, added to the number `acc` read so
far: the number, how many digits were read, and the rest of the input. -/
def scan_digits : List Char → Nat → Nat → Nat × Nat × List Char
  | [], acc, n => (acc, n, [])
  | c :: rest, acc, n =>
    if '0' ≤ c ∧ c ≤ '9' then scan_digits rest (acc * 10 + (c.toNat - 48)) (n + 1)
    else (acc, n, c :: rest)

/-- The body of `scan_decimal` after the white space: sign, digits, fraction.
`skipped` counts the characters already taken. -/
def scan_signed (negative : Bool) (skipped : Nat) (inp : List Char) : ScanResult ℚ :=
  match scan_digits inp 0 0 with
  | (_, 0, _) => .mismatch
  | (whole, n1 + 1, '.' :: rest) =>
    match scan_digits rest whole 0 with
    | (digits, n2, _) =>
      .value (Dbl.fin (mkRat (if negative then -(digits : Int) else (digits : Int)) (10 ^ n2)))
        (skipped + (n1 + 1) + 1 + n2)
  | (whole, n1 + 1, _) =>
    .value (Dbl.fin (mkRat (if negative then -(whole : Int) else (whole : Int)) 1))
      (skipped + (n1 + 1))

/-- A conversion reading plain decimal numerals, after leading white space. -/
def scan_decimal (inp : List Char) : ScanResult ℚ :=
  let skipped := (inp.takeWhile isspace).length
  match inp.dropWhile isspace with
  | [] => .eof
  | '-' :: rest => scan_signed true (skipped + 1) rest
  | '+' :: rest => scan_signed false (skipped + 1) rest
  | rest => scan_signed false skipped rest

/-! ## Arithmetic of finite values -/

section DblLemmas

variable {K : Type} [LinearOrderedField K]

open Dbl

@[simp] theorem Dbl.fin_add (x y : K) : (fin x + fin y : Dbl K) = fin (x + y) := rfl

@[simp] theorem Dbl.fin_sub (x y : K) : (fin x - fin y : Dbl K) = fin (x - y) := by
  show Dbl.add (fin x) (Dbl.neg (fin y)) = fin (x - y)
  simp [Dbl.add, Dbl.neg, sub_eq_add_neg]

@[simp] theorem Dbl.fin_mul (x y : K) : (fin x * fin y : Dbl K) = fin (x * y) := rfl

@[simp] theorem Dbl.neg_fin (x : K) : (-(fin x) : Dbl K) = fin (-x) := rfl

theorem Dbl.fin_div (x y : K) :
    (fin x / fin y : Dbl K) =
      if y = 0 then (if 0 < x then pinf else if x < 0 then ninf else nan) else fin (x / y) := rfl

@[simp] theorem Dbl.fin_div_of_ne (x y : K) (h : y ≠ 0) : (fin x / fin y : Dbl K) = fin (x / y) := by
  rw [Dbl.fin_div, if_neg h]

@[simp] theorem Dbl.sqr_fin (x : K) : sqr (fin x) = fin (x * x) := rfl

@[simp] theorem Dbl.lt_fin (x y : K) : Dbl.lt (fin x) (fin y) = decide (x < y) := rfl

@[simp] theorem Dbl.gt_fin (x y : K) : Dbl.gt (fin x) (fin y) = decide (y < x) := rfl

theorem Dbl.sqrt_fin (s : K → K) (x : K) (h : ¬ x < 0) : Dbl.sqrt s (fin x) = fin (s x) := by
  simp [Dbl.sqrt, h]

/-- A value that is strictly positive and strictly below `+inf` is a finite
positive number. -/
theorem Dbl.gt_zero_lt_pinf (t : Dbl K) :
    (Dbl.gt t (fin 0) = true ∧ Dbl.lt t pinf = true) ↔ ∃ x : K, t = fin x ∧ 0 < x := by
  cases t <;> simp [Dbl.gt, Dbl.lt]

end DblLemmas

/-! ## The intersection tests -/

section IntersectorTheorems

variable {K : Type} [LinearOrderedField K]

open Dbl

/-- The squared length of a non-zero triple is positive. -/
theorem R3.normSq_pos (d : R3 K) (h : d ≠ ⟨0, 0, 0⟩) : 0 < d.normSq := by
  rcases d with ⟨x, y, z⟩
  have hne : x ≠ 0 ∨ y ≠ 0 ∨ z ≠ 0 := by
    by_contra hc
    push_neg at hc
    obtain ⟨hx, hy, hz⟩ := hc
    exact h (by rw [hx, hy, hz])
  show 0 < x * x + y * y + z * z
  rcases hne with hx | hy | hz
  · have := mul_self_pos.mpr hx
    nlinarith [mul_self_nonneg y, mul_self_nonneg z]
  · have := mul_self_pos.mpr hy
    nlinarith [mul_self_nonneg x, mul_self_nonneg z]
  · have := mul_self_pos.mpr hz
    nlinarith [mul_self_nonneg x, mul_self_nonneg y]

/-- The value `sphere_intersection` computes on finite arguments with a
non-zero direction, in the terms of the quadratic `a t² + b t + c`. -/
theorem sphere_intersection_fin (sqrt : K → K) (Ro Rd C : R3 K) (r : K)
    (hRd : Rd ≠ ⟨0, 0, 0⟩) :
    sphere_intersection sqrt Ro.toVec Rd.toVec C.toVec (fin r) =
      (let a := Rd.normSq
       let b := 2 * Rd.dot (Ro.sub C)
       let c := (Ro.sub C).normSq - r * r
       let disc := b * b - 4 * a * c
       if disc < 0 then fin (-1)
       else if 0 < (-b - sqrt disc) / (2 * a) then fin ((-b - sqrt disc) / (2 * a))
       else if 0 < (-b + sqrt disc) / (2 * a) then fin ((-b + sqrt disc) / (2 * a))
       else fin (-1)) := by
  have ha : 0 < Rd.normSq := R3.normSq_pos Rd hRd
  have h2a : (2 : K) * Rd.normSq ≠ 0 := by positivity
  rcases Ro with ⟨ox, oy, oz⟩
  rcases Rd with ⟨dx, dy, dz⟩
  rcases C with ⟨cx, cy, cz⟩
  simp only [R3.normSq, R3.dot, R3.sub] at ha h2a ⊢
  simp only [sphere_intersection, R3.toVec, Dbl.sqr_fin, Dbl.fin_add, Dbl.fin_sub, Dbl.fin_mul,
    Dbl.lt_fin, decide_eq_true_eq]
  by_cases hd : (2 * (dx * (ox - cx) + dy * (oy - cy) + dz * (oz - cz))) *
      (2 * (dx * (ox - cx) + dy * (oy - cy) + dz * (oz - cz))) -
      4 * (dx * dx + dy * dy + dz * dz) *
        ((ox - cx) * (ox - cx) + (oy - cy) * (oy - cy) + (oz - cz) * (oz - cz) - r * r) < 0
  · rw [if_pos hd, if_pos hd]
  · rw [if_neg hd, if_neg hd, Dbl.sqrt_fin sqrt _ hd]
    simp only [Dbl.neg_fin, Dbl.fin_sub, Dbl.fin_add, Dbl.fin_div_of_ne _ _ h2a, Dbl.gt_fin,
      decide_eq_true_eq]

/-- The test `t > 0` on a quotient by zero: only a negative `top` makes
`-top / 0` the value `+inf`, which passes the test. -/
theorem Dbl.div_zero_test (top : K) :
    (if Dbl.gt (fin (-top) / fin 0) (fin 0) = true then (fin (-top) / fin 0 : Dbl K)
      else fin (-1)) = (if top < 0 then pinf else fin (-1)) := by
  rw [Dbl.fin_div, if_pos rfl]
  rcases lt_trichotomy top 0 with h | h | h
  · rw [if_pos (neg_pos.mpr h), if_pos h]
    rfl
  · rw [h, neg_zero, if_neg (lt_irrefl 0), if_neg (lt_irrefl 0), if_neg (lt_irrefl 0)]
    rfl
  · rw [if_neg (not_lt.mpr (neg_nonpos.mpr h.le)), if_pos (neg_lt_zero.mpr h),
      if_neg (not_lt.mpr h.le)]
    rfl

/-- The value `plane_intersection` computes on finite arguments: with a zero
denominator the quotient is an infinity or `NaN`, and `+inf` passes the test
`t > 0`. -/
theorem plane_intersection_fin (Ro Rd P N : R3 K) :
    plane_intersection Ro.toVec Rd.toVec P.toVec N.toVec =
      (if N.dot Rd = 0 then (if N.dot (Ro.sub P) < 0 then pinf else fin (-1))
       else if 0 < -(N.dot (Ro.sub P)) / N.dot Rd then fin (-(N.dot (Ro.sub P)) / N.dot Rd)
       else fin (-1)) := by
  rcases Ro with ⟨ox, oy, oz⟩
  rcases Rd with ⟨dx, dy, dz⟩
  rcases P with ⟨px, py, pz⟩
  rcases N with ⟨nx, ny, nz⟩
  have htop : nx * ox - nx * px + ny * oy - ny * py + nz * oz - nz * pz =
      nx * (ox - px) + ny * (oy - py) + nz * (oz - pz) := by ring
  simp only [plane_intersection, R3.toVec, R3.dot, R3.sub, Dbl.fin_add, Dbl.fin_sub,
    Dbl.fin_mul, htop, neg_one_mul]
  by_cases hb : nx * dx + ny * dy + nz * dz = 0
  · rw [hb, if_pos rfl]
    exact Dbl.div_zero_test _
  · rw [if_neg hb, Dbl.fin_div_of_ne _ _ hb]
    simp only [Dbl.gt_fin, decide_eq_true_eq]

/-- The ray from the origin along `(0, 0, 1)` and the plane through
`(0, 1, 0)` with normal `(0, 1, 0)`: the quotient is `1 / 0`. -/
theorem plane_intersection_example_pinf :
    plane_intersection (R3.toVec (⟨0, 0, 0⟩ : R3 ℚ)) (R3.toVec ⟨0, 0, 1⟩)
      (R3.toVec ⟨0, 1, 0⟩) (R3.toVec ⟨0, 1, 0⟩) = pinf := by
  rw [plane_intersection_fin]
  norm_num [R3.dot, R3.sub]

end IntersectorTheorems

/-! ### Sphere intersection and the quadratic formula -/

section SphereQuadratic

variable {K : Type} [LinearOrderedField K]

open Dbl

/-- C1: on finite arguments with a non-zero direction, with `a = |Rd|²`,
`b = 2 Rd·(Ro − C)`, `c = |Ro − C|² − r²` and `disc = b² − 4ac`,
`sphere_intersection` returns `-1` when `disc < 0`, otherwise the smaller root
`(−b − sqrt disc)/(2a)` if it is strictly positive, else the larger root
`(−b + sqrt disc)/(2a)` if it is strictly positive, else `-1`; and when
`disc = 0` (with `sqrt 0 = 0`) it returns the single root `−b/(2a)` whenever
that root is strictly positive. -/
theorem sphere_intersection_quadratic (sqrt : K → K) (Ro Rd C : R3 K) (r : K)
    (hRd : Rd ≠ ⟨0, 0, 0⟩) :
    let a := Rd.normSq
    let b := 2 * Rd.dot (Ro.sub C)
    let c := (Ro.sub C).normSq - r * r
    let disc := b * b - 4 * a * c
    sphere_intersection sqrt Ro.toVec Rd.toVec C.toVec (fin r) =
        (if disc < 0 then fin (-1)
         else if 0 < (-b - sqrt disc) / (2 * a) then fin ((-b - sqrt disc) / (2 * a))
         else if 0 < (-b + sqrt disc) / (2 * a) then fin ((-b + sqrt disc) / (2 * a))
         else fin (-1))
      ∧ (sqrt 0 = 0 → disc = 0 → 0 < -b / (2 * a) →
          sphere_intersection sqrt Ro.toVec Rd.toVec C.toVec (fin r) = fin (-b / (2 * a))) := by
  intro a b c disc
  have hmain := sphere_intersection_fin sqrt Ro Rd C r hRd
  refine ⟨hmain, ?_⟩
  intro hs hd hpos
  rw [hmain]
  show (if disc < 0 then fin (-1)
         else if 0 < (-b - sqrt disc) / (2 * a) then fin ((-b - sqrt disc) / (2 * a))
         else if 0 < (-b + sqrt disc) / (2 * a) then fin ((-b + sqrt disc) / (2 * a))
         else fin (-1)) = fin (-b / (2 * a))
  rw [hd, hs, sub_zero, if_neg (lt_irrefl 0), if_pos hpos]

/-- A ray from the origin along the forward axis meets the sphere of radius 1
centred at `(0, 0, 5)` at distance 4. -/
theorem sphere_intersection_quadratic_witness :
    (⟨0, 0, 1⟩ : R3 ℚ) ≠ ⟨0, 0, 0⟩ ∧
      sphere_intersection Rat.sqrt (R3.toVec ⟨0, 0, 0⟩) (R3.toVec ⟨0, 0, 1⟩)
        (R3.toVec ⟨0, 0, 5⟩) (fin (1 : ℚ)) = fin 4 := by
  have hne : (⟨0, 0, 1⟩ : R3 ℚ) ≠ ⟨0, 0, 0⟩ := by
    intro h
    have hz := congrArg R3.z h
    norm_num at hz
  refine ⟨hne, ?_⟩
  have h := (sphere_intersection_quadratic Rat.sqrt ⟨0, 0, 0⟩ ⟨0, 0, 1⟩ ⟨0, 0, 5⟩ 1 hne).1
  have hs : Rat.sqrt 4 = 2 := by
    rw [show (4 : ℚ) = 2 * 2 by norm_num, Rat.sqrt_eq]
    norm_num
  rw [h]
  norm_num [R3.normSq, R3.dot, R3.sub, hs]

end SphereQuadratic

/-! ### Plane intersection -/

section PlaneTheorems

variable {K : Type} [LinearOrderedField K]

open Dbl

/-- C3, as stated, fails: the ray from the origin along `(0, 0, 1)` is parallel
to the plane through `(0, 1, 0)` with normal `(0, 1, 0)`, the numerator is
`-1`, the quotient `1 / 0` is `+inf`, and `+inf` is what `plane_intersection`
returns. -/
theorem plane_intersection_parallel_returns_pinf :
    R3.dot (⟨0, 1, 0⟩ : R3 ℚ) ⟨0, 0, 1⟩ = 0 ∧
      plane_intersection (R3.toVec (⟨0, 0, 0⟩ : R3 ℚ)) (R3.toVec ⟨0, 0, 1⟩)
        (R3.toVec ⟨0, 1, 0⟩) (R3.toVec ⟨0, 1, 0⟩) = pinf ∧
      plane_intersection (R3.toVec (⟨0, 0, 0⟩ : R3 ℚ)) (R3.toVec ⟨0, 0, 1⟩)
        (R3.toVec ⟨0, 1, 0⟩) (R3.toVec ⟨0, 1, 0⟩) ≠ fin (-1) := by
  have h := plane_intersection_example_pinf
  refine ⟨by norm_num [R3.dot], h, ?_⟩
  rw [h]
  exact fun hc => Dbl.noConfusion hc

/-- C3, amended: on finite arguments with `N·Rd = 0` (ray parallel to the
plane), `plane_intersection` returns no finite distance: it returns `-1` when
the numerator `N·(Ro − P)` is zero or positive, and `+inf` when the numerator
is negative. -/
theorem plane_intersection_parallel (Ro Rd P N : R3 K) (h : N.dot Rd = 0) :
    plane_intersection Ro.toVec Rd.toVec P.toVec N.toVec =
      (if N.dot (Ro.sub P) < 0 then pinf else fin (-1)) := by
  rw [plane_intersection_fin, if_pos h]

/-- A ray lying in the plane `y = 0`: parallel, numerator zero, result `-1`. -/
theorem plane_intersection_parallel_witness :
    R3.dot (⟨0, 1, 0⟩ : R3 ℚ) ⟨0, 0, 1⟩ = 0 ∧
      plane_intersection (R3.toVec (⟨0, 0, 0⟩ : R3 ℚ)) (R3.toVec ⟨0, 0, 1⟩)
        (R3.toVec ⟨0, 0, 0⟩) (R3.toVec ⟨0, 1, 0⟩) = fin (-1) := by
  have hd : R3.dot (⟨0, 1, 0⟩ : R3 ℚ) ⟨0, 0, 1⟩ = 0 := by norm_num [R3.dot]
  refine ⟨hd, ?_⟩
  rw [plane_intersection_parallel ⟨0, 0, 0⟩ ⟨0, 0, 1⟩ ⟨0, 0, 0⟩ ⟨0, 1, 0⟩ hd]
  norm_num [R3.dot, R3.sub]

/-- C8: on finite arguments with `N·Rd ≠ 0`, `plane_intersection` returns
`t = −(N·(Ro − P)) / (N·Rd)` when `t` is strictly positive and `-1` when
`t ≤ 0`; the result is never `0` and never a negative value other than `-1`. -/
theorem plane_intersection_nonparallel (Ro Rd P N : R3 K) (h : N.dot Rd ≠ 0) :
    let t := -(N.dot (Ro.sub P)) / N.dot Rd
    (0 < t → plane_intersection Ro.toVec Rd.toVec P.toVec N.toVec = fin t) ∧
    (t ≤ 0 → plane_intersection Ro.toVec Rd.toVec P.toVec N.toVec = fin (-1)) ∧
    (∃ v : K, plane_intersection Ro.toVec Rd.toVec P.toVec N.toVec = fin v ∧
      (0 < v ∨ v = -1)) := by
  intro t
  have hfin := plane_intersection_fin Ro Rd P N
  rw [if_neg h] at hfin
  refine ⟨fun hpos => ?_, fun hle => ?_, ?_⟩
  · rw [hfin, if_pos hpos]
  · rw [hfin, if_neg (not_lt.mpr hle)]
  · by_cases hpos : 0 < t
    · exact ⟨t, by rw [hfin, if_pos hpos], Or.inl hpos⟩
    · exact ⟨-1, by rw [hfin, if_neg hpos], Or.inr rfl⟩

/-- The plane `z = 5` facing the camera is met at distance 5 by the ray from
the origin along `(0, 0, 1)`. -/
theorem plane_intersection_nonparallel_witness :
    R3.dot (⟨0, 0, -1⟩ : R3 ℚ) ⟨0, 0, 1⟩ ≠ 0 ∧
      plane_intersection (R3.toVec (⟨0, 0, 0⟩ : R3 ℚ)) (R3.toVec ⟨0, 0, 1⟩)
        (R3.toVec ⟨0, 0, 5⟩) (R3.toVec ⟨0, 0, -1⟩) = fin 5 := by
  have hd : R3.dot (⟨0, 0, -1⟩ : R3 ℚ) ⟨0, 0, 1⟩ ≠ 0 := by norm_num [R3.dot]
  refine ⟨hd, ?_⟩
  have h := (plane_intersection_nonparallel ⟨0, 0, 0⟩ ⟨0, 0, 1⟩ ⟨0, 0, 5⟩ ⟨0, 0, -1⟩ hd).1
  norm_num [R3.dot, R3.sub] at h
  exact h

end PlaneTheorems

/-! ### Nearest hit -/

section NearestHit

variable {K : Type} [LinearOrderedField K]

open Dbl

theorem hit_distance_iff (t : Dbl K) : hit_distance t ↔ ∃ x : K, t = fin x ∧ 0 < x :=
  Dbl.gt_zero_lt_pinf t

/-- One turn of the loop of `cast_ray` keeps the loop state nearest so far. -/
theorem NearestSoFar.step (sqrt : K → K) (Ro Rd : Vec3 K) (seen : List (Object K))
    (o : Object K) (best_t : Dbl K) (best_i : Int)
    (h : NearestSoFar sqrt Ro Rd seen best_t best_i) :
    NearestSoFar sqrt Ro Rd (seen ++ [o])
      (if Dbl.gt (intersection sqrt Ro Rd o) (fin 0) && Dbl.lt (intersection sqrt Ro Rd o) best_t
        then intersection sqrt Ro Rd o else best_t)
      (if Dbl.gt (intersection sqrt Ro Rd o) (fin 0) && Dbl.lt (intersection sqrt Ro Rd o) best_t
        then (seen.length : Int) else best_i) := by
  generalize ht : intersection sqrt Ro Rd o = t
  by_cases hc : (Dbl.gt t (fin 0) && Dbl.lt t best_t) = true
  · rw [if_pos hc, if_pos hc]
    rw [Bool.and_eq_true] at hc
    obtain ⟨hpos, hlt⟩ := hc
    have htd : hit_distance t := by
      rcases h with ⟨_, hb, _⟩ | ⟨k, ok, _, _, _, hbd, _⟩
      · subst hb
        exact ⟨hpos, hlt⟩
      · obtain ⟨b, hbx, hb0⟩ := (hit_distance_iff _).1 hbd
        rw [hbx] at hlt
        refine ⟨hpos, ?_⟩
        cases t <;> simp_all [Dbl.lt, Dbl.gt]
    obtain ⟨x, hx, hx0⟩ := (hit_distance_iff _).1 htd
    right
    refine ⟨seen.length, o, rfl, by simp, ht.symm, htd, ?_⟩
    intro j o2 hj ho2
    obtain ⟨y, hy, hy0⟩ := (hit_distance_iff _).1 ho2
    rcases Nat.lt_or_ge j seen.length with hjl | hjl
    · rw [List.getElem?_append_left hjl] at hj
      rcases h with ⟨_, hb, hnone⟩ | ⟨k, ok, _, hk, hb, hbd, hall⟩
      · exact absurd ho2 (hnone o2 (List.getElem?_mem hj))
      · obtain ⟨h1, _⟩ := hall j o2 hj ho2
        obtain ⟨b, hbx, hb0⟩ := (hit_distance_iff _).1 hbd
        rw [hy, hbx] at h1
        rw [hx, hbx] at hlt
        rw [hy, hx]
        simp only [Dbl.lt_fin, decide_eq_true_eq, decide_eq_false_iff_not, not_lt] at h1 hlt ⊢
        exact ⟨le_of_lt (lt_of_lt_of_le hlt h1), fun _ => lt_of_lt_of_le hlt h1⟩
    · have hlen : j < (seen ++ [o]).length := by
        by_contra hcon
        rw [List.getElem?_eq_none (not_lt.mp hcon)] at hj
        exact Option.noConfusion hj
      rw [List.length_append, List.length_singleton] at hlen
      have hjeq : j = seen.length := by omega
      subst hjeq
      rw [List.getElem?_append_right (le_refl _)] at hj
      simp only [Nat.sub_self, List.getElem?_cons_zero, Option.some.injEq] at hj
      subst hj
      rw [ht, hx]
      simp only [Dbl.lt_fin, decide_eq_false_iff_not, lt_irrefl, not_false_eq_true, true_and]
      intro hcon
      exact hcon.elim
  · rw [if_neg hc, if_neg hc]
    rw [Bool.and_eq_true, not_and] at hc
    rcases h with ⟨hi, hb, hnone⟩ | ⟨k, ok, hi, hk, hb, hbd, hall⟩
    · left
      refine ⟨hi, hb, ?_⟩
      intro o2 ho2
      rw [List.mem_append, List.mem_singleton] at ho2
      rcases ho2 with ho2 | ho2
      · exact hnone o2 ho2
      · subst ho2
        rw [ht]
        intro hd
        exact hc hd.1 (hb ▸ hd.2)
    · right
      have hklt : k < seen.length := by
        by_contra hcon
        rw [List.getElem?_eq_none (not_lt.mp hcon)] at hk
        exact Option.noConfusion hk
      refine ⟨k, ok, hi, by rw [List.getElem?_append_left hklt]; exact hk, hb, hbd, ?_⟩
      intro j o2 hj ho2
      rcases Nat.lt_or_ge j seen.length with hjl | hjl
      · rw [List.getElem?_append_left hjl] at hj
        exact hall j o2 hj ho2
      · have hlen : j < (seen ++ [o]).length := by
          by_contra hcon
          rw [List.getElem?_eq_none (not_lt.mp hcon)] at hj
          exact Option.noConfusion hj
        rw [List.length_append, List.length_singleton] at hlen
        have hjeq : j = seen.length := by omega
        subst hjeq
        rw [List.getElem?_append_right (le_refl _)] at hj
        simp only [Nat.sub_self, List.getElem?_cons_zero, Option.some.injEq] at hj
        subst hj
        rw [ht] at ho2 ⊢
        refine ⟨?_, fun hcon => absurd hcon (by omega)⟩
        cases hlt : Dbl.lt t best_t
        · rfl
        · exact absurd hlt (hc ho2.1)

/-- The loop of `cast_ray` keeps its state nearest so far. -/
theorem cast_ray_loop_nearest (sqrt : K → K) (Ro Rd : Vec3 K) :
    ∀ (rest seen : List (Object K)) (best_t : Dbl K) (best_i : Int),
      NearestSoFar sqrt Ro Rd seen best_t best_i →
      NearestSoFar sqrt Ro Rd (seen ++ rest)
        (cast_ray_loop sqrt Ro Rd rest seen.length (best_t, best_i)).1
        (cast_ray_loop sqrt Ro Rd rest seen.length (best_t, best_i)).2
  | [], seen, best_t, best_i, h => by
    simpa [cast_ray_loop] using h
  | o :: rest, seen, best_t, best_i, h => by
    have hs := NearestSoFar.step sqrt Ro Rd seen o best_t best_i h
    have ih := cast_ray_loop_nearest sqrt Ro Rd rest (seen ++ [o]) _ _ hs
    rw [List.length_append, List.length_singleton, List.append_assoc, List.singleton_append] at ih
    by_cases hc : (Dbl.gt (intersection sqrt Ro Rd o) (fin 0) &&
        Dbl.lt (intersection sqrt Ro Rd o) best_t) = true
    · rw [if_pos hc, if_pos hc] at ih
      simp only [cast_ray_loop, hc, if_true]
      exact ih
    · rw [if_neg hc, if_neg hc] at ih
      simp only [cast_ray_loop, hc]
      exact ih

/-- The state in which the loop of `cast_ray` ends. -/
theorem cast_ray_loop_final (sqrt : K → K) (Ro Rd : Vec3 K) (objects : List (Object K)) :
    NearestSoFar sqrt Ro Rd objects
      (cast_ray_loop sqrt Ro Rd objects 0 (pinf, -1)).1
      (cast_ray_loop sqrt Ro Rd objects 0 (pinf, -1)).2 := by
  have h0 : NearestSoFar sqrt Ro Rd [] (pinf : Dbl K) (-1) :=
    Or.inl ⟨rfl, rfl, fun o ho => absurd ho (List.not_mem_nil o)⟩
  have h := cast_ray_loop_nearest sqrt Ro Rd objects [] pinf (-1) h0
  rwa [List.nil_append, List.length_nil] at h

/-- The result of `cast_ray`, read off the final state of its loop. -/
theorem cast_ray_of_final (sqrt : K → K) (Ro Rd : Vec3 K) (objects : List (Object K)) :
    ((∀ o ∈ objects, ¬ hit_distance (intersection sqrt Ro Rd o)) ∧
      cast_ray sqrt objects Ro Rd = none) ∨
    (∃ (k : Nat) (o : Object K), objects[k]? = some o ∧
      hit_distance (intersection sqrt Ro Rd o) ∧
      cast_ray sqrt objects Ro Rd = some ⟨k, o, intersection sqrt Ro Rd o⟩ ∧
      ∀ (j : Nat) (o2 : Object K), objects[j]? = some o2 →
        hit_distance (intersection sqrt Ro Rd o2) →
          Dbl.lt (intersection sqrt Ro Rd o2) (intersection sqrt Ro Rd o) = false ∧
          (j < k → Dbl.lt (intersection sqrt Ro Rd o) (intersection sqrt Ro Rd o2) = true)) := by
  have hfin := cast_ray_loop_final sqrt Ro Rd objects
  unfold cast_ray
  generalize cast_ray_loop sqrt Ro Rd objects 0 (pinf, -1) = best at hfin ⊢
  obtain ⟨best_t, best_i⟩ := best
  rcases hfin with ⟨hi, hb, hnone⟩ | ⟨k, o, hi, hk, hb, hbd, hall⟩
  · left
    refine ⟨hnone, ?_⟩
    simp only at hi hb
    simp [hi, hb, Dbl.ne]
  · right
    simp only at hi hb hbd hall
    refine ⟨k, o, hk, hb ▸ hbd, ?_, ?_⟩
    · obtain ⟨x, hx, hx0⟩ := (hit_distance_iff _).1 hbd
      have hne : ((k : Int) != -1) = true := by
        rw [bne_iff_ne]
        omega
      simp only [hi, hne, hx, Dbl.gt_fin, Dbl.ne, hx0, decide_True, Bool.and_self, if_true,
        Int.toNat_ofNat, hk, Option.map_some']
      rw [← hb, hx]
    · intro j o2 hj ho2
      rw [← hb]
      exact hall j o2 hj ho2

/-- C2, as stated, fails: for the ray from the origin along `(0, 0, 1)` and a
scene holding one plane through `(0, 1, 0)` with normal `(0, 1, 0)`, the
intersection test yields `+inf`, which is strictly positive, and `cast_ray`
returns the `NULL` result. -/
theorem cast_ray_skips_pinf :
    Dbl.gt (intersection Rat.sqrt (R3.toVec (⟨0, 0, 0⟩ : R3 ℚ)) (R3.toVec ⟨0, 0, 1⟩)
        (Object.plane ⟨R3.toVec ⟨0, 1, 0⟩, R3.toVec ⟨0, 1, 0⟩, R3.toVec ⟨1, 0, 0⟩⟩))
      (fin 0) = true ∧
    cast_ray Rat.sqrt
      [Object.plane ⟨R3.toVec ⟨0, 1, 0⟩, R3.toVec ⟨0, 1, 0⟩, R3.toVec ⟨1, 0, 0⟩⟩]
      (R3.toVec (⟨0, 0, 0⟩ : R3 ℚ)) (R3.toVec ⟨0, 0, 1⟩) = none := by
  have h := plane_intersection_example_pinf
  constructor
  · simp only [intersection, h]
    rfl
  · simp only [cast_ray, cast_ray_loop, intersection, h]
    rfl

/-- C2, amended: `cast_ray` returns the `NULL` result exactly when no object
of the list has a hit distance (an intersection distance `t` with `t > 0` and
`t < INFINITY`); otherwise it returns an object of the list at its index,
together with its intersection distance, which is a hit distance, such that no
object of the list has a strictly smaller hit distance and every object at a
lower index has a strictly larger one (on a tie the first declared wins). -/
theorem cast_ray_nearest (sqrt : K → K) (objects : List (Object K)) (Ro Rd : Vec3 K) :
    (cast_ray sqrt objects Ro Rd = none ↔
      ∀ o ∈ objects, ¬ hit_distance (intersection sqrt Ro Rd o)) ∧
    (∀ hit : Hit K, cast_ray sqrt objects Ro Rd = some hit →
      objects[hit.index]? = some hit.object ∧
      hit.ray_len = intersection sqrt Ro Rd hit.object ∧
      hit_distance hit.ray_len ∧
      ∀ (j : Nat) (o2 : Object K), objects[j]? = some o2 →
        hit_distance (intersection sqrt Ro Rd o2) →
          Dbl.lt (intersection sqrt Ro Rd o2) hit.ray_len = false ∧
          (j < hit.index → Dbl.lt hit.ray_len (intersection sqrt Ro Rd o2) = true)) := by
  rcases cast_ray_of_final sqrt Ro Rd objects with ⟨hnone, hres⟩ | ⟨k, o, hk, hd, hres, hall⟩
  · refine ⟨⟨fun _ => hnone, fun _ => hres⟩, ?_⟩
    intro hit hhit
    rw [hres] at hhit
    exact Option.noConfusion hhit
  · refine ⟨⟨fun hn => ?_, fun hn => absurd hd (hn o (List.getElem?_mem hk))⟩, ?_⟩
    · rw [hres] at hn
      exact Option.noConfusion hn
    · intro hit hhit
      rw [hres, Option.some.injEq] at hhit
      subst hhit
      exact ⟨hk, rfl, hd, hall⟩

end NearestHit

/-! ### The pixel loop -/

section PixelLoop

/-- A loop writing `g x` at index `base + x` for `x = 0, ..., n - 1` into a
buffer long enough: the length is kept, the `n` slots hold the values written,
the other slots are untouched. -/
theorem foldl_set_range {α : Type} (g : Nat → α) (base : Nat) :
    ∀ (n : Nat) (buf : List α), base + n ≤ buf.length →
      ((List.range n).foldl (fun b x => b.set (base + x) (g x)) buf).length = buf.length ∧
      (∀ x, x < n →
        ((List.range n).foldl (fun b x => b.set (base + x) (g x)) buf)[base + x]? = some (g x)) ∧
      (∀ i, (i < base ∨ base + n ≤ i) →
        ((List.range n).foldl (fun b x => b.set (base + x) (g x)) buf)[i]? = buf[i]?)
  | 0, buf, _ => by
    refine ⟨rfl, fun x hx => absurd hx (Nat.not_lt_zero x), fun i _ => rfl⟩
  | n + 1, buf, hL => by
    obtain ⟨hlen, hin, hout⟩ := foldl_set_range g base n buf (by omega)
    rw [List.range_succ, List.foldl_append]
    simp only [List.foldl_cons, List.foldl_nil]
    refine ⟨by rw [List.length_set, hlen], ?_, ?_⟩
    · intro x hx
      rw [List.getElem?_set]
      by_cases hxn : base + n = base + x
      · rw [if_pos hxn, if_pos (by rw [hlen]; omega)]
        have hxe : n = x := by omega
        rw [hxe]
      · rw [if_neg hxn]
        exact hin x (by omega)
    · intro i hi
      rw [List.getElem?_set, if_neg (by omega)]
      exact hout i (by omega)

variable {K : Type} [LinearOrderedField K]

open Dbl

/-- The buffer after the rows `0, ..., m - 1` of `paint_scene`, starting from a
buffer of `M * N` slots. -/
theorem paint_rows_buffer (sqrt : K → K) (planeRead : Plane K → Vec3 K) (scene : Scene K)
    (M N : Nat) (buf0 : List (Option (Pixel K))) (h0 : buf0.length = M * N) :
    ∀ m, m ≤ M →
      ((List.range m).foldl (fun buf y => paint_row sqrt planeRead scene M N y buf) buf0).length
          = M * N ∧
      (∀ y x, y < m → x < N →
        ((List.range m).foldl
          (fun buf y => paint_row sqrt planeRead scene M N y buf) buf0)[y * N + x]?
          = some (some (paint_pixel sqrt planeRead scene M N x y))) ∧
      (∀ i, m * N ≤ i →
        ((List.range m).foldl
          (fun buf y => paint_row sqrt planeRead scene M N y buf) buf0)[i]? = buf0[i]?)
  | 0, _ => by
    refine ⟨h0, fun y x hy _ => absurd hy (Nat.not_lt_zero y), fun i _ => rfl⟩
  | m + 1, hm => by
    obtain ⟨hlen, hin, hout⟩ := paint_rows_buffer sqrt planeRead scene M N buf0 h0 m (by omega)
    rw [List.range_succ, List.foldl_append]
    simp only [List.foldl_cons, List.foldl_nil]
    have hfit : m * N + N ≤ M * N := by
      have := Nat.mul_le_mul_right N hm
      rw [Nat.succ_mul] at this
      exact this
    obtain ⟨rlen, rin, rout⟩ := foldl_set_range
      (fun x => some (paint_pixel sqrt planeRead scene M N x m)) (m * N) N
      ((List.range m).foldl (fun buf y => paint_row sqrt planeRead scene M N y buf) buf0)
      (by rw [hlen]; exact hfit)
    refine ⟨by rw [paint_row, rlen, hlen], ?_, ?_⟩
    · intro y x hy hx
      by_cases hym : y = m
      · subst hym
        rw [paint_row]
        exact rin x hx
      · have hylt : y < m := by omega
        have hidx : y * N + x < m * N := by
          have := Nat.mul_le_mul_right N (Nat.succ_le_of_lt hylt)
          rw [Nat.succ_mul] at this
          omega
        rw [paint_row, rout _ (Or.inl hidx)]
        exact hin y x hylt hx
    · intro i hi
      rw [Nat.succ_mul] at hi
      rw [paint_row, rout i (Or.inr hi)]
      exact hout i (by omega)

/-- The buffer `paint_scene` returns: `height * width` slots, the slot
`y * width + x` holding the pixel computed for `(x, y)`. -/
theorem paint_scene_buffer (sqrt : K → K) (planeRead : Plane K → Vec3 K) (scene : Scene K)
    (M N : Nat) :
    (paint_scene sqrt planeRead scene M N).buffer.length = M * N ∧
    ∀ y x, y < M → x < N →
      (paint_scene sqrt planeRead scene M N).buffer[y * N + x]?
        = some (some (paint_pixel sqrt planeRead scene M N x y)) := by
  obtain ⟨hlen, hin, _⟩ := paint_rows_buffer sqrt planeRead scene M N
    (List.replicate (M * N) none) (List.length_replicate _ _) M (le_refl M)
  exact ⟨hlen, hin⟩

/-- With no object in the list `cast_ray` returns the `NULL` result. -/
theorem cast_ray_nil (sqrt : K → K) (Ro Rd : Vec3 K) : cast_ray sqrt [] Ro Rd = none := by
  simp [cast_ray, cast_ray_loop, Dbl.ne]

/-- The direction of pixel `(x, y)` for a camera of finite size, as a triple of
field elements. -/
theorem pixel_direction_fin (w h : K) (M N x y : Nat) (hx : x < N) (hy : y < M) :
    pixel_direction (fin w) (fin h) M N x y =
      ⟨fin (w / 2 - w / (N : K) * ((x : K) + 1 / 2)),
       fin (h / 2 - h / (M : K) * ((y : K) + 1 / 2)), fin 1⟩ := by
  have hN : (N : K) ≠ 0 := Nat.cast_ne_zero.mpr (by omega)
  have hM : (M : K) ≠ 0 := Nat.cast_ne_zero.mpr (by omega)
  have h2 : (2 : K) ≠ 0 := two_ne_zero
  simp only [pixel_direction, Dbl.fin_div_of_ne _ _ hN, Dbl.fin_div_of_ne _ _ hM,
    Dbl.fin_div_of_ne _ _ h2, Dbl.fin_add, Dbl.fin_sub, Dbl.fin_mul, zero_add]

/-- C5: for a scene with a camera and an empty object list, at every
resolution of `N` columns by `M` rows, `paint_scene` returns an image of
width `N` and height `M` whose buffer has `N * M` pixels, every one of them the
background colour `(0, 0, 0)`. -/
theorem paint_scene_empty_background (sqrt : K → K) (planeRead : Plane K → Vec3 K)
    (cam : Camera K) (M N : Nat) :
    (paint_scene sqrt planeRead ⟨cam, []⟩ M N).width = N ∧
    (paint_scene sqrt planeRead ⟨cam, []⟩ M N).height = M ∧
    (paint_scene sqrt planeRead ⟨cam, []⟩ M N).buffer.length = N * M ∧
    ∀ i, i < N * M →
      (paint_scene sqrt planeRead ⟨cam, []⟩ M N).buffer[i]? =
        some (some ⟨fin 0, fin 0, fin 0⟩) := by
  obtain ⟨hlen, hpix⟩ := paint_scene_buffer sqrt planeRead ⟨cam, []⟩ M N
  refine ⟨rfl, rfl, by rw [hlen, Nat.mul_comm], ?_⟩
  intro i hi
  have hNpos : 0 < N := by
    rcases Nat.eq_zero_or_pos N with h0 | h0
    · rw [h0, Nat.zero_mul] at hi
      exact absurd hi (Nat.not_lt_zero i)
    · exact h0
  have hy : i / N < M := Nat.div_lt_of_lt_mul hi
  have hx : i % N < N := Nat.mod_lt i hNpos
  have hi2 : i / N * N + i % N = i := by
    rw [Nat.mul_comm]
    exact Nat.div_add_mod i N
  have h := hpix (i / N) (i % N) hy hx
  rw [hi2] at h
  rw [h]
  simp only [paint_pixel, cast_ray_nil]

/-- C6: for a camera of finite size `w` by `h`, a grid of `N` columns by `M`
rows and a pixel `(x, y)` with `x < N` and `y < M`, the direction of the
pixel before normalisation is
`(w/2 − (w/N)(x + 1/2), h/2 − (h/M)(y + 1/2), 1)`, and the slot
`y * N + x` of the buffer `paint_scene` returns holds the pixel obtained by
casting the ray of origin `(0, 0, 0)` and of that direction, normalised. -/
theorem paint_scene_pixel_ray (sqrt : K → K) (planeRead : Plane K → Vec3 K)
    (objects : List (Object K)) (w h : K) (M N x y : Nat) (hx : x < N) (hy : y < M) :
    pixel_direction (fin w) (fin h) M N x y =
      ⟨fin (w / 2 - w / (N : K) * ((x : K) + 1 / 2)),
       fin (h / 2 - h / (M : K) * ((y : K) + 1 / 2)), fin 1⟩ ∧
    (paint_scene sqrt planeRead ⟨⟨fin w, fin h⟩, objects⟩ M N).buffer[y * N + x]? =
      some (some
        (match cast_ray sqrt objects ⟨fin 0, fin 0, fin 0⟩
            (normalize sqrt
              ⟨fin (w / 2 - w / (N : K) * ((x : K) + 1 / 2)),
               fin (h / 2 - h / (M : K) * ((y : K) + 1 / 2)), fin 1⟩) with
          | some hit =>
            ⟨(color_read planeRead hit.object).v0, (color_read planeRead hit.object).v1,
              (color_read planeRead hit.object).v2⟩
          | none => ⟨fin 0, fin 0, fin 0⟩)) := by
  have hdir := pixel_direction_fin w h M N x y hx hy
  refine ⟨hdir, ?_⟩
  rw [(paint_scene_buffer sqrt planeRead ⟨⟨fin w, fin h⟩, objects⟩ M N).2 y x hy hx]
  simp only [paint_pixel, hdir, ray_origin]

/-- The top-right pixel of a 2 by 2 image for a camera of size 2 by 2. -/
theorem paint_scene_pixel_ray_witness :
    (1 : Nat) < 2 ∧ (0 : Nat) < 2 ∧
      pixel_direction (fin (2 : ℚ)) (fin 2) 2 2 1 0 = ⟨fin (-1 / 2), fin (1 / 2), fin 1⟩ := by
  have h := (paint_scene_pixel_ray Rat.sqrt Plane.color [] (2 : ℚ) 2 2 2 1 0
    (by decide) (by decide)).1
  refine ⟨by decide, by decide, ?_⟩
  rw [h]
  norm_num

/-- The forward direction `(0, 0, 1)` has length 1: `normalize` leaves it
unchanged. -/
theorem normalize_forward (sqrt : K → K) (hsqrt : ∀ x : K, 0 ≤ x → sqrt (x * x) = x) :
    normalize sqrt (⟨fin 0, fin 0, fin 1⟩ : Vec3 K) = ⟨fin 0, fin 0, fin 1⟩ := by
  have h1 : sqrt (0 * 0 + 0 * 0 + 1 * 1) = 1 := by
    have := hsqrt 1 zero_le_one
    simpa using this
  have hneg : ¬ ((0 : K) * 0 + 0 * 0 + 1 * 1 < 0) := by norm_num
  simp only [normalize, Dbl.sqr_fin, Dbl.fin_add, Dbl.sqrt_fin sqrt _ hneg, h1,
    Dbl.fin_div_of_ne _ _ (one_ne_zero : (1 : K) ≠ 0), zero_div, div_one]

/-- The ray from the origin along `(0, 0, 1)` meets the sphere of radius `r`
centred at `(0, 0, d)`, `0 < r < d`, at distance `d − r`. -/
theorem sphere_intersection_forward (sqrt : K → K) (hsqrt : ∀ x : K, 0 ≤ x → sqrt (x * x) = x)
    (d r : K) (hr : 0 < r) (hrd : r < d) :
    sphere_intersection sqrt ⟨fin 0, fin 0, fin 0⟩ ⟨fin 0, fin 0, fin 1⟩
      ⟨fin 0, fin 0, fin d⟩ (fin r) = fin (d - r) := by
  have hne : (⟨0, 0, 1⟩ : R3 K) ≠ ⟨0, 0, 0⟩ := by
    intro h
    have hz := congrArg R3.z h
    exact one_ne_zero hz
  have h := sphere_intersection_fin sqrt ⟨0, 0, 0⟩ ⟨0, 0, 1⟩ ⟨0, 0, d⟩ r hne
  simp only [R3.toVec] at h
  rw [h]
  have hdisc : 2 * R3.dot (⟨0, 0, 1⟩ : R3 K) (R3.sub ⟨0, 0, 0⟩ ⟨0, 0, d⟩) *
      (2 * R3.dot (⟨0, 0, 1⟩ : R3 K) (R3.sub ⟨0, 0, 0⟩ ⟨0, 0, d⟩)) -
      4 * R3.normSq (⟨0, 0, 1⟩ : R3 K) *
        (R3.normSq (R3.sub (⟨0, 0, 0⟩ : R3 K) ⟨0, 0, d⟩) - r * r) = (2 * r) * (2 * r) := by
    simp only [R3.dot, R3.sub, R3.normSq]
    ring
  have hb : 2 * R3.dot (⟨0, 0, 1⟩ : R3 K) (R3.sub ⟨0, 0, 0⟩ ⟨0, 0, d⟩) = -(2 * d) := by
    simp only [R3.dot, R3.sub]
    ring
  have ha : 2 * R3.normSq (⟨0, 0, 1⟩ : R3 K) = 2 := by
    simp only [R3.dot, R3.normSq]
    ring
  have hroot : (- -(2 * d) - 2 * r) / 2 = d - r := by ring
  simp only [hdisc]
  simp only [hb, ha, hsqrt (2 * r) (by linarith), hroot]
  rw [if_neg (not_lt.mpr (mul_self_nonneg (2 * r))), if_pos (by linarith)]

/-- The centre pixel of an image with an odd number of columns and of rows
looks along the forward axis. -/
theorem pixel_direction_centre (w h : K) (M N : Nat) (hN : N % 2 = 1) (hM : M % 2 = 1) :
    pixel_direction (fin w) (fin h) M N ((N - 1) / 2) ((M - 1) / 2) = ⟨fin 0, fin 0, fin 1⟩ := by
  have hx : (N - 1) / 2 < N := by omega
  have hy : (M - 1) / 2 < M := by omega
  rw [pixel_direction_fin w h M N _ _ hx hy]
  have hNk : (N : K) = 2 * (((N - 1) / 2 : Nat) : K) + 1 := by
    have : N = 2 * ((N - 1) / 2) + 1 := by omega
    exact_mod_cast this
  have hMk : (M : K) = 2 * (((M - 1) / 2 : Nat) : K) + 1 := by
    have : M = 2 * ((M - 1) / 2) + 1 := by omega
    exact_mod_cast this
  have hN0 : (N : K) ≠ 0 := Nat.cast_ne_zero.mpr (by omega)
  have hM0 : (M : K) ≠ 0 := Nat.cast_ne_zero.mpr (by omega)
  have e1 : w / 2 - w / (N : K) * ((((N - 1) / 2 : Nat) : K) + 1 / 2) = 0 := by
    have : (((N - 1) / 2 : Nat) : K) + 1 / 2 = (N : K) / 2 := by rw [hNk]; ring
    rw [this]
    field_simp
  have e2 : h / 2 - h / (M : K) * ((((M - 1) / 2 : Nat) : K) + 1 / 2) = 0 := by
    have : (((M - 1) / 2 : Nat) : K) + 1 / 2 = (M : K) / 2 := by rw [hMk]; ring
    rw [this]
    field_simp
  rw [e1, e2]

/-- C7: for a camera of finite size `w` by `h`, odd `N` and `M`, and a scene
whose only object is a sphere centred at `(0, 0, d)` with `0 < r < d`: the
centre pixel `((N−1)/2, (M−1)/2)` has ray direction `(0, 0, 1)`, its ray hits
the sphere at distance `d − r`, and the pixel, stored in the slot of the centre
pixel, has the colour declared for the sphere. (The square root is exact on
squares.) -/
theorem centre_pixel_sphere (sqrt : K → K) (hsqrt : ∀ x : K, 0 ≤ x → sqrt (x * x) = x)
    (planeRead : Plane K → Vec3 K) (w h d r : K) (color : Vec3 K) (M N : Nat)
    (hN : N % 2 = 1) (hM : M % 2 = 1) (hr : 0 < r) (hrd : r < d) :
    pixel_direction (fin w) (fin h) M N ((N - 1) / 2) ((M - 1) / 2) = ⟨fin 0, fin 0, fin 1⟩ ∧
    cast_ray sqrt [Object.sphere ⟨⟨fin 0, fin 0, fin d⟩, fin r, color⟩] ray_origin
        (normalize sqrt (pixel_direction (fin w) (fin h) M N ((N - 1) / 2) ((M - 1) / 2))) =
      some ⟨0, Object.sphere ⟨⟨fin 0, fin 0, fin d⟩, fin r, color⟩, fin (d - r)⟩ ∧
    paint_pixel sqrt planeRead
        ⟨⟨fin w, fin h⟩, [Object.sphere ⟨⟨fin 0, fin 0, fin d⟩, fin r, color⟩]⟩ M N
        ((N - 1) / 2) ((M - 1) / 2) = ⟨color.v0, color.v1, color.v2⟩ ∧
    (paint_scene sqrt planeRead
        ⟨⟨fin w, fin h⟩, [Object.sphere ⟨⟨fin 0, fin 0, fin d⟩, fin r, color⟩]⟩ M N).buffer[
          (M - 1) / 2 * N + (N - 1) / 2]? = some (some ⟨color.v0, color.v1, color.v2⟩) := by
  have hx : (N - 1) / 2 < N := by omega
  have hy : (M - 1) / 2 < M := by omega
  have hdir := pixel_direction_centre w h M N hN hM
  have hcast : cast_ray sqrt [Object.sphere ⟨⟨fin 0, fin 0, fin d⟩, fin r, color⟩] ray_origin
      (normalize sqrt (pixel_direction (fin w) (fin h) M N ((N - 1) / 2) ((M - 1) / 2))) =
      some ⟨0, Object.sphere ⟨⟨fin 0, fin 0, fin d⟩, fin r, color⟩, fin (d - r)⟩ := by
    rw [hdir, normalize_forward sqrt hsqrt]
    have hpos : (0 : K) < d - r := by linarith
    simp [cast_ray, cast_ray_loop, intersection, ray_origin,
      sphere_intersection_forward sqrt hsqrt d r hr hrd, Dbl.lt, Dbl.ne, hpos]
  have hpix : paint_pixel sqrt planeRead
      ⟨⟨fin w, fin h⟩, [Object.sphere ⟨⟨fin 0, fin 0, fin d⟩, fin r, color⟩]⟩ M N
      ((N - 1) / 2) ((M - 1) / 2) = ⟨color.v0, color.v1, color.v2⟩ := by
    simp only [paint_pixel, hcast, color_read]
  refine ⟨hdir, hcast, hpix, ?_⟩
  rw [(paint_scene_buffer sqrt planeRead _ M N).2 _ _ hy hx, hpix]

/-- The square root `Rat.sqrt` is exact on squares. -/
theorem rat_sqrt_mul_self (x : ℚ) (h : 0 ≤ x) : Rat.sqrt (x * x) = x := by
  rw [Rat.sqrt_eq, abs_of_nonneg h]

/-- A 3 by 3 image of a sphere of radius 1 centred at `(0, 0, 5)`: the centre
pixel `(1, 1)` has the colour of the sphere. -/
theorem centre_pixel_sphere_witness :
    3 % 2 = 1 ∧ (0 : ℚ) < 1 ∧ (1 : ℚ) < 5 ∧
      paint_pixel Rat.sqrt Plane.color
        ⟨⟨fin 2, fin 2⟩, [Object.sphere ⟨⟨fin 0, fin 0, fin 5⟩, fin 1, ⟨fin 1, fin 0, fin 0⟩⟩]⟩
        3 3 1 1 = ⟨fin 1, fin 0, fin 0⟩ :=
  ⟨by decide, by norm_num, by norm_num,
    (centre_pixel_sphere Rat.sqrt rat_sqrt_mul_self Plane.color 2 2 5 1 ⟨fin 1, fin 0, fin 0⟩ 3 3
      (by decide) (by decide) (by norm_num) (by norm_num)).2.2.1⟩

/-- C4, on a scene whose nearest hit is a plane: for a camera of size 2 by 2,
an image of 3 by 3 and the plane through `(0, 0, 5)` with normal `(0, 0, -1)`
and colour `(1, 0, 0)`, the centre pixel is what the read
`((Sphere*)object)->color` finds in the plane, not the field `color` of the
plane as such. -/
theorem paint_pixel_plane_read (planeRead : Plane ℚ → Vec3 ℚ) :
    paint_pixel Rat.sqrt planeRead
        ⟨⟨fin 2, fin 2⟩,
          [Object.plane ⟨⟨fin 0, fin 0, fin 5⟩, ⟨fin 0, fin 0, fin (-1)⟩, ⟨fin 1, fin 0, fin 0⟩⟩]⟩
        3 3 1 1 =
      ⟨(planeRead ⟨⟨fin 0, fin 0, fin 5⟩, ⟨fin 0, fin 0, fin (-1)⟩, ⟨fin 1, fin 0, fin 0⟩⟩).v0,
       (planeRead ⟨⟨fin 0, fin 0, fin 5⟩, ⟨fin 0, fin 0, fin (-1)⟩, ⟨fin 1, fin 0, fin 0⟩⟩).v1,
       (planeRead ⟨⟨fin 0, fin 0, fin 5⟩, ⟨fin 0, fin 0, fin (-1)⟩, ⟨fin 1, fin 0, fin 0⟩⟩).v2⟩ := by
  have hdir : pixel_direction (fin (2 : ℚ)) (fin 2) 3 3 1 1 = ⟨fin 0, fin 0, fin 1⟩ :=
    pixel_direction_centre (2 : ℚ) 2 3 3 (by decide) (by decide)
  have hplane : plane_intersection (⟨fin 0, fin 0, fin 0⟩ : Vec3 ℚ) ⟨fin 0, fin 0, fin 1⟩
      ⟨fin 0, fin 0, fin 5⟩ ⟨fin 0, fin 0, fin (-1)⟩ = fin 5 := by
    have h := plane_intersection_fin (⟨0, 0, 0⟩ : R3 ℚ) ⟨0, 0, 1⟩ ⟨0, 0, 5⟩ ⟨0, 0, -1⟩
    simp only [R3.toVec] at h
    rw [h]
    norm_num [R3.dot, R3.sub]
  have hcast : cast_ray Rat.sqrt
      [Object.plane ⟨⟨fin 0, fin 0, fin 5⟩, ⟨fin 0, fin 0, fin (-1)⟩, ⟨fin 1, fin 0, fin 0⟩⟩]
      ray_origin (⟨fin 0, fin 0, fin 1⟩ : Vec3 ℚ) =
      some ⟨0, Object.plane ⟨⟨fin 0, fin 0, fin 5⟩, ⟨fin 0, fin 0, fin (-1)⟩,
        ⟨fin 1, fin 0, fin 0⟩⟩, fin 5⟩ := by
    simp [cast_ray, cast_ray_loop, intersection, ray_origin, hplane, Dbl.lt, Dbl.ne]
  simp only [paint_pixel, hdir, normalize_forward Rat.sqrt rat_sqrt_mul_self, hcast, color_read]

end PixelLoop

/-! ### The scene reader -/

section ReaderBasics

variable {K : Type}

/-- A sequence of two steps succeeds exactly when both steps do. -/
theorem except_bind_ok {ε α β : Type} (x : Except ε α) (f : α → Except ε β) (b : β) :
    (x >>= f) = .ok b ↔ ∃ a, x = .ok a ∧ f a = .ok b := by
  cases x with
  | error e => simp [bind, Except.bind]
  | ok a => simp [bind, Except.bind]

/-- The function `next_c` succeeds exactly on a non-empty input, and takes its head. -/
theorem next_c_ok (inp rest : List Char) (c : Char) :
    next_c inp = .ok (c, rest) ↔ inp = c :: rest := by
  cases inp with
  | nil => simp [next_c]
  | cons d r => simp [next_c]

/-- The function `expect_c` succeeds exactly when the input starts with `d`. -/
theorem expect_c_ok (inp rest : List Char) (d : Char) :
    expect_c inp d = .ok rest ↔ inp = d :: rest := by
  cases inp with
  | nil => simp [expect_c, next_c]
  | cons c r =>
    simp only [expect_c, next_c]
    by_cases h : c = d
    · simp [h]
    · simp [h]

/-- The function `skip_ws` does not lengthen the input. -/
theorem skip_ws_length : ∀ (inp rest : List Char), skip_ws inp = .ok rest →
    rest.length ≤ inp.length
  | [], rest, h => by simp [skip_ws] at h
  | c :: r, rest, h => by
    rw [skip_ws] at h
    by_cases hc : isspace c = true
    · rw [if_pos hc] at h
      have := skip_ws_length r rest h
      simp only [List.length_cons]
      omega
    · rw [if_neg hc] at h
      simp only [Except.ok.injEq] at h
      rw [← h]

/-- The loop of `next_string` takes at least the closing quote. -/
theorem next_string_loop_length : ∀ (inp : List Char) (i : Nat) (buffer : List Char)
    (s : String) (rest : List Char),
    next_string_loop inp i buffer = .ok (s, rest) → rest.length < inp.length
  | [], i, buffer, s, rest, h => by simp [next_string_loop] at h
  | c :: r, i, buffer, s, rest, h => by
    rw [next_string_loop] at h
    split_ifs at h with h1 h2 h3 h4
    · simp only [Except.ok.injEq, Prod.mk.injEq] at h
      rw [← h.2]
      simp
    · have := next_string_loop_length r (i + 1) (buffer ++ [c]) s rest h
      simp only [List.length_cons]
      omega

/-- The function `next_string` shortens the input. -/
theorem next_string_length (inp : List Char) (s : String) (rest : List Char)
    (h : next_string inp = .ok (s, rest)) : rest.length < inp.length := by
  cases inp with
  | nil => simp [next_string, next_c] at h
  | cons c r =>
    simp only [next_string, next_c] at h
    split_ifs at h with h1
    have := next_string_loop_length r 0 [] s rest h
    simp only [List.length_cons]
    omega

/-- The function `next_number` does not lengthen the input. -/
theorem next_number_length (scan : List Char → ScanResult K) (inp rest : List Char) (v : Dbl K)
    (h : next_number scan inp = .ok (v, rest)) : rest.length ≤ inp.length := by
  unfold next_number at h
  split at h
  · simp only [Except.ok.injEq, Prod.mk.injEq] at h
    rw [← h.2, List.length_drop]
    omega
  · exact Except.noConfusion h
  · exact Except.noConfusion h

/-- The object allocated for the type `"camera"` is a camera, and a camera is allocated only while the scene has none. -/
theorem create_object_id (scene : ParsedScene K) (value : String) (o : ParsedObject K)
    (h : create_object scene value = .ok o) :
    (value = "camera" → o.id = 1) ∧ (o.id = 1 → scene.cam.isSome = false) := by
  unfold create_object at h
  split_ifs at h with h1 h2 h3 h4 h5 h6 <;>
    simp only [Except.ok.injEq] at h <;> subst h
  · exact ⟨fun _ => rfl, fun _ => by simpa using h2⟩
  · exact ⟨fun hc => absurd hc h1, fun hc => by simp [ParsedObject.id] at hc⟩
  · exact ⟨fun hc => absurd hc h1, fun hc => by simp [ParsedObject.id] at hc⟩

/-- Storing an object keeps the camera of the scene, and storing a camera sets it. -/
theorem store_object_cam (scene : ParsedScene K) (o : ParsedObject K) :
    (scene.cam.isSome = true → (store_object scene o).cam.isSome = true) ∧
    (o.id = 1 → (store_object scene o).cam.isSome = true) := by
  cases o <;> simp [store_object, ParsedObject.id]

/-- Storing an object puts no camera in the object list. -/
theorem store_object_objects (scene : ParsedScene K) (o : ParsedObject K)
    (h : ∀ x ∈ scene.objects, x.id ≠ 1) : ∀ x ∈ (store_object scene o).objects, x.id ≠ 1 := by
  cases o with
  | camera c => simpa [store_object] using h
  | sphere s0 =>
    intro x hx
    simp only [store_object, List.mem_append, List.mem_singleton] at hx
    rcases hx with hx | hx
    · exact h x hx
    · subst hx
      simp [ParsedObject.id]
  | plane p0 =>
    intro x hx
    simp only [store_object, List.mem_append, List.mem_singleton] at hx
    rcases hx with hx | hx
    · exact h x hx
    · subst hx
      simp [ParsedObject.id]

/-- Closing the list leaves the scene as it is. -/
theorem close_scene_ok (scene scene1 : ParsedScene K) (h : close_scene scene = .ok scene1) :
    scene1 = scene := by
  unfold close_scene at h
  split_ifs at h
  simp only [Except.ok.injEq] at h
  exact h.symm

/-- The function `next_vector` does not lengthen the input. -/
theorem next_vector_length (scan : List Char → ScanResult K) (inp rest : List Char) (v : Vec3 K)
    (h : next_vector scan inp = .ok (v, rest)) : rest.length ≤ inp.length := by
  unfold next_vector at h
  simp only [except_bind_ok, Prod.exists] at h
  obtain ⟨i1, h1, i2, h2, x0, i3, h3, i4, h4, i5, h5, i6, h6, x1, i7, h7, i8, h8, i9, h9,
    i10, h10, x2, i11, h11, i12, h12, i13, h13, hres⟩ := h
  simp only [pure, Except.pure, Except.ok.injEq, Prod.mk.injEq] at hres
  rw [expect_c_ok] at h1 h5 h9 h13
  have l2 := skip_ws_length _ _ h2
  have l3 := next_number_length scan _ _ _ h3
  have l4 := skip_ws_length _ _ h4
  have l6 := skip_ws_length _ _ h6
  have l7 := next_number_length scan _ _ _ h7
  have l8 := skip_ws_length _ _ h8
  have l10 := skip_ws_length _ _ h10
  have l11 := next_number_length scan _ _ _ h11
  have l12 := skip_ws_length _ _ h12
  rw [← hres.2]
  subst h1 h5 h9 h13
  simp only [List.length_cons] at *
  omega

end ReaderBasics

section ReaderLemmas

variable {K : Type} [LinearOrderedField K]

open Dbl

/-- An accepted property does not lengthen the input and keeps the kind of the object. -/
theorem assign_property_ok (sqrt : K → K) (scan : List Char → ScanResult K) (key : String)
    (o o2 : ParsedObject K) (inp rest : List Char)
    (h : assign_property sqrt scan key o inp = .ok (o2, rest)) :
    rest.length ≤ inp.length ∧ o2.id = o.id := by
  unfold assign_property at h
  split_ifs at h with k1 k2 k3 k4 k5 k6
  · simp only [except_bind_ok, Prod.exists] at h
    obtain ⟨v, r, hn, hm⟩ := h
    have l := next_number_length scan _ _ _ hn
    cases o <;> simp only [pure, Except.pure, throw, throwThe, MonadExceptOf.throw] at hm <;>
      (try split_ifs at hm) <;>
      first
      | exact Except.noConfusion hm
      | (simp only [Except.ok.injEq, Prod.mk.injEq] at hm
         rw [← hm.1, ← hm.2]
         exact ⟨l, rfl⟩)
  · simp only [except_bind_ok, Prod.exists] at h
    obtain ⟨v, r, hn, hm⟩ := h
    have l := next_number_length scan _ _ _ hn
    cases o <;> simp only [pure, Except.pure, throw, throwThe, MonadExceptOf.throw] at hm <;>
      (try split_ifs at hm) <;>
      first
      | exact Except.noConfusion hm
      | (simp only [Except.ok.injEq, Prod.mk.injEq] at hm
         rw [← hm.1, ← hm.2]
         exact ⟨l, rfl⟩)
  · simp only [except_bind_ok, Prod.exists] at h
    obtain ⟨v, r, hn, hm⟩ := h
    have l := next_number_length scan _ _ _ hn
    cases o <;> simp only [pure, Except.pure, throw, throwThe, MonadExceptOf.throw] at hm <;>
      (try split_ifs at hm) <;>
      first
      | exact Except.noConfusion hm
      | (simp only [Except.ok.injEq, Prod.mk.injEq] at hm
         rw [← hm.1, ← hm.2]
         exact ⟨l, rfl⟩)
  · simp only [except_bind_ok, Prod.exists] at h
    obtain ⟨v, r, hn, hm⟩ := h
    have l := next_vector_length scan _ _ _ hn
    split_ifs at hm
    cases o <;> simp only [pure, Except.pure, throw, throwThe, MonadExceptOf.throw] at hm <;>
      first
      | exact Except.noConfusion hm
      | (simp only [Except.ok.injEq, Prod.mk.injEq] at hm
         rw [← hm.1, ← hm.2]
         exact ⟨l, rfl⟩)
  · simp only [except_bind_ok, Prod.exists] at h
    obtain ⟨v, r, hn, hm⟩ := h
    have l := next_vector_length scan _ _ _ hn
    cases o <;> simp only [pure, Except.pure, throw, throwThe, MonadExceptOf.throw] at hm <;>
      first
      | exact Except.noConfusion hm
      | (simp only [Except.ok.injEq, Prod.mk.injEq] at hm
         rw [← hm.1, ← hm.2]
         exact ⟨l, rfl⟩)
  · simp only [except_bind_ok, Prod.exists] at h
    obtain ⟨v, r, hn, hm⟩ := h
    have l := next_vector_length scan _ _ _ hn
    cases o <;> simp only [pure, Except.pure, throw, throwThe, MonadExceptOf.throw] at hm <;>
      first
      | exact Except.noConfusion hm
      | (simp only [Except.ok.injEq, Prod.mk.injEq] at hm
         rw [← hm.1, ← hm.2]
         exact ⟨l, rfl⟩)

/-- The property loop shortens the input and keeps the kind of the object. -/
theorem read_properties_ok (sqrt : K → K) (scan : List Char → ScanResult K) :
    ∀ (fuel : Nat) (o o2 : ParsedObject K) (inp rest : List Char),
      read_properties sqrt scan fuel o inp = .ok (o2, rest) →
      rest.length < inp.length ∧ o2.id = o.id
  | 0, o, o2, inp, rest, h => by simp [read_properties] at h
  | fuel + 1, o, o2, inp, rest, h => by
    rw [read_properties] at h
    simp only [except_bind_ok, Prod.exists] at h
    obtain ⟨c, r0, hc, h⟩ := h
    rw [next_c_ok] at hc
    subst hc
    split_ifs at h with c1 c2
    · simp only [pure, Except.pure, Except.ok.injEq, Prod.mk.injEq] at h
      rw [← h.1, ← h.2]
      exact ⟨by simp, rfl⟩
    · simp only [except_bind_ok, Prod.exists] at h
      obtain ⟨i1, h1, key, i2, h2, i3, h3, i4, h4, i5, h5, o1, i6, h6, i7, h7, h8⟩ := h
      rw [expect_c_ok] at h4
      have l1 := skip_ws_length _ _ h1
      have l2 := next_string_length _ _ _ h2
      have l3 := skip_ws_length _ _ h3
      have l5 := skip_ws_length _ _ h5
      have l6 := assign_property_ok sqrt scan _ _ _ _ _ h6
      have l7 := skip_ws_length _ _ h7
      have l8 := read_properties_ok sqrt scan fuel _ _ _ _ h8
      subst h4
      simp only [List.length_cons] at *
      exact ⟨by omega, l8.2.trans l6.2⟩

/-- The head of an object does not lengthen the input. -/
theorem read_type_length (body rest : List Char) (value : String)
    (h : read_type body = .ok (value, rest)) : rest.length ≤ body.length := by
  unfold read_type at h
  simp only [except_bind_ok, Prod.exists] at h
  obtain ⟨i1, h1, key, i2, h2, h3⟩ := h
  split_ifs at h3 with hk
  simp only [except_bind_ok] at h3
  obtain ⟨i3, h3, i4, h4, i5, h5, h6⟩ := h3
  rw [expect_c_ok] at h4
  have l1 := skip_ws_length _ _ h1
  have l2 := next_string_length _ _ _ h2
  have l3 := skip_ws_length _ _ h3
  have l5 := skip_ws_length _ _ h5
  have l6 := next_string_length _ _ _ h6
  subst h4
  simp only [List.length_cons] at *
  omega

/-- An object read shortens the input, keeps a camera already in the scene, and when its type is `"camera"` leaves the scene with a camera. -/
theorem read_object_ok (sqrt : K → K) (scan : List Char → ScanResult K)
    (scene scene1 : ParsedScene K) (body r1 : List Char)
    (h : read_object sqrt scan scene body = .ok (scene1, r1)) :
    r1.length < body.length ∧
    (scene.cam.isSome = true → scene1.cam.isSome = true) ∧
    (∀ rest, read_type body = .ok ("camera", rest) → scene1.cam.isSome = true) := by
  unfold read_object at h
  simp only [except_bind_ok, Prod.exists] at h
  obtain ⟨value, i1, h1, o, h2, i2, h3, o2, i3, h4, h5⟩ := h
  simp only [pure, Except.pure, Except.ok.injEq, Prod.mk.injEq] at h5
  have l1 := read_type_length _ _ _ h1
  have l3 := skip_ws_length _ _ h3
  have l4 := read_properties_ok sqrt scan _ _ _ _ _ h4
  rw [← h5.1, ← h5.2]
  refine ⟨by omega, (store_object_cam scene o2).1, ?_⟩
  intro rest hrest
  rw [h1] at hrest
  simp only [Except.ok.injEq, Prod.mk.injEq] at hrest
  have hid := (create_object_id scene value o h2).1 hrest.1
  exact (store_object_cam scene o2).2 (l4.2.trans hid)

/-- An object of type `"camera"` read while the scene has a camera is the error of a second camera. -/
theorem read_object_second_camera (sqrt : K → K) (scan : List Char → ScanResult K)
    (scene : ParsedScene K) (body rest : List Char) (hcam : scene.cam.isSome = true)
    (htype : read_type body = .ok ("camera", rest)) :
    read_object sqrt scan scene body = .error .second_camera := by
  simp [read_object, htype, create_object, hcam, bind, Except.bind]

/-- Once the object loop is back at the top of its body after `n` objects, the rest of its run is the run from there. -/
theorem LoopReaches.unfold (sqrt : K → K) (scan : List Char → ScanResult K)
    {n : Nat} {scene0 scene : ParsedScene K} {inp0 inp : List Char}
    (h : LoopReaches sqrt scan n scene0 inp0 scene inp) :
    ∀ k, read_objects sqrt scan (n + k) scene0 inp0 = read_objects sqrt scan k scene inp := by
  induction h with
  | start scene inp => intro k; rw [Nat.zero_add]
  | object hprev hobj hws1 hws2 ih =>
    intro k
    rw [Nat.add_right_comm, Nat.add_assoc, ih (k + 1), read_objects]
    simp [hobj, hws1, hws2, next_c, bind, Except.bind]

/-- Each object the loop reads takes at least one character. -/
theorem LoopReaches.length_le (sqrt : K → K) (scan : List Char → ScanResult K)
    {n : Nat} {scene0 scene : ParsedScene K} {inp0 inp : List Char}
    (h : LoopReaches sqrt scan n scene0 inp0 scene inp) : inp.length + n ≤ inp0.length := by
  induction h with
  | start scene inp => simp
  | object hprev hobj hws1 hws2 ih =>
    have l1 := (read_object_ok sqrt scan _ _ _ _ hobj).1
    have l2 := skip_ws_length _ _ hws1
    have l3 := skip_ws_length _ _ hws2
    simp only [List.length_cons] at *
    omega

/-- The object loop keeps the camera of the scene; after at least one object, the first of type `"camera"`, the scene has a camera. -/
theorem LoopReaches.cam_kept (sqrt : K → K) (scan : List Char → ScanResult K)
    {n : Nat} {scene0 scene : ParsedScene K} {inp0 inp : List Char}
    (h : LoopReaches sqrt scan n scene0 inp0 scene inp) :
    (scene0.cam.isSome = true → scene.cam.isSome = true) ∧
    (0 < n → ∀ body0 rest, inp0 = '{' :: body0 → read_type body0 = .ok ("camera", rest) →
      scene.cam.isSome = true) := by
  induction h with
  | start scene inp => exact ⟨fun h => h, fun h => absurd h (Nat.lt_irrefl 0)⟩
  | @object n scene0 scene scene1 inp0 body r1 r3 r4 hprev hobj hws1 hws2 ih =>
    have hok := read_object_ok sqrt scan _ _ _ _ hobj
    refine ⟨fun h0 => hok.2.1 (ih.1 h0), ?_⟩
    intro _ body0 rest hinp htype
    rcases Nat.eq_zero_or_pos n with hn | hn
    · subst hn
      cases hprev
      simp only [List.cons.injEq, true_and] at hinp
      subst hinp
      exact hok.2.2 rest htype
    · exact hok.2.1 (ih.2 hn body0 rest hinp htype)

/-- Reading an object puts no camera in the object list. -/
theorem read_object_objects (sqrt : K → K) (scan : List Char → ScanResult K)
    (scene scene1 : ParsedScene K) (body r1 : List Char)
    (h : read_object sqrt scan scene body = .ok (scene1, r1))
    (hno : ∀ x ∈ scene.objects, x.id ≠ 1) : ∀ x ∈ scene1.objects, x.id ≠ 1 := by
  unfold read_object at h
  simp only [except_bind_ok, Prod.exists] at h
  obtain ⟨value, i1, h1, o, h2, i2, h3, o2, i3, h4, h5⟩ := h
  simp only [pure, Except.pure, Except.ok.injEq, Prod.mk.injEq] at h5
  rw [← h5.1]
  exact store_object_objects scene o2 hno

/-- The object loop puts no camera in the object list. -/
theorem read_objects_objects (sqrt : K → K) (scan : List Char → ScanResult K) :
    ∀ (fuel : Nat) (scene result : ParsedScene K) (inp : List Char),
      read_objects sqrt scan fuel scene inp = .ok result →
      (∀ x ∈ scene.objects, x.id ≠ 1) → ∀ x ∈ result.objects, x.id ≠ 1
  | 0, scene, result, inp, h, _ => by simp [read_objects] at h
  | fuel + 1, scene, result, [], h, _ => by simp [read_objects] at h
  | fuel + 1, scene, result, c :: inp, h, hno => by
    rw [read_objects] at h
    split_ifs at h with c1 c2
    · rw [close_scene_ok _ _ h]
      exact hno
    · simp only [except_bind_ok, Prod.exists] at h
      obtain ⟨scene1, r1, hobj, r2, hws, c3, r3, hc, h⟩ := h
      have hno1 := read_object_objects sqrt scan _ _ _ _ hobj hno
      split_ifs at h with c4 c5
      · simp only [except_bind_ok] at h
        obtain ⟨r4, hws2, h⟩ := h
        exact read_objects_objects sqrt scan fuel _ _ _ h hno1
      · rw [close_scene_ok _ _ h]
        exact hno1

/-- A property accepted on an object is accepted again on the object it produced, and the later value replaces the earlier one. -/
theorem assign_property_again (sqrt : K → K) (scan : List Char → ScanResult K) (key : String)
    (o o1 o2 : ParsedObject K) (inp rest1 inp2 rest2 : List Char)
    (h1 : assign_property sqrt scan key o inp = .ok (o1, rest1))
    (h2 : assign_property sqrt scan key o inp2 = .ok (o2, rest2)) :
    assign_property sqrt scan key o1 inp2 = .ok (o2, rest2) := by
  unfold assign_property at h1 h2 ⊢
  split_ifs at h1 h2 ⊢ with k1 k2 k3 k4 k5 k6
  all_goals
    simp only [except_bind_ok, Prod.exists] at h1 h2
    obtain ⟨v1, r1, hn1, hm1⟩ := h1
    obtain ⟨v2, r2, hn2, hm2⟩ := h2
    simp only [hn2, bind, Except.bind]
  all_goals try split_ifs at hm1 hm2 ⊢
  all_goals
    cases o <;> simp only [pure, Except.pure, throw, throwThe, MonadExceptOf.throw] at hm1 hm2 ⊢ <;>
      first
      | exact Except.noConfusion hm1
      | exact Except.noConfusion hm2
      | (simp only [Except.ok.injEq, Prod.mk.injEq] at hm1 hm2
         obtain ⟨e1, _⟩ := hm1
         obtain ⟨e2, e3⟩ := hm2
         subst e1 e2 e3
         rfl)

/-- The property loop accepts a closing `}` whatever the fields of the object. -/
theorem read_properties_close (sqrt : K → K) (scan : List Char → ScanResult K) (fuel : Nat)
    (o : ParsedObject K) (rest : List Char) :
    read_properties sqrt scan (fuel + 1) o ('}' :: rest) = .ok (o, rest) := by
  simp [read_properties, next_c, bind, Except.bind, pure, Except.pure]

/-- An object closed right after its type is stored with the fields it was allocated with. -/
theorem read_object_type_only (sqrt : K → K) (scan : List Char → ScanResult K)
    (scene : ParsedScene K) (body r rest : List Char) (value : String) (o : ParsedObject K)
    (ht : read_type body = .ok (value, r)) (hws : skip_ws r = .ok ('}' :: rest))
    (hc : create_object scene value = .ok o) :
    read_object sqrt scan scene body = .ok (store_object scene o, rest) := by
  simp [read_object, ht, hws, hc, read_properties_close, bind, Except.bind, pure, Except.pure]

end ReaderLemmas

/-! ### The bound on loop turns

The two loops of `read_scene` take at least one character each turn, so a
bound above the length of the input is never reached. -/

section FuelBasics

variable {K : Type}

/-- A sequence of two steps fails with `e` exactly when the first step does, or the first succeeds and the second fails with `e`. -/
theorem except_bind_error {ε α β : Type} (x : Except ε α) (f : α → Except ε β) (e : ε) :
    (x >>= f) = .error e ↔ x = .error e ∨ ∃ a, x = .ok a ∧ f a = .error e := by
  cases x with
  | error e2 => simp [bind, Except.bind]
  | ok a => simp [bind, Except.bind]

/-- The function `next_c` has no loop to bound. -/
theorem next_c_fuel (inp : List Char) : next_c inp ≠ .error .out_of_fuel := by
  cases inp <;> simp [next_c]

/-- The function `expect_c` has no loop to bound. -/
theorem expect_c_fuel (inp : List Char) (d : Char) : expect_c inp d ≠ .error .out_of_fuel := by
  cases inp with
  | nil => simp [expect_c, next_c]
  | cons c r =>
    simp only [expect_c, next_c]
    split_ifs <;> simp

/-- The loop of `skip_ws` ends with the input. -/
theorem skip_ws_fuel : ∀ inp : List Char, skip_ws inp ≠ .error .out_of_fuel
  | [] => by simp [skip_ws]
  | c :: r => by
    rw [skip_ws]
    split_ifs
    · exact skip_ws_fuel r
    · simp

/-- The loop of `next_string` ends with the input. -/
theorem next_string_loop_fuel : ∀ (inp : List Char) (i : Nat) (buffer : List Char),
    next_string_loop inp i buffer ≠ .error .out_of_fuel
  | [], i, buffer => by simp [next_string_loop]
  | c :: r, i, buffer => by
    rw [next_string_loop]
    split_ifs
    · simp
    · simp
    · simp
    · simp
    · exact next_string_loop_fuel r (i + 1) (buffer ++ [c])

/-- The function `next_string` ends with the input. -/
theorem next_string_fuel (inp : List Char) : next_string inp ≠ .error .out_of_fuel := by
  cases inp with
  | nil => simp [next_string, next_c]
  | cons c r =>
    simp only [next_string, next_c]
    split_ifs
    · simp
    · exact next_string_loop_fuel r 0 []

/-- The function `next_number` has no loop to bound. -/
theorem next_number_fuel (scan : List Char → ScanResult K) (inp : List Char) :
    next_number scan inp ≠ .error .out_of_fuel := by
  unfold next_number
  split <;> simp

/-- Allocating an object has no loop to bound. -/
theorem create_object_fuel (scene : ParsedScene K) (value : String) :
    create_object scene value ≠ .error .out_of_fuel := by
  unfold create_object
  split_ifs <;> simp

/-- Closing the list has no loop to bound. -/
theorem close_scene_fuel (scene : ParsedScene K) :
    close_scene scene ≠ .error .out_of_fuel := by
  unfold close_scene
  split_ifs <;> simp

/-- The head of an object has no loop to bound. -/
theorem read_type_fuel (inp : List Char) : read_type inp ≠ .error .out_of_fuel := by
  intro h
  unfold read_type at h
  simp only [except_bind_error, Prod.exists] at h
  rcases h with h | ⟨i1, _, h⟩
  · exact skip_ws_fuel _ h
  rcases h with h | ⟨key, i2, _, h⟩
  · exact next_string_fuel _ h
  split_ifs at h
  · simp [throw, throwThe, MonadExceptOf.throw] at h
  simp only [except_bind_error] at h
  rcases h with h | ⟨i3, _, h⟩
  · exact skip_ws_fuel _ h
  rcases h with h | ⟨i4, _, h⟩
  · exact expect_c_fuel _ _ h
  rcases h with h | ⟨i5, _, h⟩
  · exact skip_ws_fuel _ h
  exact next_string_fuel _ h

/-- The function `next_vector` has no loop to bound. -/
theorem next_vector_fuel (scan : List Char → ScanResult K) (inp : List Char) :
    next_vector scan inp ≠ .error .out_of_fuel := by
  intro h
  unfold next_vector at h
  simp only [except_bind_error, Prod.exists] at h
  rcases h with h | ⟨_, _, h⟩
  · exact expect_c_fuel _ _ h
  rcases h with h | ⟨_, _, h⟩
  · exact skip_ws_fuel _ h
  rcases h with h | ⟨_, _, _, h⟩
  · exact next_number_fuel scan _ h
  rcases h with h | ⟨_, _, h⟩
  · exact skip_ws_fuel _ h
  rcases h with h | ⟨_, _, h⟩
  · exact expect_c_fuel _ _ h
  rcases h with h | ⟨_, _, h⟩
  · exact skip_ws_fuel _ h
  rcases h with h | ⟨_, _, _, h⟩
  · exact next_number_fuel scan _ h
  rcases h with h | ⟨_, _, h⟩
  · exact skip_ws_fuel _ h
  rcases h with h | ⟨_, _, h⟩
  · exact expect_c_fuel _ _ h
  rcases h with h | ⟨_, _, h⟩
  · exact skip_ws_fuel _ h
  rcases h with h | ⟨_, _, _, h⟩
  · exact next_number_fuel scan _ h
  rcases h with h | ⟨_, _, h⟩
  · exact skip_ws_fuel _ h
  rcases h with h | ⟨_, _, h⟩
  · exact expect_c_fuel _ _ h
  simp [pure, Except.pure] at h

end FuelBasics

section Fuel

variable {K : Type} [LinearOrderedField K]

/-- The value of a property has no loop to bound. -/
theorem assign_property_fuel (sqrt : K → K) (scan : List Char → ScanResult K) (key : String)
    (o : ParsedObject K) (inp : List Char) :
    assign_property sqrt scan key o inp ≠ .error .out_of_fuel := by
  intro h
  unfold assign_property at h
  split_ifs at h
  · simp only [except_bind_error, Prod.exists] at h
    rcases h with h | ⟨v, r, _, h⟩
    · exact next_number_fuel scan _ h
    · cases o <;> simp only [pure, Except.pure, throw, throwThe, MonadExceptOf.throw] at h <;>
        (try split_ifs at h) <;> simp at h
  · simp only [except_bind_error, Prod.exists] at h
    rcases h with h | ⟨v, r, _, h⟩
    · exact next_number_fuel scan _ h
    · cases o <;> simp only [pure, Except.pure, throw, throwThe, MonadExceptOf.throw] at h <;>
        (try split_ifs at h) <;> simp at h
  · simp only [except_bind_error, Prod.exists] at h
    rcases h with h | ⟨v, r, _, h⟩
    · exact next_number_fuel scan _ h
    · cases o <;> simp only [pure, Except.pure, throw, throwThe, MonadExceptOf.throw] at h <;>
        (try split_ifs at h) <;> simp at h
  · simp only [except_bind_error, Prod.exists] at h
    rcases h with h | ⟨v, r, _, h⟩
    · exact next_vector_fuel scan _ h
    · split_ifs at h
      · simp [throw, throwThe, MonadExceptOf.throw] at h
      · cases o <;> simp [pure, Except.pure, throw, throwThe, MonadExceptOf.throw] at h
  · simp only [except_bind_error, Prod.exists] at h
    rcases h with h | ⟨v, r, _, h⟩
    · exact next_vector_fuel scan _ h
    · cases o <;> simp [pure, Except.pure, throw, throwThe, MonadExceptOf.throw] at h
  · simp only [except_bind_error, Prod.exists] at h
    rcases h with h | ⟨v, r, _, h⟩
    · exact next_vector_fuel scan _ h
    · cases o <;> simp [pure, Except.pure, throw, throwThe, MonadExceptOf.throw] at h
  · simp [throw, throwThe, MonadExceptOf.throw] at h

/-- The property loop, given more turns than the input has characters, does not reach its bound. -/
theorem read_properties_fuel (sqrt : K → K) (scan : List Char → ScanResult K) :
    ∀ (fuel : Nat) (o : ParsedObject K) (inp : List Char), inp.length < fuel →
      read_properties sqrt scan fuel o inp ≠ .error .out_of_fuel
  | 0, o, inp, hf => absurd hf (Nat.not_lt_zero _)
  | fuel + 1, o, inp, hf => by
    intro h
    rw [read_properties] at h
    simp only [except_bind_error, Prod.exists] at h
    rcases h with h | ⟨c, r0, hc, h⟩
    · exact next_c_fuel _ h
    rw [next_c_ok] at hc
    subst hc
    split_ifs at h
    · simp [pure, Except.pure] at h
    · simp only [except_bind_error, Prod.exists] at h
      rcases h with h | ⟨i1, h1, h⟩
      · exact skip_ws_fuel _ h
      rcases h with h | ⟨key, i2, h2, h⟩
      · exact next_string_fuel _ h
      rcases h with h | ⟨i3, h3, h⟩
      · exact skip_ws_fuel _ h
      rcases h with h | ⟨i4, h4, h⟩
      · exact expect_c_fuel _ _ h
      rcases h with h | ⟨i5, h5, h⟩
      · exact skip_ws_fuel _ h
      rcases h with h | ⟨o1, i6, h6, h⟩
      · exact assign_property_fuel sqrt scan _ _ _ h
      rcases h with h | ⟨i7, h7, h⟩
      · exact skip_ws_fuel _ h
      rw [expect_c_ok] at h4
      have l1 := skip_ws_length _ _ h1
      have l2 := next_string_length _ _ _ h2
      have l3 := skip_ws_length _ _ h3
      have l5 := skip_ws_length _ _ h5
      have l6 := (assign_property_ok sqrt scan _ _ _ _ _ h6).1
      have l7 := skip_ws_length _ _ h7
      subst h4
      simp only [List.length_cons] at *
      exact read_properties_fuel sqrt scan fuel _ _ (by omega) h
    · simp [throw, throwThe, MonadExceptOf.throw] at h

/-- An object is read without reaching the bound on loop turns. -/
theorem read_object_fuel (sqrt : K → K) (scan : List Char → ScanResult K)
    (scene : ParsedScene K) (inp : List Char) :
    read_object sqrt scan scene inp ≠ .error .out_of_fuel := by
  intro h
  unfold read_object at h
  simp only [except_bind_error, Prod.exists] at h
  rcases h with h | ⟨value, i1, _, h⟩
  · exact read_type_fuel _ h
  rcases h with h | ⟨o, _, h⟩
  · exact create_object_fuel _ _ h
  rcases h with h | ⟨i2, _, h⟩
  · exact skip_ws_fuel _ h
  rcases h with h | ⟨o2, i3, _, h⟩
  · exact read_properties_fuel sqrt scan _ _ _ (Nat.lt_succ_self _) h
  simp [pure, Except.pure] at h

/-- The object loop, given more turns than the input has characters, does not reach its bound. -/
theorem read_objects_fuel (sqrt : K → K) (scan : List Char → ScanResult K) :
    ∀ (fuel : Nat) (scene : ParsedScene K) (inp : List Char), inp.length < fuel →
      read_objects sqrt scan fuel scene inp ≠ .error .out_of_fuel
  | 0, scene, inp, hf => absurd hf (Nat.not_lt_zero _)
  | fuel + 1, scene, [], hf => by simp [read_objects]
  | fuel + 1, scene, c :: inp, hf => by
    intro h
    rw [read_objects] at h
    split_ifs at h
    · exact close_scene_fuel _ h
    · simp only [except_bind_error, Prod.exists] at h
      rcases h with h | ⟨scene1, r1, hobj, h⟩
      · exact read_object_fuel sqrt scan _ _ h
      rcases h with h | ⟨r2, hws, h⟩
      · exact skip_ws_fuel _ h
      rcases h with h | ⟨c3, r3, hc, h⟩
      · exact next_c_fuel _ h
      split_ifs at h
      · simp only [except_bind_error] at h
        rcases h with h | ⟨r4, hws2, h⟩
        · exact skip_ws_fuel _ h
        rw [next_c_ok] at hc
        have l1 := (read_object_ok sqrt scan _ _ _ _ hobj).1
        have l2 := skip_ws_length _ _ hws
        have l4 := skip_ws_length _ _ hws2
        subst hc
        simp only [List.length_cons] at *
        exact read_objects_fuel sqrt scan fuel _ _ (by omega) h
      · exact close_scene_fuel _ h
      · simp [throw, throwThe, MonadExceptOf.throw] at h
    · simp [throw, throwThe, MonadExceptOf.throw] at h

/-- The bound on loop turns in `read_scene` is never reached. -/
theorem read_scene_fuel (sqrt : K → K) (scan : List Char → ScanResult K) (inp : List Char) :
    read_scene sqrt scan inp ≠ .error .out_of_fuel := by
  intro h
  unfold read_scene at h
  simp only [except_bind_error] at h
  rcases h with h | ⟨inp1, _, h⟩
  · unfold list_start at h
    simp only [except_bind_error] at h
    rcases h with h | ⟨_, _, h⟩
    · exact skip_ws_fuel _ h
    rcases h with h | ⟨_, _, h⟩
    · exact expect_c_fuel _ _ h
    exact skip_ws_fuel _ h
  · exact read_objects_fuel sqrt scan _ _ _ (Nat.lt_succ_self _) h

end Fuel

/-! ### Cameras -/

section Cameras

variable {K : Type} [LinearOrderedField K]

/-- C9: when the object loop of `read_scene` gets to an object whose type is
`"camera"` and, one or more objects later, to another object whose type is
`"camera"`, `read_scene` stops with the error of a second camera, whatever
follows the type of that object, and returns no scene; and in every scene
`read_scene` returns no entry of the object list is a camera, so that the
scene holds at most the one camera of its field `cam`. -/
theorem read_scene_cameras (sqrt : K → K) (scan : List Char → ScanResult K) (inp : List Char) :
    (∀ (inp1 body1 rest1 body2 rest2 : List Char) (n m : Nat) (scene1 scene2 : ParsedScene K),
      list_start inp = .ok inp1 →
      LoopReaches sqrt scan n ⟨none, []⟩ inp1 scene1 ('{' :: body1) →
      read_type body1 = .ok ("camera", rest1) →
      LoopReaches sqrt scan (m + 1) scene1 ('{' :: body1) scene2 ('{' :: body2) →
      read_type body2 = .ok ("camera", rest2) →
      read_scene sqrt scan inp = .error .second_camera) ∧
    (∀ scene : ParsedScene K, read_scene sqrt scan inp = .ok scene →
      ∀ o ∈ scene.objects, o.id ≠ 1) := by
  constructor
  · intro inp1 body1 rest1 body2 rest2 n m scene1 scene2 hstart h1 ht1 h2 ht2
    have hcam : scene2.cam.isSome = true :=
      (LoopReaches.cam_kept sqrt scan h2).2 (Nat.succ_pos m) body1 rest1 rfl ht1
    have hlen1 := LoopReaches.length_le sqrt scan h1
    have hlen2 := LoopReaches.length_le sqrt scan h2
    have hfuel : inp1.length + 1 = n + ((m + 1) + ((inp1.length - n - (m + 1)) + 1)) := by
      simp only [List.length_cons] at hlen1 hlen2
      omega
    simp only [read_scene, hstart, bind, Except.bind]
    rw [hfuel, LoopReaches.unfold sqrt scan h1, LoopReaches.unfold sqrt scan h2, read_objects]
    simp [read_object_second_camera sqrt scan scene2 body2 rest2 hcam ht2, bind, Except.bind]
  · intro scene h
    simp only [read_scene, except_bind_ok] at h
    obtain ⟨inp1, _, h⟩ := h
    exact read_objects_objects sqrt scan _ _ _ _ h (fun x hx => absurd hx (List.not_mem_nil x))

/-- A camera, a sphere and a second camera: the error of a second camera. -/
theorem read_scene_cameras_witness :
    read_scene Rat.sqrt scan_decimal
      "[\x7b\"type\": \"camera\", \"width\": 2\x7d, \x7b\"type\": \"sphere\"\x7d, \x7b\"type\": \"camera\"\x7d]".toList
      = .error .second_camera := by
  have hA : LoopReaches Rat.sqrt scan_decimal 1 ⟨none, []⟩
      ('{' :: "\"type\": \"camera\", \"width\": 2\x7d, \x7b\"type\": \"sphere\"\x7d, \x7b\"type\": \"camera\"\x7d]".toList)
      ⟨some ⟨some (Dbl.fin 2), none⟩, []⟩
      ('{' :: "\"type\": \"sphere\"\x7d, \x7b\"type\": \"camera\"\x7d]".toList) :=
    @LoopReaches.object ℚ _ Rat.sqrt scan_decimal 0 _ _ _ _ _
      ", \x7b\"type\": \"sphere\"\x7d, \x7b\"type\": \"camera\"\x7d]".toList
      " \x7b\"type\": \"sphere\"\x7d, \x7b\"type\": \"camera\"\x7d]".toList _
      (LoopReaches.start _ _) (by rfl) (by rfl) (by rfl)
  have hB : LoopReaches Rat.sqrt scan_decimal (1 + 1) ⟨none, []⟩
      ('{' :: "\"type\": \"camera\", \"width\": 2\x7d, \x7b\"type\": \"sphere\"\x7d, \x7b\"type\": \"camera\"\x7d]".toList)
      ⟨some ⟨some (Dbl.fin 2), none⟩, [.sphere ⟨none, none, none⟩]⟩
      ('{' :: "\"type\": \"camera\"\x7d]".toList) :=
    @LoopReaches.object ℚ _ Rat.sqrt scan_decimal 1 _ _ _ _ _
      ", \x7b\"type\": \"camera\"\x7d]".toList " \x7b\"type\": \"camera\"\x7d]".toList _
      hA (by rfl) (by rfl) (by rfl)
  exact (read_scene_cameras Rat.sqrt scan_decimal _).1 _ _
    ", \"width\": 2\x7d, \x7b\"type\": \"sphere\"\x7d, \x7b\"type\": \"camera\"\x7d]".toList
    _ "\x7d]".toList 0 1 _ _ (by rfl) (LoopReaches.start _ _) (by rfl) hB (by rfl)

end Cameras

/-! ### Required fields -/

section RequiredFields

variable {K : Type} [LinearOrderedField K]

open Dbl

/-- C10, as stated, fails: a sphere declaring only its type is accepted, with
its position, radius and colour unset, and a sphere declaring its radius twice
is accepted, with the second radius. -/
theorem read_scene_accepts_unset_and_repeated :
    read_scene Rat.sqrt scan_decimal "[\x7b\"type\": \"sphere\"\x7d]".toList =
      .ok ⟨none, [.sphere ⟨none, none, none⟩]⟩ ∧
    read_scene Rat.sqrt scan_decimal
        "[\x7b\"type\": \"sphere\", \"radius\": 1, \"radius\": 2\x7d]".toList =
      .ok ⟨none, [.sphere ⟨none, some (fin 2), none⟩]⟩ :=
  ⟨by rfl, by rfl⟩

/-- C10, amended: `read_scene` keeps no record of the fields an object has
set. The property loop accepts a closing `}` whatever fields are unset; an
object closed right after its type is stored with every field unset; and a
property accepted on an object is accepted again on the object it produced,
the later value replacing the earlier one. -/
theorem read_scene_fields_unchecked (sqrt : K → K) (scan : List Char → ScanResult K) :
    (∀ (fuel : Nat) (o : ParsedObject K) (rest : List Char),
      read_properties sqrt scan (fuel + 1) o ('}' :: rest) = .ok (o, rest)) ∧
    (∀ (scene : ParsedScene K) (body r rest : List Char) (value : String) (o : ParsedObject K),
      read_type body = .ok (value, r) → skip_ws r = .ok ('}' :: rest) →
      create_object scene value = .ok o →
      read_object sqrt scan scene body = .ok (store_object scene o, rest)) ∧
    (∀ (key : String) (o o1 o2 : ParsedObject K) (inp rest1 inp2 rest2 : List Char),
      assign_property sqrt scan key o inp = .ok (o1, rest1) →
      assign_property sqrt scan key o inp2 = .ok (o2, rest2) →
      assign_property sqrt scan key o1 inp2 = .ok (o2, rest2)) :=
  ⟨read_properties_close sqrt scan,
    fun scene body r rest value o => read_object_type_only sqrt scan scene body r rest value o,
    fun key o o1 o2 inp rest1 inp2 rest2 =>
      assign_property_again sqrt scan key o o1 o2 inp rest1 inp2 rest2⟩

/-- A sphere closed right after its type, and a radius assigned to a sphere
that has one. -/
theorem read_scene_fields_unchecked_witness :
    read_object Rat.sqrt scan_decimal ⟨none, []⟩ "\"type\": \"sphere\"\x7d]".toList =
      .ok (⟨none, [.sphere ⟨none, none, none⟩]⟩, "]".toList) ∧
    assign_property Rat.sqrt scan_decimal "radius" (.sphere ⟨none, some (fin 1), none⟩)
        "2\x7d".toList = .ok (.sphere ⟨none, some (fin 2), none⟩, "\x7d".toList) :=
  ⟨(read_scene_fields_unchecked Rat.sqrt scan_decimal).2.1 ⟨none, []⟩
      "\"type\": \"sphere\"\x7d]".toList "\x7d]".toList "]".toList "sphere"
      (.sphere ⟨none, none, none⟩) (by rfl) (by rfl) (by rfl),
    (read_scene_fields_unchecked Rat.sqrt scan_decimal).2.2 "radius"
      (.sphere ⟨none, none, none⟩) (.sphere ⟨none, some (fin 1), none⟩)
      (.sphere ⟨none, some (fin 2), none⟩) "1\x7d".toList "\x7d".toList "2\x7d".toList "\x7d".toList
      (by rfl) (by rfl)⟩

end RequiredFields

/-! ### Errors and the run of the reader -/

section ReaderRun

variable {K : Type} [LinearOrderedField K]

/-- The key of a property shortens the input. -/
theorem read_key_length (r vinp : List Char) (key : String)
    (h : read_key r = .ok (key, vinp)) : vinp.length < r.length := by
  unfold read_key at h
  simp only [except_bind_ok, Prod.exists] at h
  obtain ⟨i1, h1, k, i2, h2, i3, h3, i4, h4, i5, h5, h6⟩ := h
  simp only [pure, Except.pure, Except.ok.injEq, Prod.mk.injEq] at h6
  rw [expect_c_ok] at h4
  have l1 := skip_ws_length _ _ h1
  have l2 := next_string_length _ _ _ h2
  have l3 := skip_ws_length _ _ h3
  have l5 := skip_ws_length _ _ h5
  rw [← h6.2]
  subst h4
  simp only [List.length_cons] at *
  omega

/-- A property whose value is refused stops the property loop with the error of the value. -/
theorem read_properties_value_error (sqrt : K → K) (scan : List Char → ScanResult K)
    (fuel : Nat) (o : ParsedObject K) (r vinp : List Char) (key : String) (e : ParseError)
    (hk : read_key r = .ok (key, vinp))
    (he : assign_property sqrt scan key o vinp = .error e) :
    read_properties sqrt scan (fuel + 1) o (',' :: r) = .error e := by
  unfold read_key at hk
  simp only [except_bind_ok, Prod.exists] at hk
  obtain ⟨i1, h1, k, i2, h2, i3, h3, i4, h4, i5, h5, h6⟩ := hk
  simp only [pure, Except.pure, Except.ok.injEq, Prod.mk.injEq] at h6
  obtain ⟨hk1, hk2⟩ := h6
  subst hk1 hk2
  simp [read_properties, next_c, h1, h2, h3, h4, h5, he, bind, Except.bind]

/-- A property whose value is accepted takes the property loop to its next turn. -/
theorem read_properties_value_ok (sqrt : K → K) (scan : List Char → ScanResult K)
    (fuel : Nat) (o o1 : ParsedObject K) (r vinp r6 r7 : List Char) (key : String)
    (hk : read_key r = .ok (key, vinp))
    (ha : assign_property sqrt scan key o vinp = .ok (o1, r6))
    (hw : skip_ws r6 = .ok r7) :
    read_properties sqrt scan (fuel + 1) o (',' :: r) = read_properties sqrt scan fuel o1 r7 := by
  unfold read_key at hk
  simp only [except_bind_ok, Prod.exists] at hk
  obtain ⟨i1, h1, k, i2, h2, i3, h3, i4, h4, i5, h5, h6⟩ := hk
  simp only [pure, Except.pure, Except.ok.injEq, Prod.mk.injEq] at h6
  obtain ⟨hk1, hk2⟩ := h6
  subst hk1 hk2
  simp [read_properties, next_c, h1, h2, h3, h4, h5, ha, hw, bind, Except.bind]

/-- Once the property loop is back at the top of its body after `n` properties, the rest of its run is the run from there. -/
theorem PropertiesReach.run_from (sqrt : K → K) (scan : List Char → ScanResult K)
    {n : Nat} {o0 o : ParsedObject K} {inp0 inp : List Char}
    (h : PropertiesReach sqrt scan n o0 inp0 o inp) :
    ∀ k, read_properties sqrt scan (n + k) o0 inp0 = read_properties sqrt scan k o inp := by
  induction h with
  | start o inp => intro k; rw [Nat.zero_add]
  | property hprev hk ha hw ih =>
    intro k
    rw [Nat.add_right_comm, Nat.add_assoc, ih (k + 1),
      read_properties_value_ok sqrt scan k _ _ _ _ _ _ _ hk ha hw]

/-- Each property the loop reads takes at least one character. -/
theorem PropertiesReach.input_le (sqrt : K → K) (scan : List Char → ScanResult K)
    {n : Nat} {o0 o : ParsedObject K} {inp0 inp : List Char}
    (h : PropertiesReach sqrt scan n o0 inp0 o inp) : inp.length + n ≤ inp0.length := by
  induction h with
  | start o inp => simp
  | property hprev hk ha hw ih =>
    have l1 := read_key_length _ _ _ hk
    have l2 := (assign_property_ok sqrt scan _ _ _ _ _ ha).1
    have l3 := skip_ws_length _ _ hw
    simp only [List.length_cons] at *
    omega

/-- The property loop keeps the kind of the object. -/
theorem PropertiesReach.id_eq (sqrt : K → K) (scan : List Char → ScanResult K)
    {n : Nat} {o0 o : ParsedObject K} {inp0 inp : List Char}
    (h : PropertiesReach sqrt scan n o0 inp0 o inp) : o.id = o0.id := by
  induction h with
  | start o inp => rfl
  | property hprev hk ha hw ih =>
    exact (assign_property_ok sqrt scan _ _ _ _ _ ha).2.trans ih

/-- An error in an object the reader gets to is the error of `read_scene`. -/
theorem at_object_error (sqrt : K → K) (scan : List Char → ScanResult K) (inp : List Char)
    (scene : ParsedScene K) (body : List Char) (e : ParseError)
    (hat : AtObject sqrt scan inp scene body)
    (he : read_object sqrt scan scene body = .error e) :
    read_scene sqrt scan inp = .error e := by
  obtain ⟨inp1, n, hstart, hreach⟩ := hat
  have hlen := LoopReaches.length_le sqrt scan hreach
  have hfuel : inp1.length + 1 = n + ((inp1.length - n) + 1) := by
    simp only [List.length_cons] at hlen
    omega
  simp only [read_scene, hstart, bind, Except.bind]
  rw [hfuel, LoopReaches.unfold sqrt scan hreach, read_objects]
  simp [he, bind, Except.bind]

/-- An error in the value of a property the reader gets to is the error of `read_scene`. -/
theorem at_property_error (sqrt : K → K) (scan : List Char → ScanResult K) (inp : List Char)
    (o : ParsedObject K) (key : String) (vinp : List Char) (e : ParseError)
    (hat : AtProperty sqrt scan inp o key vinp)
    (he : assign_property sqrt scan key o vinp = .error e) :
    read_scene sqrt scan inp = .error e := by
  obtain ⟨scene, body, r0, r1, r, value, o0, n, hobj, htype, hcreate, hws, hreach, hkey⟩ := hat
  apply at_object_error sqrt scan inp scene body e hobj
  have hlen := PropertiesReach.input_le sqrt scan hreach
  simp only [List.length_cons] at hlen
  obtain ⟨d, hd⟩ := Nat.exists_eq_add_of_le hlen
  have hfuel : r1.length + 1 = n + ((r.length + 1 + d) + 1) := by omega
  simp only [read_object, htype, hcreate, hws, bind, Except.bind]
  rw [hfuel, PropertiesReach.run_from sqrt scan hreach,
    read_properties_value_error sqrt scan _ o r vinp key e hkey he]

end ReaderRun

/-! ### Properties and kinds of objects -/

section PropertyKinds

variable {K : Type} [LinearOrderedField K]

/-- A property is accepted only on a kind of object the table allows it on. -/
theorem assign_property_allowed (sqrt : K → K) (scan : List Char → ScanResult K)
    (key : String) (o o2 : ParsedObject K) (vinp rest : List Char)
    (h : assign_property sqrt scan key o vinp = .ok (o2, rest)) :
    property_allowed o.id key = true := by
  unfold assign_property at h
  split_ifs at h with k1 k2 k3 k4 k5 k6
  all_goals
    simp only [except_bind_ok, Prod.exists] at h
    obtain ⟨v, r, hn, hm⟩ := h
  all_goals try split_ifs at hm
  all_goals
    cases o <;> simp only [pure, Except.pure, throw, throwThe, MonadExceptOf.throw] at hm <;>
      first
      | exact Except.noConfusion hm
      | simp [property_allowed, ParsedObject.id, *]

/-- A property on a kind of object the table does not allow it on is refused. -/
theorem assign_property_not_allowed (sqrt : K → K) (scan : List Char → ScanResult K)
    (key : String) (o : ParsedObject K) (vinp : List Char)
    (h : property_allowed o.id key = false) :
    ∃ e, assign_property sqrt scan key o vinp = .error e := by
  cases hres : assign_property sqrt scan key o vinp with
  | error e => exact ⟨e, rfl⟩
  | ok res =>
    have := assign_property_allowed sqrt scan key o res.1 vinp res.2 hres
    rw [h] at this
    exact Bool.noConfusion this

/-- A key other than the six known keys is the error of an unknown property. -/
theorem assign_property_unknown (sqrt : K → K) (scan : List Char → ScanResult K)
    (key : String) (o : ParsedObject K) (vinp : List Char)
    (h1 : key ≠ "width") (h2 : key ≠ "height") (h3 : key ≠ "radius") (h4 : key ≠ "color")
    (h5 : key ≠ "position") (h6 : key ≠ "normal") :
    assign_property sqrt scan key o vinp = .error .unknown_property := by
  simp [assign_property, h1, h2, h3, h4, h5, h6, throw, throwThe, MonadExceptOf.throw]

/-- C11: when the reader gets to a property whose key the table does not allow
on the kind of the object (`width` or `height` on a sphere or a plane,
`radius` on a camera or a plane, `normal` on a camera or a sphere, `color` or
`position` on a camera, or a key other than the six known ones), `read_scene`
returns an error and no scene: the property is not ignored. For a key other
than the six known ones the error is that of an unknown property. -/
theorem read_scene_unsupported_property (sqrt : K → K) (scan : List Char → ScanResult K)
    (inp : List Char) (o : ParsedObject K) (key : String) (vinp : List Char)
    (hat : AtProperty sqrt scan inp o key vinp) :
    (property_allowed o.id key = false → ∃ e, read_scene sqrt scan inp = .error e) ∧
    (key ≠ "width" → key ≠ "height" → key ≠ "radius" → key ≠ "color" → key ≠ "position" →
      key ≠ "normal" → read_scene sqrt scan inp = .error .unknown_property) := by
  constructor
  · intro h
    obtain ⟨e, he⟩ := assign_property_not_allowed sqrt scan key o vinp h
    exact ⟨e, at_property_error sqrt scan inp o key vinp e hat he⟩
  · intro h1 h2 h3 h4 h5 h6
    exact at_property_error sqrt scan inp o key vinp _ hat
      (assign_property_unknown sqrt scan key o vinp h1 h2 h3 h4 h5 h6)

/-- A sphere given a `width`, and a sphere given a `colour`. -/
theorem read_scene_unsupported_property_witness :
    (∃ e, read_scene Rat.sqrt scan_decimal
      "[\x7b\"type\": \"sphere\", \"width\": 2\x7d]".toList = .error e) ∧
    read_scene Rat.sqrt scan_decimal
      "[\x7b\"type\": \"sphere\", \"colour\": 2\x7d]".toList = .error .unknown_property :=
  ⟨(read_scene_unsupported_property Rat.sqrt scan_decimal
      "[\x7b\"type\": \"sphere\", \"width\": 2\x7d]".toList (.sphere ⟨none, none, none⟩)
      "width" "2\x7d]".toList
      ⟨⟨none, []⟩, "\"type\": \"sphere\", \"width\": 2\x7d]".toList,
        ", \"width\": 2\x7d]".toList, ", \"width\": 2\x7d]".toList,
        " \"width\": 2\x7d]".toList, "sphere", .sphere ⟨none, none, none⟩, 0,
        ⟨_, 0, by rfl, LoopReaches.start _ _⟩, by rfl, by rfl, by rfl,
        PropertiesReach.start _ _, by rfl⟩).1 (by rfl),
    (read_scene_unsupported_property Rat.sqrt scan_decimal
      "[\x7b\"type\": \"sphere\", \"colour\": 2\x7d]".toList (.sphere ⟨none, none, none⟩)
      "colour" "2\x7d]".toList
      ⟨⟨none, []⟩, "\"type\": \"sphere\", \"colour\": 2\x7d]".toList,
        ", \"colour\": 2\x7d]".toList, ", \"colour\": 2\x7d]".toList,
        " \"colour\": 2\x7d]".toList, "sphere", .sphere ⟨none, none, none⟩, 0,
        ⟨_, 0, by rfl, LoopReaches.start _ _⟩, by rfl, by rfl, by rfl,
        PropertiesReach.start _ _, by rfl⟩).2
      (by decide) (by decide) (by decide) (by decide) (by decide) (by decide)⟩

end PropertyKinds

/-! ### Positive fields -/

section PositiveFields

variable {K : Type} [LinearOrderedField K]

open Dbl

/-- A value strictly above zero is not below or equal to zero. -/
theorem Dbl.le_zero_of_gt (v : Dbl K) (h : Dbl.gt v (fin 0) = true) : Dbl.le v (fin 0) = false := by
  cases v <;> simp_all [Dbl.gt, Dbl.lt, Dbl.le]

/-- C12: let `v` be the number read at the value of a property. When
`v <= 0`, a `width` or a `height` on a camera and a `radius` on a sphere make
`read_scene` return the error of an invalid width, height or radius. When
`v > 0` the field is accepted and the camera or the sphere holds exactly `v`
in its width, height or radius. -/
theorem read_scene_positive_fields (sqrt : K → K) (scan : List Char → ScanResult K)
    (vinp : List Char) (v : Dbl K) (n : Nat) (hscan : scan vinp = .value v n)
    (c : CameraFields K) (s : SphereFields K) :
    (Dbl.le v (fin 0) = true →
      (∀ inp, AtProperty sqrt scan inp (.camera c) "width" vinp →
        read_scene sqrt scan inp = .error .invalid_width) ∧
      (∀ inp, AtProperty sqrt scan inp (.camera c) "height" vinp →
        read_scene sqrt scan inp = .error .invalid_height) ∧
      (∀ inp, AtProperty sqrt scan inp (.sphere s) "radius" vinp →
        read_scene sqrt scan inp = .error .invalid_radius)) ∧
    (Dbl.gt v (fin 0) = true →
      assign_property sqrt scan "width" (.camera c) vinp =
        .ok (.camera ⟨some v, c.height⟩, vinp.drop n) ∧
      assign_property sqrt scan "height" (.camera c) vinp =
        .ok (.camera ⟨c.width, some v⟩, vinp.drop n) ∧
      assign_property sqrt scan "radius" (.sphere s) vinp =
        .ok (.sphere ⟨s.pos, some v, s.color⟩, vinp.drop n)) := by
  constructor
  · intro hle
    refine ⟨fun inp hat => ?_, fun inp hat => ?_, fun inp hat => ?_⟩
    · apply at_property_error sqrt scan inp _ _ vinp _ hat
      simp [assign_property, next_number, hscan, hle, bind, Except.bind, throw, throwThe,
        MonadExceptOf.throw]
    · apply at_property_error sqrt scan inp _ _ vinp _ hat
      simp [assign_property, next_number, hscan, hle, bind, Except.bind, throw, throwThe,
        MonadExceptOf.throw]
    · apply at_property_error sqrt scan inp _ _ vinp _ hat
      simp [assign_property, next_number, hscan, hle, bind, Except.bind, throw, throwThe,
        MonadExceptOf.throw]
  · intro hgt
    have hle := Dbl.le_zero_of_gt v hgt
    refine ⟨?_, ?_, ?_⟩ <;>
      simp [assign_property, next_number, hscan, hle, bind, Except.bind, pure, Except.pure]

/-- A camera of width 0 is refused; the width 2 is stored. -/
theorem read_scene_positive_fields_witness :
    read_scene Rat.sqrt scan_decimal
      "[\x7b\"type\": \"camera\", \"width\": 0\x7d]".toList = .error .invalid_width ∧
    assign_property Rat.sqrt scan_decimal "width" (.camera ⟨none, none⟩) "2\x7d]".toList =
      .ok (.camera ⟨some (fin 2), none⟩, "\x7d]".toList) :=
  ⟨((read_scene_positive_fields Rat.sqrt scan_decimal "0\x7d]".toList (fin 0) 1 (by rfl)
      ⟨none, none⟩ ⟨none, none, none⟩).1 (by rfl)).1
      "[\x7b\"type\": \"camera\", \"width\": 0\x7d]".toList
      ⟨⟨none, []⟩, "\"type\": \"camera\", \"width\": 0\x7d]".toList,
        ", \"width\": 0\x7d]".toList, ", \"width\": 0\x7d]".toList,
        " \"width\": 0\x7d]".toList, "camera", .camera ⟨none, none⟩, 0,
        ⟨_, 0, by rfl, LoopReaches.start _ _⟩, by rfl, by rfl, by rfl,
        PropertiesReach.start _ _, by rfl⟩,
    ((read_scene_positive_fields Rat.sqrt scan_decimal "2\x7d]".toList (fin 2) 1 (by rfl)
      ⟨none, none⟩ ⟨none, none, none⟩).2 (by rfl)).1⟩

end PositiveFields

/-! ### Colours -/

section Colours

variable {K : Type} [LinearOrderedField K]

open Dbl

/-- For a value other than `NaN`, the test `x < 0 || x > 1` of the reader is the negation of `0 <= x <= 1`. -/
theorem Dbl.out_of_unit_interval (x : Dbl K) (h : x ≠ nan) :
    (Dbl.lt x (fin 0) || Dbl.gt x (fin 1)) = !in_unit_interval x := by
  cases x with
  | fin a =>
    simp only [Dbl.lt_fin, Dbl.gt_fin, in_unit_interval, Dbl.le]
    by_cases h0 : a < 0
    · have h1 : ¬ (1 : K) < a := by linarith
      simp [h0, h1, not_le.mpr h0]
    · by_cases h1 : (1 : K) < a
      · simp [h0, h1, not_le.mpr h1]
      · simp [h0, h1, not_lt.mp h0, not_lt.mp h1]
  | pinf => rfl
  | ninf => rfl
  | nan => exact absurd rfl h

/-- C13: let `v` be the vector read at the value of a `color` property, its
components numbers (none of them `NaN`). When `0 <= c <= 1` for each of the
three components, the colour is accepted on a sphere and on a plane and the
object holds the three components. When a component is below 0 or above 1
the colour is refused, and `read_scene` returns the error of an invalid
colour. -/
theorem read_scene_color_range (sqrt : K → K) (scan : List Char → ScanResult K)
    (vinp rest : List Char) (v : Vec3 K) (hvec : next_vector scan vinp = .ok (v, rest))
    (hnan : v.v0 ≠ nan ∧ v.v1 ≠ nan ∧ v.v2 ≠ nan)
    (s : SphereFields K) (p : PlaneFields K) :
    ((in_unit_interval v.v0 && in_unit_interval v.v1 && in_unit_interval v.v2) = true →
      assign_property sqrt scan "color" (.sphere s) vinp =
        .ok (.sphere ⟨s.pos, s.radius, some v⟩, rest) ∧
      assign_property sqrt scan "color" (.plane p) vinp =
        .ok (.plane ⟨p.pos, p.normal, some v⟩, rest)) ∧
    ((in_unit_interval v.v0 && in_unit_interval v.v1 && in_unit_interval v.v2) = false →
      assign_property sqrt scan "color" (.sphere s) vinp = .error .invalid_color ∧
      assign_property sqrt scan "color" (.plane p) vinp = .error .invalid_color ∧
      ∀ (inp : List Char) (o : ParsedObject K), AtProperty sqrt scan inp o "color" vinp →
        read_scene sqrt scan inp = .error .invalid_color) := by
  have hcond : (Dbl.lt v.v0 (fin 0) || Dbl.gt v.v0 (fin 1) || Dbl.lt v.v1 (fin 0) ||
      Dbl.gt v.v1 (fin 1) || Dbl.lt v.v2 (fin 0) || Dbl.gt v.v2 (fin 1)) =
      !(in_unit_interval v.v0 && in_unit_interval v.v1 && in_unit_interval v.v2) := by
    have u0 : in_unit_interval v.v0 = !(Dbl.lt v.v0 (fin 0) || Dbl.gt v.v0 (fin 1)) := by
      rw [Dbl.out_of_unit_interval v.v0 hnan.1, Bool.not_not]
    have u1 : in_unit_interval v.v1 = !(Dbl.lt v.v1 (fin 0) || Dbl.gt v.v1 (fin 1)) := by
      rw [Dbl.out_of_unit_interval v.v1 hnan.2.1, Bool.not_not]
    have u2 : in_unit_interval v.v2 = !(Dbl.lt v.v2 (fin 0) || Dbl.gt v.v2 (fin 1)) := by
      rw [Dbl.out_of_unit_interval v.v2 hnan.2.2, Bool.not_not]
    rw [u0, u1, u2]
    generalize Dbl.lt v.v0 (fin 0) = a0
    generalize Dbl.gt v.v0 (fin 1) = b0
    generalize Dbl.lt v.v1 (fin 0) = a1
    generalize Dbl.gt v.v1 (fin 1) = b1
    generalize Dbl.lt v.v2 (fin 0) = a2
    generalize Dbl.gt v.v2 (fin 1) = b2
    cases a0 <;> cases b0 <;> cases a1 <;> cases b1 <;> cases a2 <;> cases b2 <;> rfl
  constructor
  · intro hin
    rw [hin] at hcond
    constructor <;>
      simp [assign_property, hvec, hcond, bind, Except.bind, pure, Except.pure]
  · intro hout
    rw [hout] at hcond
    have herr : ∀ o : ParsedObject K,
        assign_property sqrt scan "color" o vinp = .error .invalid_color := by
      intro o
      simp [assign_property, hvec, hcond, bind, Except.bind, throw, throwThe,
        MonadExceptOf.throw]
    exact ⟨herr _, herr _, fun inp o hat => at_property_error sqrt scan inp o _ vinp _ hat (herr o)⟩

/-- The colour `[1, 0, 0.5]` is stored; the colour `[1.5, 0, 0]` is refused. -/
theorem read_scene_color_range_witness :
    assign_property Rat.sqrt scan_decimal "color" (.sphere ⟨none, none, none⟩)
        "[1, 0, 0.5]\x7d]".toList =
      .ok (.sphere ⟨none, none, some ⟨fin 1, fin 0, fin (mkRat 1 2)⟩⟩, "\x7d]".toList) ∧
    read_scene Rat.sqrt scan_decimal
      "[\x7b\"type\": \"sphere\", \"color\": [1.5, 0, 0]\x7d]".toList = .error .invalid_color :=
  ⟨((read_scene_color_range Rat.sqrt scan_decimal "[1, 0, 0.5]\x7d]".toList "\x7d]".toList
      ⟨fin 1, fin 0, fin (mkRat 1 2)⟩ (by rfl)
      ⟨fun h => Dbl.noConfusion h, fun h => Dbl.noConfusion h, fun h => Dbl.noConfusion h⟩
      ⟨none, none, none⟩ ⟨none, none, none⟩).1 (by rfl)).1,
    ((read_scene_color_range Rat.sqrt scan_decimal "[1.5, 0, 0]\x7d]".toList "\x7d]".toList
      ⟨fin (mkRat 3 2), fin 0, fin 0⟩ (by rfl)
      ⟨fun h => Dbl.noConfusion h, fun h => Dbl.noConfusion h, fun h => Dbl.noConfusion h⟩
      ⟨none, none, none⟩ ⟨none, none, none⟩).2 (by rfl)).2.2
      "[\x7b\"type\": \"sphere\", \"color\": [1.5, 0, 0]\x7d]".toList
      (.sphere ⟨none, none, none⟩)
      ⟨⟨none, []⟩, "\"type\": \"sphere\", \"color\": [1.5, 0, 0]\x7d]".toList,
        ", \"color\": [1.5, 0, 0]\x7d]".toList, ", \"color\": [1.5, 0, 0]\x7d]".toList,
        " \"color\": [1.5, 0, 0]\x7d]".toList, "sphere", .sphere ⟨none, none, none⟩, 0,
        ⟨_, 0, by rfl, LoopReaches.start _ _⟩, by rfl, by rfl, by rfl,
        PropertiesReach.start _ _, by rfl⟩⟩

end Colours

/-! ### The type of an object -/

section ObjectType

variable {K : Type} [LinearOrderedField K]

/-- An object read has a head with a type, one of the three known types. -/
theorem read_object_type (sqrt : K → K) (scan : List Char → ScanResult K)
    (scene scene1 : ParsedScene K) (body r1 : List Char)
    (h : read_object sqrt scan scene body = .ok (scene1, r1)) :
    ∃ (value : String) (r : List Char), read_type body = .ok (value, r) ∧
      (value = "camera" ∨ value = "sphere" ∨ value = "plane") := by
  unfold read_object at h
  simp only [except_bind_ok, Prod.exists] at h
  obtain ⟨value, i1, h1, o, h2, _⟩ := h
  refine ⟨value, i1, h1, ?_⟩
  unfold create_object at h2
  split_ifs at h2 with c1 c2 c3 c4 c5
  · exact Or.inl c1
  · exact Or.inr (Or.inl c3)
  · exact Or.inr (Or.inr c5)

/-- The head of an object fails on a first key other than `"type"`, and succeeds only on the key `"type"`. -/
theorem read_type_first_key (body b1 b2 r : List Char) (key value : String)
    (hws : skip_ws body = .ok b1) (hkey : next_string b1 = .ok (key, b2)) :
    (key ≠ "type" → read_type body = .error .expected_type_key) ∧
    (read_type body = .ok (value, r) → key = "type") := by
  constructor
  · intro hne
    simp [read_type, hws, hkey, hne, bind, Except.bind, throw, throwThe, MonadExceptOf.throw]
  · intro h
    by_contra hne
    simp [read_type, hws, hkey, hne, bind, Except.bind, throw, throwThe,
      MonadExceptOf.throw] at h

/-- C14: when the reader gets to an object, (1) a first key other than
`"type"` makes the head of the object fail, before `create_object` is
reached (no camera and no shape is allocated, the object list is as it was),
and `read_scene` returns the error of the missing `"type"` key; (2) a type
other than `"camera"`, `"sphere"`, `"plane"` makes `read_scene` return the
error of an unknown type; (3) an object is read only when its first key is
`"type"` and its type is one of the three; (4) an object that is not read
makes `read_scene` return its error. -/
theorem read_scene_object_type (sqrt : K → K) (scan : List Char → ScanResult K)
    (inp : List Char) (scene : ParsedScene K) (body : List Char)
    (hat : AtObject sqrt scan inp scene body) :
    (∀ (b1 b2 : List Char) (key : String), skip_ws body = .ok b1 →
      next_string b1 = .ok (key, b2) → key ≠ "type" →
        read_type body = .error .expected_type_key ∧
        read_scene sqrt scan inp = .error .expected_type_key) ∧
    (∀ (value : String) (r : List Char), read_type body = .ok (value, r) →
      value ≠ "camera" → value ≠ "sphere" → value ≠ "plane" →
        read_scene sqrt scan inp = .error .unknown_type) ∧
    (∀ (scene1 : ParsedScene K) (r1 : List Char),
      read_object sqrt scan scene body = .ok (scene1, r1) →
      ∃ (b1 b2 r : List Char) (value : String), skip_ws body = .ok b1 ∧
        next_string b1 = .ok ("type", b2) ∧ read_type body = .ok (value, r) ∧
        (value = "camera" ∨ value = "sphere" ∨ value = "plane")) ∧
    (∀ e : ParseError, read_object sqrt scan scene body = .error e →
      read_scene sqrt scan inp = .error e) := by
  refine ⟨?_, ?_, ?_, fun e he => at_object_error sqrt scan inp scene body e hat he⟩
  · intro b1 b2 key hws hkey hne
    have ht := (read_type_first_key body b1 b2 [] key "" hws hkey).1 hne
    refine ⟨ht, at_object_error sqrt scan inp scene body _ hat ?_⟩
    simp [read_object, ht, bind, Except.bind]
  · intro value r ht h1 h2 h3
    apply at_object_error sqrt scan inp scene body _ hat
    simp [read_object, ht, create_object, h1, h2, h3, bind, Except.bind]
  · intro scene1 r1 hok
    obtain ⟨value, r, ht, hv⟩ := read_object_type sqrt scan scene scene1 body r1 hok
    have ht2 := ht
    unfold read_type at ht2
    simp only [except_bind_ok, Prod.exists] at ht2
    obtain ⟨b1, hws, key, b2, hkey, _⟩ := ht2
    have hk := (read_type_first_key body b1 b2 r key value hws hkey).2 ht
    subst hk
    exact ⟨b1, b2, r, value, hws, hkey, ht, hv⟩

/-- An object whose first key is `"kind"`. -/
theorem read_scene_object_type_witness :
    read_scene Rat.sqrt scan_decimal "[\x7b\"kind\": \"sphere\"\x7d]".toList =
      .error .expected_type_key :=
  ((read_scene_object_type Rat.sqrt scan_decimal "[\x7b\"kind\": \"sphere\"\x7d]".toList
      ⟨none, []⟩ "\"kind\": \"sphere\"\x7d]".toList
      ⟨_, 0, by rfl, LoopReaches.start _ _⟩).1
      "\"kind\": \"sphere\"\x7d]".toList ": \"sphere\"\x7d]".toList "kind"
      (by rfl) (by rfl) (by decide)).2

end ObjectType

/-! ### Strings -/

section Strings

/-- The loop of `next_string` on characters followed by a closing quote, entered
at index `i`: it succeeds exactly when the characters fit in the 128 slots
left and are all characters of a string. -/
theorem next_string_loop_spec : ∀ (s rest : List Char) (i : Nat) (buffer : List Char),
    '"' ∉ s → i ≤ 128 →
    ((i + s.length ≤ 128 ∧ ∀ c ∈ s, string_char c) →
      next_string_loop (s ++ '"' :: rest) i buffer = .ok (String.mk (buffer ++ s), rest)) ∧
    (¬ (i + s.length ≤ 128 ∧ ∀ c ∈ s, string_char c) →
      next_string_loop (s ++ '"' :: rest) i buffer = .error .string_too_long ∨
      next_string_loop (s ++ '"' :: rest) i buffer = .error .escape_code ∨
      next_string_loop (s ++ '"' :: rest) i buffer = .error .non_ascii)
  | [], rest, i, buffer, _, hi => by
    constructor
    · intro _
      simp [next_string_loop]
    · intro h
      exact absurd ⟨by simpa using hi, fun c hc => absurd hc (List.not_mem_nil c)⟩ h
  | c :: s, rest, i, buffer, hq, hi => by
    have hc : c ≠ '"' := fun h => hq (by rw [h]; exact List.mem_cons_self _ _)
    have hq2 : '"' ∉ s := fun h => hq (List.mem_cons_of_mem _ h)
    rw [List.cons_append, next_string_loop, if_neg hc]
    by_cases h128 : i ≥ 128
    · rw [if_pos h128]
      constructor
      · intro h
        simp only [List.length_cons] at h
        omega
      · intro _
        exact Or.inl rfl
    · rw [if_neg h128]
      by_cases hb : c = '\\'
      · rw [if_pos hb]
        constructor
        · intro h
          exact absurd hb (h.2 c (List.mem_cons_self _ _)).2.2
        · intro _
          exact Or.inr (Or.inl rfl)
      · rw [if_neg hb]
        by_cases hr : (decide (c.toNat < 32) || decide (c.toNat > 126)) = true
        · rw [if_pos hr]
          constructor
          · intro h
            have := h.2 c (List.mem_cons_self _ _)
            simp only [Bool.or_eq_true, decide_eq_true_eq] at hr
            unfold string_char at this
            omega
          · intro _
            exact Or.inr (Or.inr rfl)
        · rw [if_neg hr]
          simp only [Bool.or_eq_true, decide_eq_true_eq, not_or, not_lt] at hr
          have ih := next_string_loop_spec s rest (i + 1) (buffer ++ [c]) hq2 (by omega)
          have hcs : string_char c := ⟨hr.1, by omega, hb⟩
          constructor
          · intro h
            rw [ih.1 ⟨by simp only [List.length_cons] at h; omega,
              fun d hd => h.2 d (List.mem_cons_of_mem _ hd)⟩]
            simp
          · intro h
            apply ih.2
            intro h2
            apply h
            refine ⟨by simp only [List.length_cons]; omega, ?_⟩
            intro d hd
            rcases List.mem_cons.mp hd with hd | hd
            · rw [hd]; exact hcs
            · exact h2.2 d hd

/-- C15: on an input that starts with a double quote, followed by the
characters `s` (none of them a double quote) and a closing double quote,
`next_string` succeeds exactly when `s` has at most 128 characters, each with
a code in 32..126 and none a backslash; it then returns exactly `s`, and
otherwise it stops with the error of a string too long, of an escape code or
of a character that is not printable ASCII. -/
theorem next_string_accepts (s rest : List Char) (hq : '"' ∉ s) :
    ((s.length ≤ 128 ∧ ∀ c ∈ s, string_char c) →
      next_string ('"' :: (s ++ '"' :: rest)) = .ok (String.mk s, rest)) ∧
    (¬ (s.length ≤ 128 ∧ ∀ c ∈ s, string_char c) →
      next_string ('"' :: (s ++ '"' :: rest)) = .error .string_too_long ∨
      next_string ('"' :: (s ++ '"' :: rest)) = .error .escape_code ∨
      next_string ('"' :: (s ++ '"' :: rest)) = .error .non_ascii) := by
  have h := next_string_loop_spec s rest 0 [] hq (Nat.zero_le _)
  simp only [Nat.zero_add, List.nil_append] at h
  have hunf : next_string ('"' :: (s ++ '"' :: rest)) = next_string_loop (s ++ '"' :: rest) 0 [] := by
    simp [next_string, next_c]
  rw [hunf]
  exact h

/-- A string of 128 characters is accepted, a string of 129 characters is too
long, and a backslash is refused. -/
theorem next_string_accepts_witness :
    next_string ('"' :: (List.replicate 128 'a' ++ '"' :: [])) =
      .ok (String.mk (List.replicate 128 'a'), []) ∧
    (next_string ('"' :: (List.replicate 129 'a' ++ '"' :: [])) = .error .string_too_long ∨
      next_string ('"' :: (List.replicate 129 'a' ++ '"' :: [])) = .error .escape_code ∨
      next_string ('"' :: (List.replicate 129 'a' ++ '"' :: [])) = .error .non_ascii) ∧
    (next_string ('"' :: (['a', '\\'] ++ '"' :: [])) = .error .string_too_long ∨
      next_string ('"' :: (['a', '\\'] ++ '"' :: [])) = .error .escape_code ∨
      next_string ('"' :: (['a', '\\'] ++ '"' :: [])) = .error .non_ascii) := by
  have hchar : ∀ (n : Nat) (c : Char), c ∈ List.replicate n 'a' → string_char c := by
    intro n c hc
    rw [List.eq_of_mem_replicate hc]
    unfold string_char
    decide
  have hq : ∀ n : Nat, '"' ∉ List.replicate n 'a' := by
    intro n h
    have := List.eq_of_mem_replicate h
    exact absurd this (by decide)
  refine ⟨(next_string_accepts (List.replicate 128 'a') [] (hq 128)).1
      ⟨by simp, hchar 128⟩,
    (next_string_accepts (List.replicate 129 'a') [] (hq 129)).2 (fun h => ?_),
    (next_string_accepts ['a', '\\'] [] (by decide)).2 (fun h => ?_)⟩
  · have := h.1
    simp at this
  · have := (h.2 '\\' (by simp)).2.2
    exact this rfl

end Strings

/-! ### The object list -/

section ObjectListBasics

variable {K : Type}

/-- Storing an object appends it to the object list, unless it is a camera. -/
theorem store_object_list (scene : ParsedScene K) (o : ParsedObject K) :
    (store_object scene o).objects = scene.objects ++ [o].filter (fun x => x.id != 1) := by
  cases o <;> simp [store_object, ParsedObject.id]

/-- The list is closed only when its terminator fits in the 128 slots. -/
theorem close_scene_length (scene scene1 : ParsedScene K) (h : close_scene scene = .ok scene1) :
    scene1.objects.length < 128 := by
  unfold close_scene at h
  split_ifs at h with hl
  simp only [Except.ok.injEq] at h
  rw [← h]
  omega

end ObjectListBasics

section ObjectList

variable {K : Type} [LinearOrderedField K]

/-- The scene after an object is the scene before it with the object built stored in it. -/
theorem read_object_record (sqrt : K → K) (scan : List Char → ScanResult K)
    (scene scene1 : ParsedScene K) (body r1 : List Char)
    (h : read_object sqrt scan scene body = .ok (scene1, r1)) :
    ∃ o, object_record sqrt scan scene body = .ok (o, r1) ∧ scene1 = store_object scene o := by
  unfold read_object at h
  simp only [except_bind_ok, Prod.exists] at h
  obtain ⟨value, i1, h1, o, h2, i2, h3, o2, i3, h4, h5⟩ := h
  simp only [pure, Except.pure, Except.ok.injEq, Prod.mk.injEq] at h5
  refine ⟨o2, ?_, h5.1.symm⟩
  rw [← h5.2]
  simp [object_record, h1, h2, h3, h4, bind, Except.bind]

/-- A run of the object loop that returns a scene has read a sequence of objects, and the object list is the list it started with followed by the spheres and planes among them, in order. -/
theorem read_objects_reads (sqrt : K → K) (scan : List Char → ScanResult K) :
    ∀ (fuel : Nat) (scene0 scene : ParsedScene K) (inp0 : List Char),
      read_objects sqrt scan fuel scene0 inp0 = .ok scene →
      ∃ os : List (ParsedObject K), ReadsObjects sqrt scan scene0 inp0 os ∧
        scene.objects = scene0.objects ++ os.filter (fun x => x.id != 1) ∧
        scene.objects.length < 128
  | 0, scene0, scene, inp0, h => by simp [read_objects] at h
  | fuel + 1, scene0, scene, [], h => by simp [read_objects] at h
  | fuel + 1, scene0, scene, c :: inp, h => by
    rw [read_objects] at h
    split_ifs at h with c1 c2
    · subst c1
      refine ⟨[], ReadsObjects.close _ _, ?_, close_scene_length _ _ h⟩
      rw [close_scene_ok _ _ h]
      simp
    · subst c2
      simp only [except_bind_ok, Prod.exists] at h
      obtain ⟨scene1, r1, hobj, r2, hws, c3, r3, hc, h⟩ := h
      rw [next_c_ok] at hc
      subst hc
      obtain ⟨o, hrec, hstore⟩ := read_object_record sqrt scan _ _ _ _ hobj
      split_ifs at h with c4 c5
      · subst c4
        simp only [except_bind_ok] at h
        obtain ⟨r4, hws2, h⟩ := h
        obtain ⟨os, hreads, hlist, hlen⟩ := read_objects_reads sqrt scan fuel _ _ _ h
        subst hstore
        refine ⟨o :: os, ReadsObjects.more hrec hws hws2 hreads, ?_, hlen⟩
        rw [hlist, store_object_list, List.append_assoc, ← List.filter_append]
        rfl
      · subst c5
        refine ⟨[o], ReadsObjects.last hrec hws, ?_, close_scene_length _ _ h⟩
        rw [close_scene_ok _ _ h, hstore, store_object_list]

/-- C16: when `read_scene` accepts a scene description and returns a scene,
the object loop has read a sequence `os` of objects, one for each `{ ... }` of
the input in the order of the input, and the object list of the scene is
exactly the spheres and planes of `os`, in that order, each with the kind and
the fields it has in `os`; no camera is in the list, and the list ends right
after its last shape, within the 128 slots. -/
theorem read_scene_object_list (sqrt : K → K) (scan : List Char → ScanResult K)
    (inp : List Char) (scene : ParsedScene K) (h : read_scene sqrt scan inp = .ok scene) :
    ∃ (inp1 : List Char) (os : List (ParsedObject K)), list_start inp = .ok inp1 ∧
      ReadsObjects sqrt scan ⟨none, []⟩ inp1 os ∧
      scene.objects = os.filter (fun o => o.id != 1) ∧
      (∀ o ∈ scene.objects, o.id ≠ 1) ∧
      scene.objects.length < 128 := by
  simp only [read_scene, except_bind_ok] at h
  obtain ⟨inp1, hstart, h⟩ := h
  have hno := read_objects_objects sqrt scan _ _ _ _ h
    (fun x hx => absurd hx (List.not_mem_nil x))
  obtain ⟨os, hreads, hlist, hlen⟩ := read_objects_reads sqrt scan _ _ _ _ h
  exact ⟨inp1, os, hstart, hreads, by simpa using hlist, hno, hlen⟩

/-- A sphere, a camera and a plane: the list holds the sphere and the plane. -/
theorem read_scene_object_list_witness :
    ∃ (inp1 : List Char) (os : List (ParsedObject ℚ)),
      list_start "[\x7b\"type\": \"sphere\", \"radius\": 2\x7d, \x7b\"type\": \"camera\"\x7d, \x7b\"type\": \"plane\"\x7d]".toList
        = .ok inp1 ∧
      ReadsObjects Rat.sqrt scan_decimal ⟨none, []⟩ inp1 os ∧
      [ParsedObject.sphere ⟨none, some (Dbl.fin 2), none⟩, ParsedObject.plane ⟨none, none, none⟩] =
        os.filter (fun o => o.id != 1) ∧
      (∀ o ∈ [ParsedObject.sphere ⟨none, some (Dbl.fin (2 : ℚ)), none⟩,
        ParsedObject.plane ⟨none, none, none⟩], o.id ≠ 1) ∧
      [ParsedObject.sphere ⟨none, some (Dbl.fin (2 : ℚ)), none⟩,
        ParsedObject.plane ⟨none, none, none⟩].length < 128 :=
  read_scene_object_list Rat.sqrt scan_decimal
    "[\x7b\"type\": \"sphere\", \"radius\": 2\x7d, \x7b\"type\": \"camera\"\x7d, \x7b\"type\": \"plane\"\x7d]".toList
    ⟨some ⟨none, none⟩,
      [.sphere ⟨none, some (Dbl.fin 2), none⟩, .plane ⟨none, none, none⟩]⟩ (by rfl)

end ObjectList

/-! ### Normals -/

section Normals

variable {K : Type} [LinearOrderedField K]

open Dbl

/-- The zero vector has length 0, and `0 / 0` is `NaN`: `normalize` turns it into three `NaN`. -/
theorem normalize_zero :
    normalize Rat.sqrt (⟨fin 0, fin 0, fin 0⟩ : Vec3 ℚ) = ⟨nan, nan, nan⟩ := by
  have h0 : Rat.sqrt 0 = 0 := by
    have h := Rat.sqrt_eq 0
    rw [mul_zero, abs_zero] at h
    exact h
  have hsum : (0 : ℚ) * 0 + 0 * 0 + 0 * 0 = 0 := by norm_num
  simp only [normalize, Dbl.sqr_fin, Dbl.fin_add, hsum, Dbl.sqrt_fin Rat.sqrt 0 (lt_irrefl 0), h0,
    Dbl.fin_div, if_pos, lt_irrefl, if_false]

/-- The normal `[0, 0, 0]` is accepted on a plane, and the plane holds three `NaN`, not a vector of unit length. -/
theorem zero_normal_stored :
    assign_property Rat.sqrt scan_decimal "normal" (.plane ⟨none, none, none⟩)
        "[0, 0, 0]\x7d]".toList =
      .ok (.plane ⟨none, some ⟨nan, nan, nan⟩, none⟩, "\x7d]".toList) ∧
    ¬ unit_length (⟨nan, nan, nan⟩ : Vec3 ℚ) := by
  have hv : next_vector scan_decimal "[0, 0, 0]\x7d]".toList =
      .ok ((⟨fin 0, fin 0, fin 0⟩ : Vec3 ℚ), "\x7d]".toList) := by rfl
  constructor
  · simp only [assign_property, hv, bind, Except.bind, pure, Except.pure, normalize_zero]
    rfl
  · intro h
    exact Dbl.noConfusion h

/-- C17, as stated, fails: `read_scene` accepts a plane whose normal is
assigned from `[0, 0, 0]`, and the normal stored is `(NaN, NaN, NaN)`, which is
not of unit length. -/
theorem read_scene_zero_normal :
    read_scene Rat.sqrt scan_decimal
        "[\x7b\"type\": \"plane\", \"normal\": [0, 0, 0]\x7d]".toList =
      .ok ⟨none, [.plane ⟨none, some ⟨nan, nan, nan⟩, none⟩]⟩ ∧
    ¬ unit_length (⟨nan, nan, nan⟩ : Vec3 ℚ) := by
  refine ⟨?_, zero_normal_stored.2⟩
  have hstart : list_start "[\x7b\"type\": \"plane\", \"normal\": [0, 0, 0]\x7d]".toList =
      .ok ('{' :: "\"type\": \"plane\", \"normal\": [0, 0, 0]\x7d]".toList) := by rfl
  have htype : read_type "\"type\": \"plane\", \"normal\": [0, 0, 0]\x7d]".toList =
      .ok ("plane", ',' :: " \"normal\": [0, 0, 0]\x7d]".toList) := by rfl
  have hkey : read_key " \"normal\": [0, 0, 0]\x7d]".toList =
      .ok ("normal", "[0, 0, 0]\x7d]".toList) := by rfl
  have hprops : read_properties Rat.sqrt scan_decimal
      ((',' :: " \"normal\": [0, 0, 0]\x7d]".toList).length + 1) (.plane ⟨none, none, none⟩)
      (',' :: " \"normal\": [0, 0, 0]\x7d]".toList) =
      .ok (.plane ⟨none, some ⟨nan, nan, nan⟩, none⟩, "]".toList) := by
    rw [read_properties_value_ok Rat.sqrt scan_decimal _ _ _ _ _ _ "\x7d]".toList _ hkey
      zero_normal_stored.1 (by rfl)]
    exact read_properties_close Rat.sqrt scan_decimal _ _ _
  have hobj : read_object Rat.sqrt scan_decimal ⟨none, []⟩
      "\"type\": \"plane\", \"normal\": [0, 0, 0]\x7d]".toList =
      .ok (⟨none, [.plane ⟨none, some ⟨nan, nan, nan⟩, none⟩]⟩, "]".toList) := by
    simp only [read_object, htype, bind, Except.bind]
    rw [show create_object (⟨none, []⟩ : ParsedScene ℚ) "plane" =
      .ok (.plane ⟨none, none, none⟩) from rfl]
    simp only [show skip_ws (',' :: " \"normal\": [0, 0, 0]\x7d]".toList) =
      .ok (',' :: " \"normal\": [0, 0, 0]\x7d]".toList) from rfl, hprops]
    rfl
  simp only [read_scene, hstart, bind, Except.bind]
  rw [read_objects]
  simp only [hobj, bind, Except.bind]
  rfl

/-- A non-zero finite vector whose squared length has an exact square root is turned by `normalize` into a finite vector of unit length. -/
theorem normalize_fin (sqrt : K → K) (n : R3 K) (hn : n ≠ ⟨0, 0, 0⟩)
    (hs : sqrt n.normSq * sqrt n.normSq = n.normSq) :
    normalize sqrt n.toVec =
      ⟨fin (n.x / sqrt n.normSq), fin (n.y / sqrt n.normSq), fin (n.z / sqrt n.normSq)⟩ ∧
    unit_length (normalize sqrt n.toVec) := by
  have hpos := R3.normSq_pos n hn
  have hl : sqrt n.normSq ≠ 0 := by
    intro h0
    rw [h0, mul_zero] at hs
    exact absurd hs.symm (ne_of_gt hpos)
  have hnorm : normalize sqrt n.toVec =
      ⟨fin (n.x / sqrt n.normSq), fin (n.y / sqrt n.normSq), fin (n.z / sqrt n.normSq)⟩ := by
    rcases n with ⟨x, y, z⟩
    simp only [R3.normSq, R3.dot] at hpos hl ⊢
    simp only [normalize, R3.toVec, Dbl.sqr_fin, Dbl.fin_add,
      Dbl.sqrt_fin sqrt _ (not_lt.mpr hpos.le), Dbl.fin_div_of_ne _ _ hl]
  refine ⟨hnorm, ?_⟩
  rw [hnorm]
  rcases n with ⟨x, y, z⟩
  simp only [R3.normSq, R3.dot] at hs hl hpos ⊢
  simp only [unit_length, Dbl.sqr_fin, Dbl.fin_add]
  congr 1
  generalize sqrt (x * x + y * y + z * z) = l at hs hl
  have hsum : x / l * (x / l) + y / l * (y / l) + z / l * (z / l) =
      (x * x + y * y + z * z) / (l * l) := by
    field_simp
  rw [hsum, hs, div_self (ne_of_gt hpos)]

/-- C17, amended: when the vector read at the value of a `normal` property is
finite, the plane holds the vector `normalize` makes of it; for a non-zero
vector (the square root exact at its squared length) the normal stored has
unit length, `n0² + n1² + n2² = 1`; for the zero vector (with `sqrt 0 = 0`)
the normal stored is `(NaN, NaN, NaN)`. -/
theorem stored_normal (sqrt : K → K) (scan : List Char → ScanResult K) (vinp rest : List Char)
    (n : R3 K) (hvec : next_vector scan vinp = .ok (n.toVec, rest)) (p : PlaneFields K) :
    assign_property sqrt scan "normal" (.plane p) vinp =
      .ok (.plane ⟨p.pos, some (normalize sqrt n.toVec), p.color⟩, rest) ∧
    (n ≠ ⟨0, 0, 0⟩ → sqrt n.normSq * sqrt n.normSq = n.normSq →
      unit_length (normalize sqrt n.toVec)) ∧
    (n = ⟨0, 0, 0⟩ → sqrt 0 = 0 → normalize sqrt n.toVec = ⟨nan, nan, nan⟩) := by
  refine ⟨?_, fun hn hs => (normalize_fin sqrt n hn hs).2, ?_⟩
  · simp [assign_property, hvec, bind, Except.bind, pure, Except.pure]
  · intro hn h0
    subst hn
    have hsum : (0 : K) * 0 + 0 * 0 + 0 * 0 = 0 := by ring
    simp only [normalize, R3.toVec, Dbl.sqr_fin, Dbl.fin_add, hsum,
      Dbl.sqrt_fin sqrt 0 (lt_irrefl 0), h0, Dbl.fin_div, if_pos, lt_irrefl, if_false]

/-- The normal `[0, 3, 4]`, of length 5, is stored with unit length. -/
theorem stored_normal_witness :
    (⟨0, 3, 4⟩ : R3 ℚ) ≠ ⟨0, 0, 0⟩ ∧
      unit_length (normalize Rat.sqrt (R3.toVec (⟨0, 3, 4⟩ : R3 ℚ))) := by
  have hne : (⟨0, 3, 4⟩ : R3 ℚ) ≠ ⟨0, 0, 0⟩ := by
    intro h
    have hz := congrArg R3.z h
    norm_num at hz
  have hs : Rat.sqrt (R3.normSq (⟨0, 3, 4⟩ : R3 ℚ)) * Rat.sqrt (R3.normSq (⟨0, 3, 4⟩ : R3 ℚ)) =
      R3.normSq (⟨0, 3, 4⟩ : R3 ℚ) := by
    have e : R3.normSq (⟨0, 3, 4⟩ : R3 ℚ) = 5 * 5 := by norm_num [R3.normSq, R3.dot]
    rw [e, Rat.sqrt_eq]
    norm_num
  exact ⟨hne, (stored_normal Rat.sqrt scan_decimal "[0, 3, 4]\x7d]".toList "\x7d]".toList
    ⟨0, 3, 4⟩ (by rfl) ⟨none, none, none⟩).2.1 hne hs⟩

end Normals

/-! ### The sphere test and the geometry of the sphere -/

section SphereGeometry

variable {K : Type} [LinearOrderedField K]

open Dbl

/-- The point `Ro + t Rd` lies on the sphere exactly when `t` is a root of the quadratic `a t² + b t + c`. -/
theorem on_sphere_along (Ro Rd C : R3 K) (r t : K) :
    on_sphere (Ro.along t Rd) C r ↔
      sphere_a Rd * t * t + sphere_b Ro Rd C * t + sphere_c Ro C r = 0 := by
  rcases Ro with ⟨ox, oy, oz⟩
  rcases Rd with ⟨dx, dy, dz⟩
  rcases C with ⟨cx, cy, cz⟩
  simp only [on_sphere, R3.along, R3.sub, R3.normSq, R3.dot, sphere_a, sphere_b, sphere_c]
  constructor
  · intro h
    linear_combination h
  · intro h
    linear_combination h

/-- The roots of `a t² + b t + c`, for `a > 0` and `s` a square root of the discriminant, are `(−b − s)/(2a)` and `(−b + s)/(2a)`. -/
theorem quadratic_roots (a b c s t : K) (ha : 0 < a) (hs : s * s = b * b - 4 * a * c) :
    a * t * t + b * t + c = 0 ↔ t = (-b - s) / (2 * a) ∨ t = (-b + s) / (2 * a) := by
  have h2a : (2 : K) * a ≠ 0 := by positivity
  have hfac : 4 * a * (a * t * t + b * t + c) = (2 * a * t + b - s) * (2 * a * t + b + s) := by
    linear_combination hs
  constructor
  · intro h
    rw [h, mul_zero] at hfac
    rcases mul_eq_zero.mp hfac.symm with h1 | h1
    · right
      rw [eq_div_iff h2a]
      linear_combination h1
    · left
      rw [eq_div_iff h2a]
      linear_combination h1
  · intro h
    have hz : (2 * a * t + b - s) * (2 * a * t + b + s) = 0 := by
      rcases h with h | h
      · rw [eq_div_iff h2a] at h
        have : 2 * a * t + b + s = 0 := by linear_combination h
        rw [this, mul_zero]
      · rw [eq_div_iff h2a] at h
        have : 2 * a * t + b - s = 0 := by linear_combination h
        rw [this, zero_mul]
    rw [← hfac] at hz
    have h4a : (4 : K) * a ≠ 0 := by positivity
    exact (mul_eq_zero.mp hz).resolve_left h4a

/-- A quadratic with a negative discriminant has no root. -/
theorem quadratic_no_root (a b c t : K) (hd : b * b - 4 * a * c < 0) :
    a * t * t + b * t + c ≠ 0 := by
  intro h
  have hsq : 4 * a * (a * t * t + b * t + c) = (2 * a * t + b) * (2 * a * t + b) -
      (b * b - 4 * a * c) := by ring
  rw [h, mul_zero] at hsq
  nlinarith [mul_self_nonneg (2 * a * t + b)]

/-- The value of `sphere_intersection` on finite arguments, in the coefficients of the quadratic. -/
theorem sphere_intersection_coeff (sqrt : K → K) (Ro Rd C : R3 K) (r : K)
    (hRd : Rd ≠ ⟨0, 0, 0⟩) :
    sphere_intersection sqrt Ro.toVec Rd.toVec C.toVec (fin r) =
      (if sphere_disc Ro Rd C r < 0 then fin (-1)
       else if 0 < (-sphere_b Ro Rd C - sqrt (sphere_disc Ro Rd C r)) / (2 * sphere_a Rd) then
         fin ((-sphere_b Ro Rd C - sqrt (sphere_disc Ro Rd C r)) / (2 * sphere_a Rd))
       else if 0 < (-sphere_b Ro Rd C + sqrt (sphere_disc Ro Rd C r)) / (2 * sphere_a Rd) then
         fin ((-sphere_b Ro Rd C + sqrt (sphere_disc Ro Rd C r)) / (2 * sphere_a Rd))
       else fin (-1)) :=
  sphere_intersection_fin sqrt Ro Rd C r hRd

/-- The square root `Rat.sqrt` is exact at the square of a non-negative
rational. -/
theorem rat_sqrt_exact (x y : ℚ) (hx : x = y * y) (hy : 0 ≤ y) :
    0 ≤ Rat.sqrt x ∧ Rat.sqrt x * Rat.sqrt x = x := by
  have h : Rat.sqrt x = y := by rw [hx, Rat.sqrt_eq, abs_of_nonneg hy]
  rw [h]
  exact ⟨hy, hx.symm⟩

/-- The discriminant for the ray from the origin along `(0, 0, 1)` and the
sphere of radius 1 centred at `(0, 0, 5)`. -/
theorem sphere_disc_example :
    sphere_disc (⟨0, 0, 0⟩ : R3 ℚ) ⟨0, 0, 1⟩ ⟨0, 0, 5⟩ 1 = 2 * 2 := by
  norm_num [sphere_disc, sphere_a, sphere_b, sphere_c, R3.normSq, R3.dot, R3.sub]

/-- The direction `(0, 0, 1)` is not the zero triple. -/
theorem forward_ne_zero : (⟨0, 0, 1⟩ : R3 ℚ) ≠ ⟨0, 0, 0⟩ := by
  intro h
  have hz := congrArg R3.z h
  norm_num at hz

/-- C18: for finite `Ro`, `C`, `r` and a non-zero finite `Rd`, the square root
exact at the discriminant: if `sphere_intersection` returns `t > 0` then the
point `Ro + t Rd` lies on the sphere and no `t2` with `0 < t2 < t` has
`Ro + t2 Rd` on the sphere; it returns `-1` exactly when no strictly positive
`t` puts `Ro + t Rd` on the sphere; and it returns either `-1` or a strictly
positive value. -/
theorem sphere_intersection_geometric (sqrt : K → K) (Ro Rd C : R3 K) (r : K)
    (hRd : Rd ≠ ⟨0, 0, 0⟩)
    (hs : 0 ≤ sphere_disc Ro Rd C r →
      0 ≤ sqrt (sphere_disc Ro Rd C r) ∧
      sqrt (sphere_disc Ro Rd C r) * sqrt (sphere_disc Ro Rd C r) = sphere_disc Ro Rd C r) :
    (∀ t : K, 0 < t → sphere_intersection sqrt Ro.toVec Rd.toVec C.toVec (fin r) = fin t →
      on_sphere (Ro.along t Rd) C r ∧
      ∀ t2 : K, 0 < t2 → t2 < t → ¬ on_sphere (Ro.along t2 Rd) C r) ∧
    (sphere_intersection sqrt Ro.toVec Rd.toVec C.toVec (fin r) = fin (-1) ↔
      ∀ t : K, 0 < t → ¬ on_sphere (Ro.along t Rd) C r) ∧
    (sphere_intersection sqrt Ro.toVec Rd.toVec C.toVec (fin r) = fin (-1) ∨
      ∃ t : K, 0 < t ∧ sphere_intersection sqrt Ro.toVec Rd.toVec C.toVec (fin r) = fin t) := by
  have ha : 0 < sphere_a Rd := R3.normSq_pos Rd hRd
  have h2a : (0 : K) < 2 * sphere_a Rd := by positivity
  rw [sphere_intersection_coeff sqrt Ro Rd C r hRd]
  simp only [on_sphere_along]
  by_cases hd : sphere_disc Ro Rd C r < 0
  · rw [if_pos hd]
    have hno : ∀ t : K, sphere_a Rd * t * t + sphere_b Ro Rd C * t + sphere_c Ro C r ≠ 0 :=
      fun t => quadratic_no_root _ _ _ t hd
    refine ⟨?_, ⟨fun _ t _ => hno t, fun _ => rfl⟩, Or.inl rfl⟩
    intro t ht h
    rw [Dbl.fin.injEq] at h
    linarith
  · rw [if_neg hd]
    obtain ⟨hs0, hss⟩ := hs (not_lt.mp hd)
    have hroots := fun t : K =>
      quadratic_roots (sphere_a Rd) (sphere_b Ro Rd C) (sphere_c Ro C r)
        (sqrt (sphere_disc Ro Rd C r)) t ha hss
    generalize sqrt (sphere_disc Ro Rd C r) = s at hs0 hss hroots ⊢
    have hle : (-sphere_b Ro Rd C - s) / (2 * sphere_a Rd) ≤
        (-sphere_b Ro Rd C + s) / (2 * sphere_a Rd) := by
      apply div_le_div_of_nonneg_right _ h2a.le
      linarith
    by_cases h1 : 0 < (-sphere_b Ro Rd C - s) / (2 * sphere_a Rd)
    · rw [if_pos h1]
      refine ⟨?_, ⟨fun h => ?_, fun h => ?_⟩, Or.inr ⟨_, h1, rfl⟩⟩
      · intro t ht h
        rw [Dbl.fin.injEq] at h
        subst h
        refine ⟨(hroots _).mpr (Or.inl rfl), ?_⟩
        intro t2 ht2 hlt hon
        rcases (hroots t2).mp hon with e | e
        · rw [e] at hlt
          exact lt_irrefl _ hlt
        · rw [e] at hlt
          exact absurd hlt (not_lt.mpr hle)
      · rw [Dbl.fin.injEq] at h
        linarith
      · exact absurd ((hroots _).mpr (Or.inl rfl)) (h _ h1)
    · rw [if_neg h1]
      by_cases h2 : 0 < (-sphere_b Ro Rd C + s) / (2 * sphere_a Rd)
      · rw [if_pos h2]
        refine ⟨?_, ⟨fun h => ?_, fun h => ?_⟩, Or.inr ⟨_, h2, rfl⟩⟩
        · intro t ht h
          rw [Dbl.fin.injEq] at h
          subst h
          refine ⟨(hroots _).mpr (Or.inr rfl), ?_⟩
          intro t2 ht2 hlt hon
          rcases (hroots t2).mp hon with e | e
          · rw [e] at ht2
            exact h1 ht2
          · rw [e] at hlt
            exact lt_irrefl _ hlt
        · rw [Dbl.fin.injEq] at h
          linarith
        · exact absurd ((hroots _).mpr (Or.inr rfl)) (h _ h2)
      · rw [if_neg h2]
        refine ⟨?_, ⟨fun _ t ht hon => ?_, fun _ => rfl⟩, Or.inl rfl⟩
        · intro t ht h
          rw [Dbl.fin.injEq] at h
          linarith
        · rcases (hroots t).mp hon with e | e
          · rw [e] at ht
            exact h1 ht
          · rw [e] at ht
            exact h2 ht

/-- The ray from the origin along `(0, 0, 1)` meets the sphere of radius 1
centred at `(0, 0, 5)` at the point `(0, 0, 4)`. -/
theorem sphere_intersection_geometric_witness :
    (⟨0, 0, 1⟩ : R3 ℚ) ≠ ⟨0, 0, 0⟩ ∧
      on_sphere (R3.along (⟨0, 0, 0⟩ : R3 ℚ) (5 - 1) ⟨0, 0, 1⟩) ⟨0, 0, 5⟩ 1 :=
  ⟨forward_ne_zero,
    ((sphere_intersection_geometric Rat.sqrt ⟨0, 0, 0⟩ ⟨0, 0, 1⟩ ⟨0, 0, 5⟩ 1 forward_ne_zero
      (fun _ => rat_sqrt_exact _ 2 sphere_disc_example (by norm_num))).1 (5 - 1) (by norm_num)
      (sphere_intersection_forward Rat.sqrt rat_sqrt_mul_self 5 1 (by norm_num)
        (by norm_num))).1⟩

/-- C19: for finite `Ro`, `C`, `r`, a non-zero finite `Rd` and a factor
`k > 0`, the square root exact at the two discriminants:
`sphere_intersection` on the direction `k Rd` returns `-1` exactly when it
does on `Rd`, and when it returns `t > 0` on `Rd` it returns `t / k` on
`k Rd`; the hit point is the same, `Ro + (t / k) (k Rd) = Ro + t Rd`. -/
theorem sphere_intersection_scaled (sqrt : K → K) (Ro Rd C : R3 K) (r k : K)
    (hRd : Rd ≠ ⟨0, 0, 0⟩) (hk : 0 < k)
    (hs : 0 ≤ sphere_disc Ro Rd C r →
      0 ≤ sqrt (sphere_disc Ro Rd C r) ∧
      sqrt (sphere_disc Ro Rd C r) * sqrt (sphere_disc Ro Rd C r) = sphere_disc Ro Rd C r)
    (hsk : 0 ≤ sphere_disc Ro (Rd.scale k) C r →
      0 ≤ sqrt (sphere_disc Ro (Rd.scale k) C r) ∧
      sqrt (sphere_disc Ro (Rd.scale k) C r) * sqrt (sphere_disc Ro (Rd.scale k) C r) =
        sphere_disc Ro (Rd.scale k) C r) :
    (sphere_intersection sqrt Ro.toVec (Rd.scale k).toVec C.toVec (fin r) = fin (-1) ↔
      sphere_intersection sqrt Ro.toVec Rd.toVec C.toVec (fin r) = fin (-1)) ∧
    (∀ t : K, 0 < t → sphere_intersection sqrt Ro.toVec Rd.toVec C.toVec (fin r) = fin t →
      sphere_intersection sqrt Ro.toVec (Rd.scale k).toVec C.toVec (fin r) = fin (t / k)) ∧
    (∀ t : K, Ro.along (t / k) (Rd.scale k) = Ro.along t Rd) := by
  have hk0 : k ≠ 0 := ne_of_gt hk
  have ha : 0 < sphere_a Rd := R3.normSq_pos Rd hRd
  have h2a : (0 : K) < 2 * sphere_a Rd := by positivity
  have hRdk : Rd.scale k ≠ ⟨0, 0, 0⟩ := by
    intro h
    apply hRd
    rcases Rd with ⟨dx, dy, dz⟩
    simp only [R3.scale, R3.mk.injEq, mul_eq_zero, hk0, false_or] at h
    rw [h.1, h.2.1, h.2.2]
  have hak : sphere_a (Rd.scale k) = k * k * sphere_a Rd := by
    simp only [sphere_a, R3.normSq, R3.dot, R3.scale]
    ring
  have hbk : sphere_b Ro (Rd.scale k) C = k * sphere_b Ro Rd C := by
    simp only [sphere_b, R3.dot, R3.scale]
    ring
  have hdk : sphere_disc Ro (Rd.scale k) C r = k * k * sphere_disc Ro Rd C r := by
    simp only [sphere_disc, hak, hbk]
    ring
  have hkk : (0 : K) < k * k := mul_pos hk hk
  have halong : ∀ t : K, Ro.along (t / k) (Rd.scale k) = Ro.along t Rd := by
    intro t
    simp only [R3.along, R3.scale, R3.mk.injEq]
    refine ⟨?_, ?_, ?_⟩ <;> field_simp <;> ring
  rw [sphere_intersection_coeff sqrt Ro Rd C r hRd,
    sphere_intersection_coeff sqrt Ro (Rd.scale k) C r hRdk]
  by_cases hd : sphere_disc Ro Rd C r < 0
  · have hdk2 : sphere_disc Ro (Rd.scale k) C r < 0 := by
      rw [hdk]
      exact mul_neg_of_pos_of_neg hkk hd
    rw [if_pos hd, if_pos hdk2]
    refine ⟨Iff.rfl, ?_, halong⟩
    intro t ht h
    rw [Dbl.fin.injEq] at h
    linarith
  · have hd0 : 0 ≤ sphere_disc Ro Rd C r := not_lt.mp hd
    have hdk0 : 0 ≤ sphere_disc Ro (Rd.scale k) C r := by
      rw [hdk]
      exact mul_nonneg hkk.le hd0
    obtain ⟨hs0, hss⟩ := hs hd0
    obtain ⟨hsk0, hsks⟩ := hsk hdk0
    have hroot : sqrt (sphere_disc Ro (Rd.scale k) C r) = k * sqrt (sphere_disc Ro Rd C r) := by
      have hsq : sqrt (sphere_disc Ro (Rd.scale k) C r) * sqrt (sphere_disc Ro (Rd.scale k) C r) =
          (k * sqrt (sphere_disc Ro Rd C r)) * (k * sqrt (sphere_disc Ro Rd C r)) := by
        rw [hsks, hdk]
        linear_combination (-(k * k)) * hss
      have hks0 : 0 ≤ k * sqrt (sphere_disc Ro Rd C r) := mul_nonneg hk.le hs0
      exact (mul_self_inj hsk0 hks0).mp hsq
    rw [if_neg hd, if_neg (not_lt.mpr hdk0), hroot, hak, hbk]
    generalize sqrt (sphere_disc Ro Rd C r) = s
    have e1 : (-(k * sphere_b Ro Rd C) - k * s) / (2 * (k * k * sphere_a Rd)) =
        (-sphere_b Ro Rd C - s) / (2 * sphere_a Rd) / k := by
      field_simp
      ring
    have e2 : (-(k * sphere_b Ro Rd C) + k * s) / (2 * (k * k * sphere_a Rd)) =
        (-sphere_b Ro Rd C + s) / (2 * sphere_a Rd) / k := by
      field_simp
      ring
    rw [e1, e2]
    have hpos : ∀ x : K, 0 < x / k ↔ 0 < x := fun x => div_pos_iff_of_pos_right hk
    by_cases h1 : 0 < (-sphere_b Ro Rd C - s) / (2 * sphere_a Rd)
    · rw [if_pos h1, if_pos ((hpos _).mpr h1)]
      refine ⟨⟨fun h => ?_, fun h => ?_⟩, ?_, halong⟩
      · rw [Dbl.fin.injEq] at h
        have := (hpos _).mpr h1
        linarith
      · rw [Dbl.fin.injEq] at h
        linarith
      · intro t ht h
        rw [Dbl.fin.injEq] at h
        rw [h]
    · rw [if_neg h1, if_neg (fun h => h1 ((hpos _).mp h))]
      by_cases h2 : 0 < (-sphere_b Ro Rd C + s) / (2 * sphere_a Rd)
      · rw [if_pos h2, if_pos ((hpos _).mpr h2)]
        refine ⟨⟨fun h => ?_, fun h => ?_⟩, ?_, halong⟩
        · rw [Dbl.fin.injEq] at h
          have := (hpos _).mpr h2
          linarith
        · rw [Dbl.fin.injEq] at h
          linarith
        · intro t ht h
          rw [Dbl.fin.injEq] at h
          rw [h]
      · rw [if_neg h2, if_neg (fun h => h2 ((hpos _).mp h))]
        refine ⟨Iff.rfl, ?_, halong⟩
        intro t ht h
        rw [Dbl.fin.injEq] at h
        linarith

/-- The direction `(0, 0, 2)` halves the distance to the sphere of radius 1
centred at `(0, 0, 5)`. -/
theorem sphere_intersection_scaled_witness :
    (⟨0, 0, 1⟩ : R3 ℚ) ≠ ⟨0, 0, 0⟩ ∧ (0 : ℚ) < 2 ∧
      sphere_intersection Rat.sqrt (R3.toVec (⟨0, 0, 0⟩ : R3 ℚ))
        (R3.toVec (R3.scale 2 ⟨0, 0, 1⟩)) (R3.toVec ⟨0, 0, 5⟩) (fin 1) = fin ((5 - 1) / 2) := by
  have hdk : sphere_disc (⟨0, 0, 0⟩ : R3 ℚ) (R3.scale 2 ⟨0, 0, 1⟩) ⟨0, 0, 5⟩ 1 = 4 * 4 := by
    norm_num [sphere_disc, sphere_a, sphere_b, sphere_c, R3.normSq, R3.dot, R3.sub, R3.scale]
  exact ⟨forward_ne_zero, by norm_num,
    (sphere_intersection_scaled Rat.sqrt ⟨0, 0, 0⟩ ⟨0, 0, 1⟩ ⟨0, 0, 5⟩ 1 2 forward_ne_zero
      (by norm_num) (fun _ => rat_sqrt_exact _ 2 sphere_disc_example (by norm_num))
      (fun _ => rat_sqrt_exact _ 4 hdk (by norm_num))).2.1 (5 - 1) (by norm_num)
      (sphere_intersection_forward Rat.sqrt rat_sqrt_mul_self 5 1 (by norm_num)
        (by norm_num))⟩

/-- C20: for a ray origin strictly inside the sphere (`|Ro − C|² < r²`) and a
non-zero finite direction, the square root exact at the discriminant:
`sphere_intersection` returns the larger root `(−b + sqrt disc)/(2a)`, which
is strictly positive, the smaller root is negative, and the result is not
`-1`. -/
theorem sphere_intersection_inside (sqrt : K → K) (Ro Rd C : R3 K) (r : K)
    (hRd : Rd ≠ ⟨0, 0, 0⟩) (hin : (Ro.sub C).normSq < r * r)
    (hs : 0 ≤ sphere_disc Ro Rd C r →
      0 ≤ sqrt (sphere_disc Ro Rd C r) ∧
      sqrt (sphere_disc Ro Rd C r) * sqrt (sphere_disc Ro Rd C r) = sphere_disc Ro Rd C r) :
    sphere_intersection sqrt Ro.toVec Rd.toVec C.toVec (fin r) =
      fin ((-sphere_b Ro Rd C + sqrt (sphere_disc Ro Rd C r)) / (2 * sphere_a Rd)) ∧
    0 < (-sphere_b Ro Rd C + sqrt (sphere_disc Ro Rd C r)) / (2 * sphere_a Rd) ∧
    (-sphere_b Ro Rd C - sqrt (sphere_disc Ro Rd C r)) / (2 * sphere_a Rd) < 0 ∧
    sphere_intersection sqrt Ro.toVec Rd.toVec C.toVec (fin r) ≠ fin (-1) := by
  have ha : 0 < sphere_a Rd := R3.normSq_pos Rd hRd
  have h2a : (0 : K) < 2 * sphere_a Rd := by positivity
  have hc : sphere_c Ro C r < 0 := by
    unfold sphere_c
    linarith
  have hdb : sphere_b Ro Rd C * sphere_b Ro Rd C < sphere_disc Ro Rd C r := by
    unfold sphere_disc
    nlinarith [mul_pos ha (neg_pos.mpr hc)]
  have hd0 : 0 ≤ sphere_disc Ro Rd C r := le_trans (mul_self_nonneg _) hdb.le
  obtain ⟨hs0, hss⟩ := hs hd0
  rw [sphere_intersection_coeff sqrt Ro Rd C r hRd, if_neg (not_lt.mpr hd0)]
  generalize sqrt (sphere_disc Ro Rd C r) = s at hs0 hss ⊢
  rw [← hss] at hdb
  have hsb : sphere_b Ro Rd C < s := by
    by_contra hcon
    have hle : s ≤ sphere_b Ro Rd C := not_lt.mp hcon
    nlinarith
  have hsnb : -sphere_b Ro Rd C < s := by
    by_contra hcon
    have hle : s ≤ -sphere_b Ro Rd C := not_lt.mp hcon
    nlinarith
  have h1 : (-sphere_b Ro Rd C - s) / (2 * sphere_a Rd) < 0 :=
    div_neg_of_neg_of_pos (by linarith) h2a
  have h2 : 0 < (-sphere_b Ro Rd C + s) / (2 * sphere_a Rd) :=
    div_pos (by linarith) h2a
  rw [if_neg (not_lt.mpr h1.le), if_pos h2]
  refine ⟨rfl, h2, h1, ?_⟩
  intro h
  rw [Dbl.fin.injEq] at h
  linarith

/-- From the centre of the unit sphere, along `(0, 0, 1)`, the ray leaves the
sphere: the result is not `-1`. -/
theorem sphere_intersection_inside_witness :
    (⟨0, 0, 1⟩ : R3 ℚ) ≠ ⟨0, 0, 0⟩ ∧
      R3.normSq (R3.sub (⟨0, 0, 0⟩ : R3 ℚ) ⟨0, 0, 0⟩) < 1 * 1 ∧
      sphere_intersection Rat.sqrt (R3.toVec (⟨0, 0, 0⟩ : R3 ℚ)) (R3.toVec ⟨0, 0, 1⟩)
        (R3.toVec ⟨0, 0, 0⟩) (fin 1) ≠ fin (-1) := by
  have hin : R3.normSq (R3.sub (⟨0, 0, 0⟩ : R3 ℚ) ⟨0, 0, 0⟩) < 1 * 1 := by
    norm_num [R3.normSq, R3.dot, R3.sub]
  have hd : sphere_disc (⟨0, 0, 0⟩ : R3 ℚ) ⟨0, 0, 1⟩ ⟨0, 0, 0⟩ 1 = 2 * 2 := by
    norm_num [sphere_disc, sphere_a, sphere_b, sphere_c, R3.normSq, R3.dot, R3.sub]
  exact ⟨forward_ne_zero, hin,
    (sphere_intersection_inside Rat.sqrt ⟨0, 0, 0⟩ ⟨0, 0, 1⟩ ⟨0, 0, 0⟩ 1 forward_ne_zero hin
      (fun _ => rat_sqrt_exact _ 2 hd (by norm_num))).2.2.2⟩

end SphereGeometry

end Raycast
